import Mathlib

/-!
Verification of the Users/Tasks sync engine (userController.js, taskController.js).

The controllers are embedded shallowly: Mongo documents become records, the two
collections become association lists keyed by numeric ids (Mongo object ids are
opaque strings, modelled as `Nat`; an empty-string `assignedUser` is `none`),
and each Express handler becomes a pure function threading the store `DB` and
returning the response payload in `Except`.  Store writes are applied in the
same order as the `save()` calls in the source, so an error result leaves the
store exactly as the writes performed before the error left it.
-/

namespace TaskSync

/-- User document: name, email, cached list of pending task ids. -/
structure UserRec where
  name : String
  email : String
  pendingTasks : List Nat
  deriving DecidableEq

/-- Task document.  `assignedUser = none` models the empty-string id. -/
structure TaskRec where
  name : String
  description : String
  deadline : String
  completed : Bool
  assignedUser : Option Nat
  assignedUserName : String
  deriving DecidableEq

/-- The document store: both collections plus the id allocators. -/
structure DB where
  users : List (Nat × UserRec)
  tasks : List (Nat × TaskRec)
  nextUserId : Nat
  nextTaskId : Nat
  deriving DecidableEq

/-- Association-list lookup by id (models `Model.findById`). -/
def lookupId {α : Type} : List (Nat × α) → Nat → Option α
  | [], _ => none
  | p :: rest, k => if p.1 = k then some p.2 else lookupId rest k

/-- Overwrite the record stored under an id (models `document.save()` on a
fetched document). -/
def setId {α : Type} (l : List (Nat × α)) (k : Nat) (v : α) : List (Nat × α) :=
  l.map (fun p => if p.1 = k then (k, v) else p)

/-- ASCII lower-casing of one character. -/
def lowerChar (c : Char) : Char :=
  if 'A' ≤ c ∧ c ≤ 'Z' then Char.ofNat (c.toNat + 32) else c

/-- Case-insensitive email equality (models the anchored `RegExp` with the
`i` flag used by the email-uniqueness queries, ASCII case folding). -/
def emailEqCI (a b : String) : Bool :=
  a.data.map lowerChar == b.data.map lowerChar

/-- Add taskId to the user's pendingTasks if not already present; identical
helper `addPending` appears in userController.js and taskController.js. -/
def addPending (user : UserRec) (taskId : Nat) : UserRec :=
  if taskId ∈ user.pendingTasks then user
  else { user with pendingTasks := user.pendingTasks ++ [taskId] }

/-- Remove taskId from the user's pendingTasks; identical helper
`removePending` appears in userController.js and taskController.js. -/
def removePending (user : UserRec) (taskId : Nat) : UserRec :=
  { user with pendingTasks := user.pendingTasks.filter (fun i => decide (i ≠ taskId)) }

/-- Error classes surfaced by the controllers (`ErrorResponse` messages). -/
inductive Err where
  | badRequest : String → Err
  | notFound : String → Err
  deriving DecidableEq

instance {e a : Type} [DecidableEq e] [DecidableEq a] : DecidableEq (Except e a)
  | Except.error x, Except.error y =>
    match decEq x y with
    | isTrue h => isTrue (h ▸ rfl)
    | isFalse h => isFalse (fun hc => h (Except.error.inj hc))
  | Except.error _, Except.ok _ => isFalse (fun hc => Except.noConfusion hc)
  | Except.ok _, Except.error _ => isFalse (fun hc => Except.noConfusion hc)
  | Except.ok x, Except.ok y =>
    match decEq x y with
    | isTrue h => isTrue (h ▸ rfl)
    | isFalse h => isFalse (fun hc => h (Except.ok.inj hc))

/-- Side-effect counters of the user controller (createUser/updateUser). -/
structure UCounters where
  reassigned : Nat
  unassigned : Nat
  completedAssigned : Nat
  completedNotReassigned : Nat
  invalid : Nat
  deriving DecidableEq

def UCounters.zero : UCounters := ⟨0, 0, 0, 0, 0⟩

/-- State threaded through the per-task classification loop of
createUser/updateUser: the task collection, the in-memory user document,
and the counters. -/
structure ULoop where
  tasks : List (Nat × TaskRec)
  user : UserRec
  counters : UCounters
  deriving DecidableEq

/-- One iteration of the per-task classification loop, the `for (const taskId
of incoming)` body shared verbatim by createUser and updateUser
(userController.js lines 132-165 and 224-257). -/
def classifyPendingTask (uid : Nat) (s : ULoop) (taskId : Nat) : ULoop :=
  match lookupId s.tasks taskId with
  | none =>
    { s with counters := { s.counters with invalid := s.counters.invalid + 1 } }
  | some task =>
    if task.completed then
      if task.assignedUser = none then
        { s with
          tasks := setId s.tasks taskId
            { task with assignedUser := some uid, assignedUserName := s.user.name },
          counters := { s.counters with
            completedAssigned := s.counters.completedAssigned + 1 } }
      else if task.assignedUser ≠ some uid then
        { s with counters := { s.counters with
            completedNotReassigned := s.counters.completedNotReassigned + 1 } }
      else s
    else
      if task.assignedUser = none then
        { s with
          tasks := setId s.tasks taskId
            { task with assignedUser := some uid, assignedUserName := s.user.name },
          user := addPending s.user taskId }
      else if task.assignedUser ≠ some uid then
        { s with
          tasks := setId s.tasks taskId
            { task with assignedUser := some uid, assignedUserName := s.user.name },
          user := addPending s.user taskId,
          counters := { s.counters with reassigned := s.counters.reassigned + 1 } }
      else
        { s with user := addPending s.user taskId }

/-- POST /users (createUser in userController.js).  `pendingTasks = none`
models an absent or non-array request field. -/
def createUser (db : DB) (name email : String) (pendingTasks : Option (List Nat)) :
    DB × Except Err (Nat × UserRec × UCounters) :=
  if name = "" ∨ email = "" then
    (db, Except.error (Err.badRequest "Name and Email are required"))
  else if (db.users.find? (fun p => emailEqCI p.2.email email)).isSome then
    (db, Except.error (Err.badRequest "Email already exists"))
  else
    let uid := db.nextUserId
    let u0 : UserRec := { name := name, email := email, pendingTasks := [] }
    let db1 : DB :=
      { db with users := db.users ++ [(uid, u0)], nextUserId := db.nextUserId + 1 }
    let incoming := pendingTasks.getD []
    let s := incoming.foldl (classifyPendingTask uid)
      { tasks := db1.tasks, user := u0, counters := UCounters.zero }
    ({ db1 with tasks := s.tasks, users := setId db1.users uid s.user },
     Except.ok (uid, s.user, s.counters))

/-- One iteration of updateUser's cleanup loop over the previous pending ids
(userController.js lines 212-222): a task dropped from the incoming list and
still assigned to this user gets its assignment cleared. -/
def dropOldPending (uid : Nat) (incoming : List Nat)
    (acc : List (Nat × TaskRec) × Nat) (oldTaskId : Nat) :
    List (Nat × TaskRec) × Nat :=
  if oldTaskId ∈ incoming then acc
  else
    match lookupId acc.1 oldTaskId with
    | some task =>
      if task.assignedUser = some uid then
        (setId acc.1 oldTaskId
          { task with assignedUser := none, assignedUserName := "unassigned" },
         acc.2 + 1)
      else acc
    | none => acc

/-- PUT /users/:id (updateUser in userController.js), strict replace. -/
def updateUser (db : DB) (uid : Nat) (name email : String)
    (pendingTasks : Option (List Nat)) :
    DB × Except Err (UserRec × UCounters) :=
  if name = "" ∨ email = "" then
    (db, Except.error (Err.badRequest "Name and Email are required"))
  else
    match lookupId db.users uid with
    | none => (db, Except.error (Err.notFound "User not found"))
    | some user =>
      if (db.users.find? (fun p => decide (p.1 ≠ uid) && emailEqCI p.2.email email)).isSome then
        (db, Except.error (Err.badRequest "Email already exists"))
      else
        let oldPending := user.pendingTasks
        let incoming := pendingTasks.getD []
        let user1 : UserRec := { user with name := name, email := email, pendingTasks := [] }
        let cleaned := oldPending.foldl (dropOldPending uid incoming) (db.tasks, 0)
        let s := incoming.foldl (classifyPendingTask uid)
          { tasks := cleaned.1, user := user1,
            counters := { UCounters.zero with unassigned := cleaned.2 } }
        ({ db with tasks := s.tasks, users := setId db.users uid s.user },
         Except.ok (s.user, s.counters))

/-- Predicate of the `Task.find` filter in deleteUser: assigned to this user
and not completed. -/
def assignedIncomplete (uid : Nat) (t : TaskRec) : Bool :=
  t.assignedUser == some uid && !t.completed

/-- DELETE /users/:id (deleteUser in userController.js): unassign only this
user's incomplete tasks, then delete the user; returns the deleted user and
the number of tasks unassigned. -/
def deleteUser (db : DB) (uid : Nat) : DB × Except Err (UserRec × Nat) :=
  match lookupId db.users uid with
  | none => (db, Except.error (Err.notFound "User not found"))
  | some user =>
    let tasks1 := db.tasks.map (fun p =>
      (p.1, if assignedIncomplete uid p.2 then
        { p.2 with assignedUser := none, assignedUserName := "unassigned" }
      else p.2))
    let n := db.tasks.countP (fun p => assignedIncomplete uid p.2)
    ({ db with users := db.users.filter (fun p => decide (p.1 ≠ uid)), tasks := tasks1 },
     Except.ok (user, n))

/-- Counters of the task controller (updateTask). -/
structure TCounters where
  reassigned : Nat
  unassigned : Nat
  addedPending : Nat
  removedPending : Nat
  completedAssigned : Nat
  completedNotReassigned : Nat
  deriving DecidableEq

def TCounters.zero : TCounters := ⟨0, 0, 0, 0, 0, 0⟩

/-- loadUserOrNull from taskController.js: the empty id resolves to null, a
non-empty unknown id is a 400 error, otherwise the user document. -/
def loadUserOrNull (db : DB) (userId : Option Nat) :
    Except Err (Option (Nat × UserRec)) :=
  match userId with
  | none => Except.ok none
  | some uidv =>
    match lookupId db.users uidv with
    | none => Except.error (Err.badRequest "Invalid assigned user ID")
    | some u => Except.ok (some (uidv, u))

/-- POST /tasks (createTask in taskController.js). -/
def createTask (db : DB) (name description deadline : String) (completed : Bool)
    (assignedUser : Option Nat) : DB × Except Err (Nat × TaskRec) :=
  if name = "" ∨ deadline = "" then
    (db, Except.error (Err.badRequest "Name and Deadline are required"))
  else
    match loadUserOrNull db assignedUser with
    | Except.error e => (db, Except.error e)
    | Except.ok resolved =>
      let tid := db.nextTaskId
      let task : TaskRec :=
        { name := name, description := description, deadline := deadline,
          completed := completed,
          assignedUser := resolved.map Prod.fst,
          assignedUserName := match resolved with
            | some pr => pr.2.name
            | none => "unassigned" }
      let db1 : DB :=
        { db with tasks := db.tasks ++ [(tid, task)], nextTaskId := db.nextTaskId + 1 }
      match resolved with
      | some pr =>
        if completed then (db1, Except.ok (tid, task))
        else
          ({ db1 with users := setId db1.users pr.1 (addPending pr.2 tid) },
           Except.ok (tid, task))
      | none => (db1, Except.ok (tid, task))

/-- PUT /tasks/:id (updateTask in taskController.js), strict replace with the
completed-task guard evaluated before the general sync path. -/
def updateTask (db : DB) (tid : Nat) (name description deadline : String)
    (completed : Bool) (assignedUserId : Option Nat) :
    DB × Except Err (TaskRec × TCounters) :=
  match lookupId db.tasks tid with
  | none => (db, Except.error (Err.notFound "Task not found"))
  | some task =>
    if name = "" ∨ deadline = "" then
      (db, Except.error (Err.badRequest "Name and Deadline are required"))
    else
      match loadUserOrNull db assignedUserId with
      | Except.error e => (db, Except.error e)
      | Except.ok newUser =>
        let oldUserId := task.assignedUser
        let oldCompleted := task.completed
        let newUserId := newUser.map Prod.fst
        let newAssignedUserName := match newUser with
          | some pr => pr.2.name
          | none => "unassigned"
        if completed = true ∧ oldUserId ≠ none ∧ newUserId ≠ none ∧ newUserId ≠ oldUserId then
          let task1 := { task with
            name := name, description := description, deadline := deadline,
            completed := completed }
          ({ db with tasks := setId db.tasks tid task1 },
           Except.ok (task1, { TCounters.zero with completedNotReassigned := 1 }))
        else if completed = true ∧ oldUserId = none ∧ newUserId ≠ none then
          let task1 := { task with
            name := name, description := description, deadline := deadline,
            completed := completed, assignedUser := newUserId,
            assignedUserName := newAssignedUserName }
          ({ db with tasks := setId db.tasks tid task1 },
           Except.ok (task1, { TCounters.zero with completedAssigned := 1 }))
        else
          let task1 := { task with
            name := name, description := description, deadline := deadline,
            completed := completed, assignedUser := newUserId,
            assignedUserName := newAssignedUserName }
          if oldUserId ≠ newUserId then
            let step1 : DB × TCounters :=
              match oldUserId with
              | some ouid =>
                match lookupId db.users ouid with
                | some oldUser =>
                  ({ db with users := setId db.users ouid (removePending oldUser tid) },
                   { TCounters.zero with unassigned := 1 })
                | none => (db, TCounters.zero)
              | none => (db, TCounters.zero)
            let step2 : DB × TCounters :=
              if newUserId ≠ none ∧ completed = false then
                match newUser with
                | some pr =>
                  ({ step1.1 with users := setId step1.1.users pr.1 (addPending pr.2 tid) },
                   { step1.2 with
                     reassigned := step1.2.reassigned + 1,
                     addedPending := step1.2.addedPending + 1 })
                | none => step1
              else step1
            ({ step2.1 with tasks := setId step2.1.tasks tid task1 },
             Except.ok (task1, step2.2))
          else
            let stepS : DB × TCounters :=
              match newUserId with
              | some nuid =>
                match lookupId db.users nuid with
                | some sameUser =>
                  if oldCompleted = false ∧ completed = true then
                    ({ db with users := setId db.users nuid (removePending sameUser tid) },
                     { TCounters.zero with removedPending := 1 })
                  else if oldCompleted = true ∧ completed = false then
                    ({ db with users := setId db.users nuid (addPending sameUser tid) },
                     { TCounters.zero with addedPending := 1 })
                  else (db, TCounters.zero)
                | none => (db, TCounters.zero)
              | none => (db, TCounters.zero)
            ({ stepS.1 with tasks := setId stepS.1.tasks tid task1 },
             Except.ok (task1, stepS.2))

/-- DELETE /tasks/:id (deleteTask in taskController.js). -/
def deleteTask (db : DB) (tid : Nat) : DB × Except Err TaskRec :=
  match lookupId db.tasks tid with
  | none => (db, Except.error (Err.notFound "Task not found"))
  | some task =>
    let db1 : DB :=
      match task.assignedUser with
      | some auid =>
        match lookupId db.users auid with
        | some u => { db with users := setId db.users auid (removePending u tid) }
        | none => db
      | none => db
    ({ db1 with tasks := db1.tasks.filter (fun p => decide (p.1 ≠ tid)) },
     Except.ok task)

/-- The six sync-engine operations with their request payloads. -/
inductive Op where
  | createUser (name email : String) (pendingTasks : Option (List Nat))
  | updateUser (uid : Nat) (name email : String) (pendingTasks : Option (List Nat))
  | deleteUser (uid : Nat)
  | createTask (name description deadline : String) (completed : Bool)
      (assignedUser : Option Nat)
  | updateTask (tid : Nat) (name description deadline : String) (completed : Bool)
      (assignedUser : Option Nat)
  | deleteTask (tid : Nat)
  deriving DecidableEq

/-- Run one operation against the store, keeping whatever state the handler
left behind (all error paths return before the first write). -/
def applyOp (db : DB) : Op → DB
  | Op.createUser n e p => (createUser db n e p).1
  | Op.updateUser uid n e p => (updateUser db uid n e p).1
  | Op.deleteUser uid => (deleteUser db uid).1
  | Op.createTask n d dl c a => (createTask db n d dl c a).1
  | Op.updateTask tid n d dl c a => (updateTask db tid n d dl c a).1
  | Op.deleteTask tid => (deleteTask db tid).1

/-- Run a sequence of operations in order. -/
def applyOps (db : DB) (ops : List Op) : DB :=
  ops.foldl applyOp db

/-- The empty store. -/
def initDB : DB := ⟨[], [], 0, 0⟩

/-- A task id counts as pending for uid when the task exists, is assigned to
uid, and is not completed. -/
def taskPendingFor (tasks : List (Nat × TaskRec)) (uid tid : Nat) : Bool :=
  match lookupId tasks tid with
  | some t => t.assignedUser == some uid && !t.completed
  | none => false

/-- Mirror invariant (spec section 3.2): every user's pendingTasks lists
exactly the ids of the existing tasks assigned to that user and not
completed. -/
def MirrorInv (db : DB) : Prop :=
  ∀ p ∈ db.users,
    (∀ tid ∈ p.2.pendingTasks, taskPendingFor db.tasks p.1 tid = true) ∧
    (∀ q ∈ db.tasks, q.2.assignedUser = some p.1 → q.2.completed = false →
      q.1 ∈ p.2.pendingTasks)

instance (db : DB) : Decidable (MirrorInv db) :=
  inferInstanceAs (Decidable (∀ p ∈ db.users,
    (∀ tid ∈ p.2.pendingTasks, taskPendingFor db.tasks p.1 tid = true) ∧
    (∀ q ∈ db.tasks, q.2.assignedUser = some p.1 → q.2.completed = false →
      q.1 ∈ p.2.pendingTasks)))

/-- The task's assigned-user id, when present, is below the given bound. -/
def assignedUnder (t : TaskRec) (bound : Nat) : Bool :=
  match t.assignedUser with
  | some a => decide (a < bound)
  | none => true

/-- Store well-formedness: unique ids, ids below the allocators, and
assigned-user references below the user-id allocator. -/
def Wf (db : DB) : Prop :=
  (db.users.map Prod.fst).Nodup ∧ (db.tasks.map Prod.fst).Nodup ∧
  (∀ p ∈ db.users, p.1 < db.nextUserId) ∧
  (∀ q ∈ db.tasks, q.1 < db.nextTaskId ∧ assignedUnder q.2 db.nextUserId = true)

instance (db : DB) : Decidable (Wf db) :=
  inferInstanceAs (Decidable (_ ∧ _ ∧ (∀ p ∈ db.users, p.1 < db.nextUserId) ∧
    (∀ q ∈ db.tasks, q.1 < db.nextTaskId ∧ assignedUnder q.2 db.nextUserId = true)))

/-! ### Association-list lemmas -/

theorem lookupId_append_of_some {α : Type} {l₁ : List (Nat × α)} (l₂ : List (Nat × α))
    {k : Nat} {v : α} (h : lookupId l₁ k = some v) : lookupId (l₁ ++ l₂) k = some v := by
  induction l₁ with
  | nil => simp [lookupId] at h
  | cons p rest ih =>
    rw [List.cons_append]
    by_cases hp : p.1 = k
    · simp only [lookupId, hp, if_true] at h ⊢
      exact h
    · simp only [lookupId, hp, if_false] at h ⊢
      exact ih h

theorem lookupId_append_of_none {α : Type} {l₁ : List (Nat × α)} (l₂ : List (Nat × α))
    {k : Nat} (h : lookupId l₁ k = none) : lookupId (l₁ ++ l₂) k = lookupId l₂ k := by
  induction l₁ with
  | nil => simp
  | cons p rest ih =>
    rw [List.cons_append]
    by_cases hp : p.1 = k
    · simp [lookupId, hp] at h
    · simp only [lookupId, hp, if_false] at h ⊢
      exact ih h

theorem lookupId_setId {α : Type} (l : List (Nat × α)) (k : Nat) (v : α) (j : Nat) :
    lookupId (setId l k v) j =
      if j = k then (lookupId l k).map (fun _ => v) else lookupId l j := by
  induction l with
  | nil => simp [lookupId, setId]
  | cons p rest ih =>
    simp only [setId, List.map_cons] at ih ⊢
    by_cases hj : j = k
    · subst hj
      by_cases hp : p.1 = j
      · simp [lookupId, hp]
      · simp [lookupId, hp, ih]
    · by_cases hp : p.1 = k
      · have h1 : ¬(k = j) := fun hc => hj hc.symm
        have h2 : ¬(p.1 = j) := fun hc => hj (hp ▸ hc : k = j).symm
        simp [lookupId, hp, h1, h2, ih, hj]
      · by_cases hpj : p.1 = j
        · simp [lookupId, hp, hpj, hj]
        · simp [lookupId, hp, hpj, ih, hj]

theorem keys_setId {α : Type} (l : List (Nat × α)) (k : Nat) (v : α) :
    (setId l k v).map Prod.fst = l.map Prod.fst := by
  induction l with
  | nil => rfl
  | cons p rest ih =>
    simp only [setId, List.map_cons] at ih ⊢
    by_cases hp : p.1 = k
    · simp [hp, ih]
    · simp [hp, ih]

theorem mem_of_lookupId {α : Type} {l : List (Nat × α)} {k : Nat} {v : α}
    (h : lookupId l k = some v) : (k, v) ∈ l := by
  induction l with
  | nil => simp [lookupId] at h
  | cons p rest ih =>
    by_cases hp : p.1 = k
    · simp only [lookupId, hp, if_true, Option.some.injEq] at h
      have hpkv : p = (k, v) := by
        cases p with
        | mk a b => simp_all
      rw [← hpkv]
      exact List.mem_cons_self _ _
    · simp only [lookupId, hp, if_false] at h
      exact List.mem_cons_of_mem _ (ih h)

theorem lookupId_eq_none_iff {α : Type} (l : List (Nat × α)) (k : Nat) :
    lookupId l k = none ↔ ∀ p ∈ l, p.1 ≠ k := by
  induction l with
  | nil => simp [lookupId]
  | cons p rest ih =>
    by_cases hp : p.1 = k <;> simp [lookupId, hp, ih]

theorem lookupId_eq_some_of_mem {α : Type} {l : List (Nat × α)} {k : Nat} {v : α}
    (hnd : (l.map Prod.fst).Nodup) (hm : (k, v) ∈ l) : lookupId l k = some v := by
  induction l with
  | nil => simp at hm
  | cons p rest ih =>
    simp only [List.map_cons, List.nodup_cons] at hnd
    rcases List.mem_cons.mp hm with h | h
    · simp [lookupId, ← h]
    · have hpk : ¬(p.1 = k) := by
        intro hc
        exact hnd.1 (hc ▸ (List.mem_map.mpr ⟨(k, v), h, rfl⟩))
      simp only [lookupId, hpk, if_false]
      exact ih hnd.2 h

theorem lookupId_filterNe {α : Type} (l : List (Nat × α)) (uid k : Nat) :
    lookupId (l.filter (fun p => decide (p.1 ≠ uid))) k =
      if k = uid then none else lookupId l k := by
  induction l with
  | nil => simp [lookupId]
  | cons p rest ih =>
    rw [List.filter_cons]
    by_cases hp : p.1 = uid
    · rw [if_neg (by simp [hp]), ih]
      by_cases hk : k = uid
      · simp only [if_pos hk]
      · have hpk : ¬(p.1 = k) := fun hc => hk (hc.symm.trans hp)
        simp only [if_neg hk, lookupId, hpk, if_false]
    · rw [if_pos (by simp [hp])]
      simp only [lookupId]
      by_cases hpk : p.1 = k
      · have hk : ¬(k = uid) := fun hc => hp (hpk.trans hc)
        simp only [if_pos hpk, if_neg hk]
      · simp only [if_neg hpk]
        rw [ih]

theorem lookupId_mapSnd {α β : Type} (l : List (Nat × α)) (g : Nat → α → β) (k : Nat) :
    lookupId (l.map (fun p => (p.1, g p.1 p.2))) k = (lookupId l k).map (g k) := by
  induction l with
  | nil => simp [lookupId]
  | cons p rest ih =>
    by_cases hp : p.1 = k
    · subst hp
      simp [lookupId]
    · simp [lookupId, hp, ih]

/-! ### Pending-primitive lemmas -/

theorem addPending_name (u : UserRec) (t : Nat) : (addPending u t).name = u.name := by
  unfold addPending
  split <;> rfl

theorem addPending_email (u : UserRec) (t : Nat) : (addPending u t).email = u.email := by
  unfold addPending
  split <;> rfl

theorem mem_addPending (u : UserRec) (t x : Nat) :
    x ∈ (addPending u t).pendingTasks ↔ x ∈ u.pendingTasks ∨ x = t := by
  unfold addPending
  by_cases h : t ∈ u.pendingTasks
  · rw [if_pos h]
    constructor
    · exact Or.inl
    · rintro (hx | rfl)
      · exact hx
      · exact h
  · rw [if_neg h]
    simp

theorem mem_addPending_self (u : UserRec) (t : Nat) : t ∈ (addPending u t).pendingTasks := by
  rw [mem_addPending]
  exact Or.inr rfl

theorem subset_addPending (u : UserRec) (t : Nat) :
    u.pendingTasks ⊆ (addPending u t).pendingTasks := by
  intro x hx
  rw [mem_addPending]
  exact Or.inl hx

theorem removePending_name (u : UserRec) (t : Nat) : (removePending u t).name = u.name := rfl

theorem mem_removePending (u : UserRec) (t x : Nat) :
    x ∈ (removePending u t).pendingTasks ↔ x ∈ u.pendingTasks ∧ x ≠ t := by
  unfold removePending
  simp [List.mem_filter]

/-- C9 helper: the two classification no-op facts needed below. -/
theorem addPending_of_mem {u : UserRec} {t : Nat} (h : t ∈ u.pendingTasks) :
    addPending u t = u := by
  unfold addPending; rw [if_pos h]

theorem removePending_of_not_mem {u : UserRec} {t : Nat} (h : t ∉ u.pendingTasks) :
    removePending u t = u := by
  unfold removePending
  have : u.pendingTasks.filter (fun i => decide (i ≠ t)) = u.pendingTasks :=
    List.filter_eq_self.mpr (fun a ha => by
      simp only [decide_eq_true_eq]
      exact fun hc => h (hc ▸ ha))
  rw [this]

theorem taskPendingFor_eq_true (tasks : List (Nat × TaskRec)) (uid tid : Nat) :
    taskPendingFor tasks uid tid = true ↔
      ∃ t, lookupId tasks tid = some t ∧ t.assignedUser = some uid ∧ t.completed = false := by
  unfold taskPendingFor
  cases h : lookupId tasks tid with
  | none => simp
  | some t => simp [h]

/-! ### Claim C9 -/

/-- C9: on every user state and task id, applying `addPending` twice yields the
same pendingTasks as applying it once, and likewise for `removePending`;
`addPending` is a no-op when the id is already present and `removePending` is a
no-op when it is absent. -/
theorem c9_pending_primitives_idempotent (u : UserRec) (taskId : Nat) :
    (addPending (addPending u taskId) taskId).pendingTasks
        = (addPending u taskId).pendingTasks ∧
    (removePending (removePending u taskId) taskId).pendingTasks
        = (removePending u taskId).pendingTasks ∧
    (taskId ∈ u.pendingTasks → addPending u taskId = u) ∧
    (taskId ∉ u.pendingTasks → removePending u taskId = u) := by
  refine ⟨?_, ?_, addPending_of_mem, removePending_of_not_mem⟩
  · rw [addPending_of_mem (mem_addPending_self u taskId)]
  · rw [removePending_of_not_mem (by simp [mem_removePending])]

/-- C9 witness: the idempotence theorem evaluated at concrete users. -/
theorem c9_pending_primitives_idempotent_witness :
    addPending ⟨"n", "e", [1]⟩ 1 = ⟨"n", "e", [1]⟩ ∧
    removePending ⟨"n", "e", [2]⟩ 1 = ⟨"n", "e", [2]⟩ :=
  ⟨(c9_pending_primitives_idempotent ⟨"n", "e", [1]⟩ 1).2.2.1 (by decide),
   (c9_pending_primitives_idempotent ⟨"n", "e", [2]⟩ 1).2.2.2 (by decide)⟩

/-! ### Claim C2 -/

/-- C2: an updateTask call with completed = true on a task whose current
assignedUser is non-empty, where the requested assignedUser resolves to an
existing user with a different id, leaves assignedUser/assignedUserName
unchanged, persists only name/description/deadline/completed, reports
completedNotReassigned = 1 (all other counters zero), and leaves the whole
user collection - hence every pendingTasks list - untouched. -/
theorem c2_completed_guard_rejects_reassignment (db : DB) (tid : Nat) (task : TaskRec)
    (name description deadline : String) (b : Nat) (bu : UserRec)
    (htask : lookupId db.tasks tid = some task)
    (hname : name ≠ "") (hdl : deadline ≠ "")
    (hold : task.assignedUser ≠ none)
    (hnew : lookupId db.users b = some bu)
    (hdiff : some b ≠ task.assignedUser) :
    (updateTask db tid name description deadline true (some b)).1.users = db.users ∧
    (updateTask db tid name description deadline true (some b)).1.tasks =
      setId db.tasks tid { task with
        name := name, description := description,
        deadline := deadline, completed := true } ∧
    (updateTask db tid name description deadline true (some b)).2 =
      Except.ok ({ task with
          name := name, description := description,
          deadline := deadline, completed := true },
        { TCounters.zero with completedNotReassigned := 1 }) := by
  unfold updateTask
  simp only [htask]
  rw [if_neg (by simp [hname, hdl])]
  simp only [loadUserOrNull, hnew]
  rw [if_pos ⟨by trivial, hold, by simp, by simpa using hdiff⟩]
  exact ⟨rfl, rfl, rfl⟩

/-- Concrete store for the C2 witness: task 0 is completed and assigned to
user 0; the call requests reassignment to user 1. -/
def dbC2 : DB :=
  ⟨[(0, ⟨"A", "a", []⟩), (1, ⟨"B", "b", []⟩)],
   [(0, ⟨"T", "", "d", true, some 0, "A"⟩)], 2, 1⟩

/-- C2 witness: the completed-task guard theorem at a concrete store. -/
theorem c2_completed_guard_rejects_reassignment_witness :
    (updateTask dbC2 0 "n" "" "d" true (some 1)).1.users = dbC2.users ∧
    (updateTask dbC2 0 "n" "" "d" true (some 1)).2 =
      Except.ok (⟨"n", "", "d", true, some 0, "A"⟩,
        { TCounters.zero with completedNotReassigned := 1 }) :=
  have h := c2_completed_guard_rejects_reassignment dbC2 0 ⟨"T", "", "d", true, some 0, "A"⟩
    "n" "" "d" 1 ⟨"B", "b", []⟩ rfl (by decide) (by decide) (by decide) rfl (by decide)
  ⟨h.1, h.2.2⟩

/-! ### Claim C3 -/

/-- C3: deleting an existing user clears the assignment of exactly its
incomplete tasks (assignedUser emptied, assignedUserName set to
"unassigned"), leaves every completed task untouched (including ones still
referencing the deleted user), removes the user record, and returns the
number of incomplete tasks that were assigned to the user. -/
theorem c3_delete_user_cascade (db : DB) (uid : Nat) (user : UserRec)
    (huser : lookupId db.users uid = some user) :
    lookupId (deleteUser db uid).1.users uid = none ∧
    (∀ j, j ≠ uid → lookupId (deleteUser db uid).1.users j = lookupId db.users j) ∧
    (∀ tid t, lookupId db.tasks tid = some t →
      lookupId (deleteUser db uid).1.tasks tid =
        some (if assignedIncomplete uid t then
          { t with assignedUser := none, assignedUserName := "unassigned" } else t)) ∧
    (deleteUser db uid).2 =
      Except.ok (user, db.tasks.countP (fun p => assignedIncomplete uid p.2)) := by
  unfold deleteUser
  simp only [huser]
  refine ⟨?_, ?_, ?_, by trivial⟩
  · rw [lookupId_filterNe, if_pos rfl]
  · intro j hj
    rw [lookupId_filterNe, if_neg hj]
  · intro tid t ht
    rw [lookupId_mapSnd db.tasks (fun _ t => if assignedIncomplete uid t then
      { t with assignedUser := none, assignedUserName := "unassigned" } else t), ht]
    rfl

/-- Concrete store for the C3 witness: user 0 with one incomplete and one
completed assigned task. -/
def dbC3 : DB :=
  ⟨[(0, ⟨"A", "a", [0]⟩)],
   [(0, ⟨"T1", "", "d", false, some 0, "A"⟩), (1, ⟨"T2", "", "d", true, some 0, "A"⟩)], 1, 2⟩

/-- C3 witness: the delete-user cascade theorem at a concrete store; the
incomplete task is unassigned, the completed one keeps its dangling
reference, and the returned count is 1. -/
theorem c3_delete_user_cascade_witness :
    lookupId (deleteUser dbC3 0).1.users 0 = none ∧
    (deleteUser dbC3 0).2 = Except.ok (⟨"A", "a", [0]⟩, 1) :=
  have h := c3_delete_user_cascade dbC3 0 ⟨"A", "a", [0]⟩ rfl
  ⟨h.1, h.2.2.2⟩

/-! ### Claim C6 -/

/-- C6: a successful createTask with completed = true and a resolvable
assignedUser creates the task assigned to that user with the user's name
cached, while the whole user collection is unchanged; in particular the new
task id is not in the user's pendingTasks.  When no user is given, the user
collection is likewise unchanged. -/
theorem c6_completed_create_task_frame (db : DB) (name description deadline : String)
    (auid : Nat) (u : UserRec)
    (hname : name ≠ "") (hdl : deadline ≠ "")
    (hu : lookupId db.users auid = some u)
    (hwf : Wf db) (hinv : MirrorInv db) :
    (createTask db name description deadline true (some auid)).1.users = db.users ∧
    (createTask db name description deadline true (some auid)).2 =
      Except.ok (db.nextTaskId,
        { name := name, description := description, deadline := deadline,
          completed := true, assignedUser := some auid, assignedUserName := u.name }) ∧
    db.nextTaskId ∉ u.pendingTasks ∧
    (∀ c, (createTask db name description deadline c none).1.users = db.users) := by
  refine ⟨?_, ?_, ?_, ?_⟩
  · unfold createTask
    rw [if_neg (by simp [hname, hdl])]
    simp only [loadUserOrNull, hu]
    rw [if_pos trivial]
  · unfold createTask
    rw [if_neg (by simp [hname, hdl])]
    simp only [loadUserOrNull, hu]
    rw [if_pos trivial]
    rfl
  · intro hc
    have hmem := (hinv (auid, u) (mem_of_lookupId hu)).1 _ hc
    rcases (taskPendingFor_eq_true _ _ _).mp hmem with ⟨t, hlk, _, _⟩
    have := (hwf.2.2.2 _ (mem_of_lookupId hlk)).1
    exact absurd this (by omega)
  · intro c
    unfold createTask
    rw [if_neg (by simp [hname, hdl])]
    simp only [loadUserOrNull]

/-- Concrete store for the C6 witness. -/
def dbC6 : DB := ⟨[(0, ⟨"A", "a", []⟩)], [], 1, 0⟩

/-- C6 witness: creating a completed task assigned to user 0 leaves the user
collection unchanged and returns the assigned task. -/
theorem c6_completed_create_task_frame_witness :
    (createTask dbC6 "X" "" "D" true (some 0)).1.users = dbC6.users ∧
    (createTask dbC6 "X" "" "D" true (some 0)).2 =
      Except.ok (0, ⟨"X", "", "D", true, some 0, "A"⟩) :=
  have h := c6_completed_create_task_frame dbC6 "X" "" "D" 0 ⟨"A", "a", []⟩
    (by decide) (by decide) rfl (by decide) (by decide)
  ⟨h.1, h.2.1⟩

/-! ### Claim C7 -/

/-- C7: createUser with an email already used by some user
(case-insensitively), and updateUser with an email used by a different
existing user, both fail with the duplicate-email conflict error and leave
the store exactly as it was (no user or task mutated). -/
theorem c7_email_conflict_no_mutation (db : DB) (name email : String)
    (preq : Option (List Nat)) (hname : name ≠ "") (hemail : email ≠ "") :
    (∀ v ∈ db.users, emailEqCI v.2.email email = true →
      createUser db name email preq =
        (db, Except.error (Err.badRequest "Email already exists"))) ∧
    (∀ uid user, lookupId db.users uid = some user →
      ∀ v ∈ db.users, v.1 ≠ uid → emailEqCI v.2.email email = true →
      updateUser db uid name email preq =
        (db, Except.error (Err.badRequest "Email already exists"))) := by
  constructor
  · intro v hv hm
    unfold createUser
    rw [if_neg (by simp [hname, hemail]), if_pos]
    rw [List.find?_isSome]
    exact ⟨v, hv, hm⟩
  · intro uid user huser v hv hne hm
    unfold updateUser
    rw [if_neg (by simp [hname, hemail])]
    simp only [huser]
    rw [if_pos]
    rw [List.find?_isSome]
    refine ⟨v, hv, ?_⟩
    simp [hne, hm]

/-- Concrete store for the C7 witness: user 0 holds the email a@x. -/
def dbC7 : DB := ⟨[(0, ⟨"A", "a@x", []⟩), (1, ⟨"B", "b@x", []⟩)], [], 2, 0⟩

/-- C7 witness: creating a user with email A@X (case-insensitive clash with
user 0) and updating user 1 to email a@x both fail with the conflict error
and leave the store unchanged. -/
theorem c7_email_conflict_no_mutation_witness :
    createUser dbC7 "C" "A@X" none =
      (dbC7, Except.error (Err.badRequest "Email already exists")) ∧
    updateUser dbC7 1 "B" "a@x" none =
      (dbC7, Except.error (Err.badRequest "Email already exists")) :=
  have h := c7_email_conflict_no_mutation dbC7 "C" "A@X" none (by decide) (by decide)
  have h2 := c7_email_conflict_no_mutation dbC7 "B" "a@x" none (by decide) (by decide)
  ⟨h.1 (0, ⟨"A", "a@x", []⟩) (by decide) (by decide),
   h2.2 1 ⟨"B", "b@x", []⟩ rfl (0, ⟨"A", "a@x", []⟩) (by decide) (by decide) (by decide)⟩

/-! ### Claim C10 -/

theorem dropOldPending_skip (uid : Nat) (incoming : List Nat)
    (acc : List (Nat × TaskRec) × Nat) (a : Nat) (ha : a ∈ incoming) :
    dropOldPending uid incoming acc a = acc := by
  unfold dropOldPending
  rw [if_pos ha]

theorem dropOldPending_miss (uid : Nat) (incoming : List Nat)
    (acc : List (Nat × TaskRec) × Nat) (a : Nat) (ha : a ∉ incoming)
    (hl : lookupId acc.1 a = none) :
    dropOldPending uid incoming acc a = acc := by
  unfold dropOldPending
  rw [if_neg ha, hl]

theorem dropOldPending_clear (uid : Nat) (incoming : List Nat)
    (acc : List (Nat × TaskRec) × Nat) (a : Nat) (ta : TaskRec) (ha : a ∉ incoming)
    (hl : lookupId acc.1 a = some ta) (hass : ta.assignedUser = some uid) :
    dropOldPending uid incoming acc a =
      (setId acc.1 a { ta with assignedUser := none, assignedUserName := "unassigned" },
       acc.2 + 1) := by
  unfold dropOldPending
  rw [if_neg ha, hl]
  simp [hass]

theorem dropOldPending_keep (uid : Nat) (incoming : List Nat)
    (acc : List (Nat × TaskRec) × Nat) (a : Nat) (ta : TaskRec) (ha : a ∉ incoming)
    (hl : lookupId acc.1 a = some ta) (hass : ¬(ta.assignedUser = some uid)) :
    dropOldPending uid incoming acc a = acc := by
  unfold dropOldPending
  rw [if_neg ha, hl]
  simp [hass]

theorem dropOldPending_fold (uid : Nat) (incoming : List Nat) :
    ∀ (l : List Nat) (ts : List (Nat × TaskRec)) (n : Nat) (tid : Nat),
    lookupId (l.foldl (dropOldPending uid incoming) (ts, n)).1 tid =
      (lookupId ts tid).map (fun t =>
        if tid ∈ l ∧ tid ∉ incoming ∧ t.assignedUser = some uid then
          { t with assignedUser := none, assignedUserName := "unassigned" }
        else t)
  | [], ts, n, tid => by
    cases h : lookupId ts tid <;> simp [h]
  | a :: l', ts, n, tid => by
    rw [List.foldl_cons]
    by_cases ha : a ∈ incoming
    · rw [dropOldPending_skip uid incoming _ _ ha,
        dropOldPending_fold uid incoming l' ts n tid]
      cases h : lookupId ts tid with
      | none => simp
      | some t =>
        by_cases hta : tid = a
        · subst hta
          simp [ha]
        · simp only [Option.map_some, Option.some.injEq, List.mem_cons]
          by_cases hml : tid ∈ l' <;> simp [hml, hta]
    · cases hl : lookupId ts a with
      | none =>
        rw [dropOldPending_miss uid incoming _ _ ha hl,
          dropOldPending_fold uid incoming l' ts n tid]
        cases h : lookupId ts tid with
        | none => simp
        | some t =>
          by_cases hta : tid = a
          · subst hta
            rw [hl] at h
            exact absurd h (by simp)
          · simp only [Option.map_some, Option.some.injEq, List.mem_cons]
            by_cases hml : tid ∈ l' <;> simp [hml, hta]
      | some ta =>
        by_cases hass : ta.assignedUser = some uid
        · rw [dropOldPending_clear uid incoming _ _ ta ha hl hass,
            dropOldPending_fold uid incoming l']
          rw [lookupId_setId]
          by_cases hta : tid = a
          · subst hta
            rw [if_pos rfl, hl]
            simp [ha, hass]
          · rw [if_neg hta]
            cases h : lookupId ts tid with
            | none => simp
            | some t =>
              simp only [Option.map_some, Option.some.injEq, List.mem_cons]
              by_cases hml : tid ∈ l' <;> simp [hml, hta]
        · rw [dropOldPending_keep uid incoming _ _ ta ha hl hass,
            dropOldPending_fold uid incoming l' ts n tid]
          cases h : lookupId ts tid with
          | none => simp
          | some t =>
            by_cases hta : tid = a
            · subst hta
              rw [hl] at h
              cases h
              simp [hass, ha]
            · simp only [Option.map_some, Option.some.injEq, List.mem_cons]
              by_cases hml : tid ∈ l' <;> simp [hml, hta]

/-- C10: an updateUser call on an existing user whose request carries no
pendingTasks array treats the incoming list as empty: the user ends with an
empty pendingTasks, and every task of the previous pending set that still
exists and is still assigned to this user has its assignment cleared
(assignedUser emptied, assignedUserName set to "unassigned"). -/
theorem c10_update_user_absent_pending (db : DB) (uid : Nat) (user : UserRec) (name email : String)
    (huser : lookupId db.users uid = some user)
    (hname : name ≠ "") (hemail : email ≠ "")
    (hnodup : (db.users.find? (fun p => decide (p.1 ≠ uid) && emailEqCI p.2.email email)).isSome = false) :
    lookupId (updateUser db uid name email none).1.users uid =
      some { user with name := name, email := email, pendingTasks := [] } ∧
    (∀ tid ∈ user.pendingTasks, ∀ t, lookupId db.tasks tid = some t →
      t.assignedUser = some uid →
      lookupId (updateUser db uid name email none).1.tasks tid =
        some { t with assignedUser := none, assignedUserName := "unassigned" }) := by
  unfold updateUser
  rw [if_neg (by simp [hname, hemail])]
  simp only [huser]
  rw [if_neg (by intro hc; rw [hnodup] at hc; exact Bool.false_ne_true hc)]
  constructor
  · rw [lookupId_setId, if_pos rfl, huser]
    rfl
  · intro tid htid t ht hass
    show lookupId ((user.pendingTasks.foldl (dropOldPending uid ((none : Option (List Nat)).getD []))
      (db.tasks, 0))).1 tid = _
    rw [dropOldPending_fold, ht]
    simp [htid, hass]

/-- Concrete store for the C10 witness: user 0 has task 0 pending. -/
def dbC10 : DB :=
  ⟨[(0, ⟨"A", "a", [0]⟩)], [(0, ⟨"T", "", "d", false, some 0, "A"⟩)], 1, 1⟩

/-- C10 witness: updating user 0 without a pendingTasks field empties its
pending set and unassigns task 0. -/
theorem c10_update_user_absent_pending_witness :
    lookupId (updateUser dbC10 0 "A2" "a2" none).1.users 0 =
      some ⟨"A2", "a2", []⟩ ∧
    lookupId (updateUser dbC10 0 "A2" "a2" none).1.tasks 0 =
      some ⟨"T", "", "d", false, none, "unassigned"⟩ :=
  have h := c10_update_user_absent_pending dbC10 0 ⟨"A", "a", [0]⟩ "A2" "a2" rfl
    (by decide) (by decide) (by decide)
  ⟨h.1, h.2 0 (by decide) ⟨"T", "", "d", false, some 0, "A"⟩ rfl (by decide)⟩

/-! ### Loop decomposition: core effect and counter increments -/

/-- Store-and-user component of one classification-loop iteration. -/
def classifyCore (uid : Nat) (p : List (Nat × TaskRec) × UserRec) (taskId : Nat) :
    List (Nat × TaskRec) × UserRec :=
  match lookupId p.1 taskId with
  | none => p
  | some task =>
    if task.completed then
      if task.assignedUser = none then
        (setId p.1 taskId { task with assignedUser := some uid, assignedUserName := p.2.name }, p.2)
      else p
    else
      if task.assignedUser = none then
        (setId p.1 taskId { task with assignedUser := some uid, assignedUserName := p.2.name },
         addPending p.2 taskId)
      else if task.assignedUser ≠ some uid then
        (setId p.1 taskId { task with assignedUser := some uid, assignedUserName := p.2.name },
         addPending p.2 taskId)
      else (p.1, addPending p.2 taskId)

/-- Counter increment of one classification-loop iteration; depends only on
the store-and-user component. -/
def classifyDelta (uid : Nat) (p : List (Nat × TaskRec) × UserRec) (taskId : Nat) : UCounters :=
  match lookupId p.1 taskId with
  | none => ⟨0, 0, 0, 0, 1⟩
  | some task =>
    if task.completed then
      if task.assignedUser = none then ⟨0, 0, 1, 0, 0⟩
      else if task.assignedUser ≠ some uid then ⟨0, 0, 0, 1, 0⟩
      else UCounters.zero
    else
      if task.assignedUser = none then UCounters.zero
      else if task.assignedUser ≠ some uid then ⟨1, 0, 0, 0, 0⟩
      else UCounters.zero

/-- Componentwise sum of user-side counters. -/
def addU (a b : UCounters) : UCounters :=
  ⟨a.reassigned + b.reassigned, a.unassigned + b.unassigned,
   a.completedAssigned + b.completedAssigned,
   a.completedNotReassigned + b.completedNotReassigned, a.invalid + b.invalid⟩

theorem addU_zero (a : UCounters) : addU a UCounters.zero = a := by
  cases a
  simp [addU, UCounters.zero]

theorem addU_assoc (a b c : UCounters) : addU (addU a b) c = addU a (addU b c) := by
  cases a
  cases b
  cases c
  simp [addU, Nat.add_assoc]

/-- One classification iteration splits into its core effect and a counter
increment that depends only on the core. -/
theorem classify_split (uid : Nat) (s : ULoop) (t : Nat) :
    classifyPendingTask uid s t =
      { tasks := (classifyCore uid (s.tasks, s.user) t).1,
        user := (classifyCore uid (s.tasks, s.user) t).2,
        counters := addU s.counters (classifyDelta uid (s.tasks, s.user) t) } := by
  unfold classifyPendingTask classifyCore classifyDelta
  cases s with
  | mk ts u cs =>
    cases cs
    cases h : lookupId ts t with
    | none => simp [addU]
    | some task =>
      by_cases hc : task.completed <;> by_cases hn : task.assignedUser = none <;>
        by_cases hq : task.assignedUser = some uid <;>
          simp [hc, hn, hq, addU, UCounters.zero]

/-- Core trajectory of the classification loop. -/
def foldCore (uid : Nat) (p : List (Nat × TaskRec) × UserRec) (l : List Nat) :
    List (Nat × TaskRec) × UserRec :=
  l.foldl (classifyCore uid) p

/-- Total counter increment of the classification loop along the core
trajectory. -/
def sumDeltas (uid : Nat) (p : List (Nat × TaskRec) × UserRec) : List Nat → UCounters
  | [] => UCounters.zero
  | t :: r => addU (classifyDelta uid p t) (sumDeltas uid (classifyCore uid p t) r)

/-- The whole classification loop splits into core trajectory plus summed
counter increments. -/
theorem fold_split (uid : Nat) :
    ∀ (l : List Nat) (s : ULoop),
    l.foldl (classifyPendingTask uid) s =
      { tasks := (foldCore uid (s.tasks, s.user) l).1,
        user := (foldCore uid (s.tasks, s.user) l).2,
        counters := addU s.counters (sumDeltas uid (s.tasks, s.user) l) }
  | [], s => by
    cases s
    simp [foldCore, sumDeltas, addU_zero]
  | t :: r, s => by
    rw [List.foldl_cons, classify_split, fold_split uid r]
    simp only [foldCore, sumDeltas, List.foldl_cons, addU_assoc]

/-! ### Absorption of duplicated ids by the classification loop -/

/-- After `t` has been classified once, the store and user have absorbed it:
`t` is unknown, or completed and assigned, or incomplete, owned by this user
and already pending. -/
def AbsorbedCore (uid : Nat) (p : List (Nat × TaskRec) × UserRec) (t : Nat) : Prop :=
  lookupId p.1 t = none ∨
  (∃ task, lookupId p.1 t = some task ∧ task.completed = true ∧ task.assignedUser ≠ none) ∨
  (∃ task, lookupId p.1 t = some task ∧ task.completed = false ∧
    task.assignedUser = some uid ∧ t ∈ p.2.pendingTasks)

theorem absorbed_establish (uid : Nat) (p : List (Nat × TaskRec) × UserRec) (t : Nat) :
    AbsorbedCore uid (classifyCore uid p t) t := by
  unfold classifyCore
  split
  · rename_i heq
    exact Or.inl heq
  · rename_i task heq
    split_ifs with hc hn hn hq
    · refine Or.inr (Or.inl
        ⟨{ task with assignedUser := some uid, assignedUserName := p.2.name }, ?_, hc, by simp⟩)
      rw [lookupId_setId, if_pos rfl, heq]
      rfl
    · exact Or.inr (Or.inl ⟨task, heq, hc, hn⟩)
    · refine Or.inr (Or.inr
        ⟨{ task with assignedUser := some uid, assignedUserName := p.2.name }, ?_,
         by simpa using hc, rfl, mem_addPending_self _ _⟩)
      rw [lookupId_setId, if_pos rfl, heq]
      rfl
    · refine Or.inr (Or.inr
        ⟨{ task with assignedUser := some uid, assignedUserName := p.2.name }, ?_,
         by simpa using hc, rfl, mem_addPending_self _ _⟩)
      rw [lookupId_setId, if_pos rfl, heq]
      rfl
    · refine Or.inr (Or.inr ⟨task, heq, by simpa using hc, by simpa using hq,
        mem_addPending_self _ _⟩)

theorem classifyCore_fix {uid : Nat} {p : List (Nat × TaskRec) × UserRec} {t : Nat}
    (h : AbsorbedCore uid p t) : classifyCore uid p t = p := by
  unfold classifyCore
  split
  · rfl
  · rename_i task heq
    rcases h with h | ⟨task2, hl, hc, hn⟩ | ⟨task2, hl, hc, hq, hmem⟩
    · rw [heq] at h
      cases h
    · rw [heq] at hl
      injection hl with hl
      subst hl
      rw [if_pos hc, if_neg hn]
    · rw [heq] at hl
      injection hl with hl
      subst hl
      rw [if_neg (by simp [hc]), if_neg (by simp [hq]), if_neg (by simp [hq])]
      rw [addPending_of_mem hmem]

theorem classifyCore_branches (uid : Nat) (p : List (Nat × TaskRec) × UserRec) (u : Nat) :
    (classifyCore uid p u).2 = p.2 ∨ (classifyCore uid p u).2 = addPending p.2 u := by
  unfold classifyCore
  split
  · exact Or.inl rfl
  · split_ifs
    · exact Or.inl rfl
    · exact Or.inl rfl
    · exact Or.inr rfl
    · exact Or.inr rfl
    · exact Or.inr rfl

theorem classifyCore_tasks_branches (uid : Nat) (p : List (Nat × TaskRec) × UserRec) (u : Nat) :
    (classifyCore uid p u).1 = p.1 ∨
    (∃ task, lookupId p.1 u = some task ∧
      (classifyCore uid p u).1 =
        setId p.1 u { task with assignedUser := some uid, assignedUserName := p.2.name }) := by
  unfold classifyCore
  split
  · exact Or.inl rfl
  · rename_i task heq
    split_ifs
    · exact Or.inr ⟨task, heq, rfl⟩
    · exact Or.inl rfl
    · exact Or.inr ⟨task, heq, rfl⟩
    · exact Or.inr ⟨task, heq, rfl⟩
    · exact Or.inl rfl

theorem classifyCore_lookup_ne (uid : Nat) (p : List (Nat × TaskRec) × UserRec)
    {u t : Nat} (hne : u ≠ t) :
    lookupId (classifyCore uid p u).1 t = lookupId p.1 t := by
  rcases classifyCore_tasks_branches uid p u with h | ⟨task, hl, h⟩
  · rw [h]
  · rw [h, lookupId_setId, if_neg (fun h2 => hne h2.symm)]

theorem classifyCore_pending_subset (uid : Nat) (p : List (Nat × TaskRec) × UserRec)
    (u : Nat) : p.2.pendingTasks ⊆ (classifyCore uid p u).2.pendingTasks := by
  rcases classifyCore_branches uid p u with h | h
  · rw [h]
    exact fun x hx => hx
  · rw [h]
    exact subset_addPending _ _

theorem absorbed_preserve {uid : Nat} {p : List (Nat × TaskRec) × UserRec} {t : Nat}
    (u : Nat) (h : AbsorbedCore uid p t) :
    AbsorbedCore uid (classifyCore uid p u) t := by
  by_cases hu : u = t
  · subst hu
    rw [classifyCore_fix h]
    exact h
  · rcases h with h | ⟨task, hl, hc, hn⟩ | ⟨task, hl, hc, hq, hmem⟩
    · exact Or.inl (by rw [classifyCore_lookup_ne uid p hu, h])
    · exact Or.inr (Or.inl ⟨task, by rw [classifyCore_lookup_ne uid p hu, hl], hc, hn⟩)
    · exact Or.inr (Or.inr ⟨task, by rw [classifyCore_lookup_ne uid p hu, hl], hc, hq,
        classifyCore_pending_subset uid p u hmem⟩)

theorem absorbed_foldCore {uid : Nat} {t : Nat} :
    ∀ (l : List Nat) (p : List (Nat × TaskRec) × UserRec),
    AbsorbedCore uid p t → AbsorbedCore uid (foldCore uid p l) t
  | [], _, h => h
  | u :: r, p, h =>
    absorbed_foldCore r (classifyCore uid p u) (absorbed_preserve u h)

theorem classifyDelta_shape (uid : Nat) (p : List (Nat × TaskRec) × UserRec) (t : Nat) :
    classifyDelta uid p t = ⟨0, 0, 0, 0, 1⟩ ∨ classifyDelta uid p t = ⟨0, 0, 1, 0, 0⟩ ∨
    classifyDelta uid p t = ⟨0, 0, 0, 1, 0⟩ ∨ classifyDelta uid p t = UCounters.zero ∨
    classifyDelta uid p t = ⟨1, 0, 0, 0, 0⟩ := by
  unfold classifyDelta
  split
  · exact Or.inl rfl
  · split_ifs
    · exact Or.inr (Or.inl rfl)
    · exact Or.inr (Or.inr (Or.inl rfl))
    · exact Or.inr (Or.inr (Or.inr (Or.inl rfl)))
    · exact Or.inr (Or.inr (Or.inr (Or.inl rfl)))
    · exact Or.inr (Or.inr (Or.inr (Or.inr rfl)))
    · exact Or.inr (Or.inr (Or.inr (Or.inl rfl)))

theorem classifyDelta_unassigned (uid : Nat) (p : List (Nat × TaskRec) × UserRec) (t : Nat) :
    (classifyDelta uid p t).unassigned = 0 := by
  rcases classifyDelta_shape uid p t with h | h | h | h | h <;> simp [h, UCounters.zero]

theorem classifyDelta_inv_cnr_le (uid : Nat) (p : List (Nat × TaskRec) × UserRec) (t : Nat) :
    (classifyDelta uid p t).invalid + (classifyDelta uid p t).completedNotReassigned ≤ 1 := by
  rcases classifyDelta_shape uid p t with h | h | h | h | h <;> (rw [h]; simp [UCounters.zero])

theorem classifyDelta_absorbed {uid : Nat} {p : List (Nat × TaskRec) × UserRec} {t : Nat}
    (h : AbsorbedCore uid p t) :
    (classifyDelta uid p t).reassigned = 0 ∧ (classifyDelta uid p t).completedAssigned = 0 := by
  unfold classifyDelta
  split
  · exact ⟨rfl, rfl⟩
  · rename_i task heq
    rcases h with h | ⟨task2, hl, hc, hn⟩ | ⟨task2, hl, hc, hq, hmem⟩
    · rw [heq] at h
      cases h
    · rw [heq] at hl
      injection hl with hl
      subst hl
      rw [if_pos hc, if_neg hn]
      by_cases hq2 : task.assignedUser ≠ some uid
      · rw [if_pos hq2]
        exact ⟨rfl, rfl⟩
      · rw [if_neg hq2]
        exact ⟨rfl, rfl⟩
    · rw [heq] at hl
      injection hl with hl
      subst hl
      rw [if_neg (by simp [hc]), if_neg (by simp [hq]), if_neg (by simp [hq])]
      exact ⟨rfl, rfl⟩

theorem addU_comm (a b : UCounters) : addU a b = addU b a := by
  cases a
  cases b
  simp [addU, Nat.add_comm]

theorem addU_zero_left (a : UCounters) : addU UCounters.zero a = a := by
  cases a
  simp [addU, UCounters.zero]

theorem foldCore_append (uid : Nat) (p : List (Nat × TaskRec) × UserRec) (l l2 : List Nat) :
    foldCore uid p (l ++ l2) = foldCore uid (foldCore uid p l) l2 := by
  unfold foldCore
  rw [List.foldl_append]

theorem foldCore_cons (uid : Nat) (p : List (Nat × TaskRec) × UserRec) (u : Nat) (l : List Nat) :
    foldCore uid p (u :: l) = foldCore uid (classifyCore uid p u) l := rfl

theorem sumDeltas_append (uid : Nat) :
    ∀ (l l2 : List Nat) (p : List (Nat × TaskRec) × UserRec),
    sumDeltas uid p (l ++ l2) = addU (sumDeltas uid p l) (sumDeltas uid (foldCore uid p l) l2)
  | [], l2, p => by
    simp [sumDeltas, foldCore, addU_zero_left]
  | u :: r, l2, p => by
    show addU (classifyDelta uid p u) (sumDeltas uid (classifyCore uid p u) (r ++ l2)) = _
    rw [sumDeltas_append uid r l2 (classifyCore uid p u)]
    show _ = addU (addU (classifyDelta uid p u) (sumDeltas uid (classifyCore uid p u) r))
      (sumDeltas uid (foldCore uid (classifyCore uid p u) r) l2)
    rw [addU_assoc]

/-- Classifying a duplicated id gives the same final store and user as a
single occurrence, and the counters gain exactly the one extra increment
taken at the already-absorbed state. -/
theorem dup_core_sum (uid : Nat) (p : List (Nat × TaskRec) × UserRec)
    (l1 l2 l3 : List Nat) (t : Nat) :
    foldCore uid p (l1 ++ t :: l2 ++ t :: l3) = foldCore uid p (l1 ++ t :: l2 ++ l3) ∧
    sumDeltas uid p (l1 ++ t :: l2 ++ t :: l3) =
      addU (sumDeltas uid p (l1 ++ t :: l2 ++ l3))
        (classifyDelta uid (foldCore uid p ((l1 ++ t :: l2 : List Nat))) t) ∧
    AbsorbedCore uid (foldCore uid p ((l1 ++ t :: l2 : List Nat))) t := by
  have habs : AbsorbedCore uid (foldCore uid p ((l1 ++ t :: l2 : List Nat))) t := by
    rw [foldCore_append, foldCore_cons]
    exact absorbed_foldCore l2 _ (absorbed_establish uid (foldCore uid p l1) t)
  have e1 : ((l1 ++ t :: l2) ++ (t :: l3) : List Nat) = l1 ++ t :: l2 ++ t :: l3 := by
    rw [List.append_assoc, List.cons_append]
  have e2 : ((l1 ++ t :: l2) ++ l3 : List Nat) = l1 ++ t :: l2 ++ l3 := by
    rw [List.append_assoc, List.cons_append]
  refine ⟨?_, ?_, habs⟩
  · conv_lhs => rw [← e1, foldCore_append uid p (l1 ++ t :: l2) (t :: l3), foldCore_cons,
      classifyCore_fix habs, ← foldCore_append uid p (l1 ++ t :: l2) l3, e2]
  · conv_lhs => rw [← e1, sumDeltas_append uid (l1 ++ t :: l2) (t :: l3) p]
    conv_rhs => rw [← e2, sumDeltas_append uid (l1 ++ t :: l2) l3 p]
    rw [addU_assoc]
    congr 1
    show addU (classifyDelta uid (foldCore uid p (l1 ++ t :: l2)) t)
      (sumDeltas uid (classifyCore uid (foldCore uid p (l1 ++ t :: l2)) t) l3) = _
    rw [classifyCore_fix habs, addU_comm]

/-! ### Claim C5 -/

/-- Success-path normal form of createUser in terms of the loop core and
summed counter increments. -/
theorem createUser_ok (db : DB) (nm em : String) (L : List Nat)
    (hv : ¬(nm = "" ∨ em = ""))
    (hc : ¬((db.users.find? (fun p => emailEqCI p.2.email em)).isSome = true)) :
    createUser db nm em (some L) =
      ({ users := setId (db.users ++ [(db.nextUserId, ⟨nm, em, []⟩)]) db.nextUserId
           (foldCore db.nextUserId (db.tasks, ⟨nm, em, []⟩) L).2,
         tasks := (foldCore db.nextUserId (db.tasks, ⟨nm, em, []⟩) L).1,
         nextUserId := db.nextUserId + 1, nextTaskId := db.nextTaskId },
       Except.ok (db.nextUserId, (foldCore db.nextUserId (db.tasks, ⟨nm, em, []⟩) L).2,
         addU UCounters.zero (sumDeltas db.nextUserId (db.tasks, ⟨nm, em, []⟩) L))) := by
  unfold createUser
  rw [if_neg hv, if_neg hc]
  simp only []
  rw [fold_split]
  rfl

/-- Success-path normal form of updateUser in terms of the cleanup fold, the
loop core and summed counter increments. -/
theorem updateUser_ok (db : DB) (uid : Nat) (nm em : String) (L : List Nat) (user : UserRec)
    (hv : ¬(nm = "" ∨ em = ""))
    (hu : lookupId db.users uid = some user)
    (hc : ¬((db.users.find? (fun p => decide (p.1 ≠ uid) && emailEqCI p.2.email em)).isSome = true)) :
    updateUser db uid nm em (some L) =
      ({ users := setId db.users uid
           (foldCore uid ((user.pendingTasks.foldl (dropOldPending uid L) (db.tasks, 0)).1,
             ⟨nm, em, []⟩) L).2,
         tasks := (foldCore uid ((user.pendingTasks.foldl (dropOldPending uid L) (db.tasks, 0)).1,
             ⟨nm, em, []⟩) L).1,
         nextUserId := db.nextUserId, nextTaskId := db.nextTaskId },
       Except.ok ((foldCore uid ((user.pendingTasks.foldl (dropOldPending uid L) (db.tasks, 0)).1,
           ⟨nm, em, []⟩) L).2,
         addU ⟨0, (user.pendingTasks.foldl (dropOldPending uid L) (db.tasks, 0)).2, 0, 0, 0⟩
           (sumDeltas uid ((user.pendingTasks.foldl (dropOldPending uid L) (db.tasks, 0)).1,
             ⟨nm, em, []⟩) L))) := by
  unfold updateUser
  rw [if_neg hv]
  simp only [hu]
  rw [if_neg hc, fold_split]
  rfl

/-- Relation between the counters of a run without and with one duplicated
occurrence of a task id: the reassigned/unassigned/completedAssigned counters
agree, and the duplicate adds at most one count, to invalid or to
completedNotReassigned. -/
def UCounterDupRel (a b : UCounters) : Prop :=
  b.reassigned = a.reassigned ∧ b.unassigned = a.unassigned ∧
  b.completedAssigned = a.completedAssigned ∧
  a.invalid ≤ b.invalid ∧ a.completedNotReassigned ≤ b.completedNotReassigned ∧
  b.invalid + b.completedNotReassigned ≤ a.invalid + a.completedNotReassigned + 1

theorem uCounterDupRel_of_delta (c d : UCounters)
    (h1 : d.reassigned = 0) (h2 : d.unassigned = 0) (h3 : d.completedAssigned = 0)
    (h4 : d.invalid + d.completedNotReassigned ≤ 1) :
    UCounterDupRel c (addU c d) := by
  cases c
  cases d
  simp only [UCounterDupRel, addU] at *
  omega

theorem dropOldPending_congr (uid : Nat) (inc1 inc2 : List Nat)
    (hm : ∀ x, x ∈ inc1 ↔ x ∈ inc2) :
    ∀ (l : List Nat) (acc : List (Nat × TaskRec) × Nat),
    l.foldl (dropOldPending uid inc1) acc = l.foldl (dropOldPending uid inc2) acc
  | [], _ => rfl
  | a :: r, acc => by
    rw [List.foldl_cons, List.foldl_cons]
    have hstep : dropOldPending uid inc1 acc a = dropOldPending uid inc2 acc a := by
      unfold dropOldPending
      exact if_congr (hm a) rfl rfl
    rw [hstep]
    exact dropOldPending_congr uid inc1 inc2 hm r _

theorem mem_dup_iff (l1 l2 l3 : List Nat) (t x : Nat) :
    x ∈ l1 ++ t :: l2 ++ t :: l3 ↔ x ∈ l1 ++ t :: l2 ++ l3 := by
  simp only [List.mem_append, List.mem_cons]
  tauto

/-- C5 amended: the incoming pending-task list is processed without
deduplication; a duplicated id leaves both stores exactly as a single
occurrence would (for createUser and updateUser alike), leaves the
reassigned/unassigned/completedAssigned counters unchanged, and can only add
one extra count per extra occurrence to invalid (unknown id) or
completedNotReassigned (completed task owned by another user). -/
theorem c5_no_dedup_duplicate_effect (db : DB) (nm em : String)
    (l1 l2 l3 : List Nat) (t : Nat) :
    ((createUser db nm em (some (l1 ++ t :: l2 ++ t :: l3))).1 =
      (createUser db nm em (some (l1 ++ t :: l2 ++ l3))).1) ∧
    (∀ uid, (updateUser db uid nm em (some (l1 ++ t :: l2 ++ t :: l3))).1 =
      (updateUser db uid nm em (some (l1 ++ t :: l2 ++ l3))).1) ∧
    (∀ r1, (createUser db nm em (some (l1 ++ t :: l2 ++ l3))).2 = Except.ok r1 →
      ∃ r2, (createUser db nm em (some (l1 ++ t :: l2 ++ t :: l3))).2 = Except.ok r2 ∧
        r2.1 = r1.1 ∧ r2.2.1 = r1.2.1 ∧ UCounterDupRel r1.2.2 r2.2.2) ∧
    (∀ uid r1, (updateUser db uid nm em (some (l1 ++ t :: l2 ++ l3))).2 = Except.ok r1 →
      ∃ r2, (updateUser db uid nm em (some (l1 ++ t :: l2 ++ t :: l3))).2 = Except.ok r2 ∧
        r2.1 = r1.1 ∧ UCounterDupRel r1.2 r2.2) := by
  by_cases hv : (nm = "" ∨ em = "")
  · refine ⟨?_, ?_, ?_, ?_⟩
    · unfold createUser
      rw [if_pos hv, if_pos hv]
    · intro uid
      unfold updateUser
      rw [if_pos hv, if_pos hv]
    · intro r1 h1
      unfold createUser at h1
      rw [if_pos hv] at h1
      cases h1
    · intro uid r1 h1
      unfold updateUser at h1
      rw [if_pos hv] at h1
      cases h1
  · have hcu : ∀ r1, (createUser db nm em (some (l1 ++ t :: l2 ++ l3))).2 = Except.ok r1 →
        ∃ r2, (createUser db nm em (some (l1 ++ t :: l2 ++ t :: l3))).2 = Except.ok r2 ∧
          r2.1 = r1.1 ∧ r2.2.1 = r1.2.1 ∧ UCounterDupRel r1.2.2 r2.2.2 := by
      intro r1 h1
      by_cases hc : ((db.users.find? (fun p => emailEqCI p.2.email em)).isSome = true)
      · unfold createUser at h1
        rw [if_neg hv, if_pos hc] at h1
        cases h1
      · rw [createUser_ok db nm em _ hv hc] at h1
        rw [createUser_ok db nm em _ hv hc]
        obtain ⟨hcore, hsum, habs⟩ :=
          dup_core_sum db.nextUserId (db.tasks, (⟨nm, em, []⟩ : UserRec)) l1 l2 l3 t
        simp only [Except.ok.injEq] at h1
        subst h1
        refine ⟨_, rfl, rfl, ?_, ?_⟩
        · rw [hcore]
        · rw [hsum, addU_zero_left, addU_zero_left]
          obtain ⟨hd1, hd3⟩ := classifyDelta_absorbed habs
          exact uCounterDupRel_of_delta _ _ hd1 (classifyDelta_unassigned _ _ _) hd3
            (classifyDelta_inv_cnr_le _ _ _)
    have hstores : (createUser db nm em (some (l1 ++ t :: l2 ++ t :: l3))).1 =
        (createUser db nm em (some (l1 ++ t :: l2 ++ l3))).1 := by
      by_cases hc : ((db.users.find? (fun p => emailEqCI p.2.email em)).isSome = true)
      · unfold createUser
        rw [if_neg hv, if_neg hv, if_pos hc, if_pos hc]
      · rw [createUser_ok db nm em _ hv hc, createUser_ok db nm em _ hv hc]
        obtain ⟨hcore, _, _⟩ :=
          dup_core_sum db.nextUserId (db.tasks, (⟨nm, em, []⟩ : UserRec)) l1 l2 l3 t
        rw [hcore]
    have huu : ∀ uid, (updateUser db uid nm em (some (l1 ++ t :: l2 ++ t :: l3))).1 =
        (updateUser db uid nm em (some (l1 ++ t :: l2 ++ l3))).1 := by
      intro uid
      cases hu : lookupId db.users uid with
      | none =>
        unfold updateUser
        rw [if_neg hv, if_neg hv]
        simp only [hu]
      | some user =>
        by_cases hc : ((db.users.find?
            (fun p => decide (p.1 ≠ uid) && emailEqCI p.2.email em)).isSome = true)
        · unfold updateUser
          rw [if_neg hv, if_neg hv]
          simp only [hu]
          rw [if_pos hc, if_pos hc]
        · rw [updateUser_ok db uid nm em _ user hv hu hc,
            updateUser_ok db uid nm em _ user hv hu hc]
          rw [dropOldPending_congr uid _ _ (mem_dup_iff l1 l2 l3 t) user.pendingTasks (db.tasks, 0)]
          obtain ⟨hcore, _, _⟩ :=
            dup_core_sum uid
              ((user.pendingTasks.foldl (dropOldPending uid (l1 ++ t :: l2 ++ l3)) (db.tasks, 0)).1,
               (⟨nm, em, []⟩ : UserRec)) l1 l2 l3 t
          rw [hcore]
    refine ⟨hstores, huu, hcu, ?_⟩
    intro uid r1 h1
    cases hu : lookupId db.users uid with
    | none =>
      unfold updateUser at h1
      rw [if_neg hv] at h1
      simp only [hu] at h1
      cases h1
    | some user =>
      by_cases hc : ((db.users.find?
          (fun p => decide (p.1 ≠ uid) && emailEqCI p.2.email em)).isSome = true)
      · unfold updateUser at h1
        rw [if_neg hv] at h1
        simp only [hu] at h1
        rw [if_pos hc] at h1
        cases h1
      · rw [updateUser_ok db uid nm em _ user hv hu hc] at h1
        rw [updateUser_ok db uid nm em _ user hv hu hc]
        rw [dropOldPending_congr uid _ _ (mem_dup_iff l1 l2 l3 t) user.pendingTasks (db.tasks, 0)]
        obtain ⟨hcore, hsum, habs⟩ :=
          dup_core_sum uid
            ((user.pendingTasks.foldl (dropOldPending uid (l1 ++ t :: l2 ++ l3)) (db.tasks, 0)).1,
             (⟨nm, em, []⟩ : UserRec)) l1 l2 l3 t
        simp only [Except.ok.injEq] at h1
        subst h1
        refine ⟨_, rfl, ?_, ?_⟩
        · rw [hcore]
        · rw [hsum, ← addU_assoc]
          obtain ⟨hd1, hd3⟩ := classifyDelta_absorbed habs
          exact uCounterDupRel_of_delta _ _ hd1 (classifyDelta_unassigned _ _ _) hd3
            (classifyDelta_inv_cnr_le _ _ _)

/-! ### Claim C4 -/

theorem loadUserOrNull_ok_some {db : DB} {aid : Option Nat} {nuid : Nat} {nu : UserRec}
    (h : loadUserOrNull db aid = Except.ok (some (nuid, nu))) :
    lookupId db.users nuid = some nu := by
  cases aid with
  | none => simp [loadUserOrNull] at h
  | some a =>
    simp only [loadUserOrNull] at h
    cases hl : lookupId db.users a with
    | none =>
      rw [hl] at h
      simp at h
    | some u =>
      rw [hl] at h
      simp only [Except.ok.injEq, Option.some.injEq, Prod.mk.injEq] at h
      rw [← h.1, hl, h.2]

/-- C4 amended: on the general path of updateTask with a changed assignment,
the task is removed from the old user's pendingTasks and the unassigned
counter incremented exactly when the old id is non-empty and still resolves
to an existing user (a dangling old id leaves the counter at 0); the task is
added to the new user's pendingTasks with reassigned and addedPending
incremented if and only if the new user id is non-empty and the requested
completed flag is false. -/
theorem c4_general_path_sync (db : DB) (tid : Nat) (task : TaskRec)
    (name description deadline : String) (completed : Bool) (aid : Option Nat)
    (newUser : Option (Nat × UserRec))
    (htask : lookupId db.tasks tid = some task)
    (hname : name ≠ "") (hdl : deadline ≠ "")
    (hres : loadUserOrNull db aid = Except.ok newUser)
    (hdiff : task.assignedUser ≠ newUser.map Prod.fst)
    (hg1 : ¬(completed = true ∧ task.assignedUser ≠ none ∧
      newUser.map Prod.fst ≠ none ∧ newUser.map Prod.fst ≠ task.assignedUser))
    (hg2 : ¬(completed = true ∧ task.assignedUser = none ∧ newUser.map Prod.fst ≠ none)) :
    ∃ r, (updateTask db tid name description deadline completed aid).2 = Except.ok r ∧
    ((∀ ouid oldUser, task.assignedUser = some ouid →
        lookupId db.users ouid = some oldUser →
        lookupId (updateTask db tid name description deadline completed aid).1.users ouid =
          some (removePending oldUser tid) ∧ r.2.unassigned = 1) ∧
     (∀ ouid, task.assignedUser = some ouid → lookupId db.users ouid = none →
        r.2.unassigned = 0) ∧
     (∀ nuid nu, newUser = some (nuid, nu) → completed = false →
        lookupId (updateTask db tid name description deadline completed aid).1.users nuid =
          some (addPending nu tid) ∧ r.2.reassigned = 1 ∧ r.2.addedPending = 1) ∧
     (completed = true ∨ newUser = none →
        r.2.reassigned = 0 ∧ r.2.addedPending = 0 ∧
        (∀ j, task.assignedUser ≠ some j →
          lookupId (updateTask db tid name description deadline completed aid).1.users j =
            lookupId db.users j))) := by
  unfold updateTask
  simp only [htask, hres]
  rw [if_neg (by simp [hname, hdl])]
  rw [if_neg hg1, if_neg hg2, if_pos hdiff]
  cases hON : task.assignedUser with
  | none =>
    by_cases hs2 : (newUser.map Prod.fst ≠ none ∧ completed = false)
    · obtain ⟨hnn, hcf⟩ := hs2
      obtain ⟨nuid, nu, hnueq⟩ : ∃ nuid nu, newUser = some (nuid, nu) := by
        cases newUser with
        | none => simp at hnn
        | some pr => exact ⟨pr.1, pr.2, by simp⟩
      subst hnueq
      rw [if_pos ⟨hnn, hcf⟩]
      refine ⟨_, rfl, ?_, ?_, ?_, ?_⟩
      · intro ouid oldUser hass
        exact absurd hass (by simp)
      · intro ouid hass
        exact absurd hass (by simp)
      · intro nuid2 nu2 hnew2 hcf2
        simp only [Option.some.injEq, Prod.mk.injEq] at hnew2
        obtain ⟨h1, h2⟩ := hnew2
        subst h1
        subst h2
        refine ⟨?_, rfl, rfl⟩
        show lookupId (setId db.users nuid (addPending nu tid)) nuid = _
        rw [lookupId_setId, if_pos rfl, loadUserOrNull_ok_some hres]
        rfl
      · rintro (hc | hc)
        · exact absurd hcf (by simp [hc])
        · simp at hc
    · rw [if_neg hs2]
      refine ⟨_, rfl, ?_, ?_, ?_, ?_⟩
      · intro ouid oldUser hass
        exact absurd hass (by simp)
      · intro ouid hass
        exact absurd hass (by simp)
      · intro nuid nu hnew hcf
        exact absurd ⟨by simp [hnew], hcf⟩ hs2
      · intro hc
        exact ⟨rfl, rfl, fun j _ => rfl⟩
  | some ouid =>
    cases holk : lookupId db.users ouid with
    | none =>
      simp only [holk]
      by_cases hs2 : (newUser.map Prod.fst ≠ none ∧ completed = false)
      · obtain ⟨hnn, hcf⟩ := hs2
        obtain ⟨nuid, nu, hnueq⟩ : ∃ nuid nu, newUser = some (nuid, nu) := by
          cases newUser with
          | none => simp at hnn
          | some pr => exact ⟨pr.1, pr.2, by simp⟩
        subst hnueq
        rw [if_pos ⟨hnn, hcf⟩]
        refine ⟨_, rfl, ?_, ?_, ?_, ?_⟩
        · intro ouid2 oldUser hass holk2
          cases hass
          rw [holk] at holk2
          exact absurd holk2 (by simp)
        · intro _ _ _
          rfl
        · intro nuid2 nu2 hnew2 hcf2
          simp only [Option.some.injEq, Prod.mk.injEq] at hnew2
          obtain ⟨h1, h2⟩ := hnew2
          subst h1
          subst h2
          refine ⟨?_, rfl, rfl⟩
          show lookupId (setId db.users nuid (addPending nu tid)) nuid = _
          rw [lookupId_setId, if_pos rfl, loadUserOrNull_ok_some hres]
          rfl
        · rintro (hc | hc)
          · exact absurd hcf (by simp [hc])
          · simp at hc
      · rw [if_neg hs2]
        refine ⟨_, rfl, ?_, ?_, ?_, ?_⟩
        · intro ouid2 oldUser hass holk2
          cases hass
          rw [holk] at holk2
          exact absurd holk2 (by simp)
        · intro _ _ _
          rfl
        · intro nuid nu hnew hcf
          exact absurd ⟨by simp [hnew], hcf⟩ hs2
        · intro hc
          exact ⟨rfl, rfl, fun j _ => rfl⟩
    | some oldUser =>
      simp only [holk]
      by_cases hs2 : (newUser.map Prod.fst ≠ none ∧ completed = false)
      · obtain ⟨hnn, hcf⟩ := hs2
        obtain ⟨nuid, nu, hnueq⟩ : ∃ nuid nu, newUser = some (nuid, nu) := by
          cases newUser with
          | none => simp at hnn
          | some pr => exact ⟨pr.1, pr.2, by simp⟩
        subst hnueq
        rw [if_pos ⟨hnn, hcf⟩]
        have hone : ouid ≠ nuid := by
          rw [hON] at hdiff
          simpa using hdiff
        refine ⟨_, rfl, ?_, ?_, ?_, ?_⟩
        · intro ouid2 oldUser2 hass holk2
          cases hass
          rw [holk] at holk2
          cases holk2
          constructor
          · show lookupId (setId (setId db.users ouid (removePending oldUser tid)) nuid
              (addPending nu tid)) ouid = _
            rw [lookupId_setId, if_neg hone, lookupId_setId, if_pos rfl, holk]
            rfl
          · rfl
        · intro ouid2 hass holk2
          cases hass
          rw [holk] at holk2
          exact absurd holk2 (by simp)
        · intro nuid2 nu2 hnew2 hcf2
          simp only [Option.some.injEq, Prod.mk.injEq] at hnew2
          obtain ⟨h1, h2⟩ := hnew2
          subst h1
          subst h2
          refine ⟨?_, rfl, rfl⟩
          show lookupId (setId (setId db.users ouid (removePending oldUser tid)) nuid
            (addPending nu tid)) nuid = _
          rw [lookupId_setId, if_pos rfl, lookupId_setId, if_neg (Ne.symm hone),
            loadUserOrNull_ok_some hres]
          rfl
        · rintro (hc | hc)
          · exact absurd hcf (by simp [hc])
          · simp at hc
      · rw [if_neg hs2]
        refine ⟨_, rfl, ?_, ?_, ?_, ?_⟩
        · intro ouid2 oldUser2 hass holk2
          cases hass
          rw [holk] at holk2
          cases holk2
          constructor
          · show lookupId (setId db.users ouid (removePending oldUser tid)) ouid = _
            rw [lookupId_setId, if_pos rfl, holk]
            rfl
          · rfl
        · intro ouid2 hass holk2
          cases hass
          rw [holk] at holk2
          exact absurd holk2 (by simp)
        · intro nuid nu hnew hcf
          exact absurd ⟨by simp [hnew], hcf⟩ hs2
        · intro hc
          refine ⟨rfl, rfl, ?_⟩
          intro j hj
          show lookupId (setId db.users ouid (removePending oldUser tid)) j = _
          rw [lookupId_setId, if_neg (fun hc2 => hj (by rw [hc2]))]

/-- Store reached by creating user 0, creating a completed task assigned to
user 0, then deleting user 0: task 0 keeps a dangling assignedUser. -/
def dbC4 : DB := applyOps initDB
  [Op.createUser "A" "a" none,
   Op.createTask "T" "" "d" true (some 0),
   Op.deleteUser 0]

/-- C4 counterexample: an updateTask call on the general path whose task has
a non-empty (dangling) old assignedUser, yet the unassigned counter stays 0
and no user's pendingTasks changes, contradicting the claim that a non-empty
old id always yields a removal plus an unassigned increment. -/
theorem c4_general_path_sync_counterexample :
    (lookupId dbC4.tasks 0).map TaskRec.assignedUser = some (some 0) ∧
    (updateTask dbC4 0 "T" "" "d" false none).2 =
      Except.ok (⟨"T", "", "d", false, none, "unassigned"⟩, TCounters.zero) := by
  decide

/-- Store for the C4 witness: task 0 incomplete, assigned to user 0, pending
for user 0; user 1 exists. -/
def dbC4w : DB :=
  ⟨[(0, ⟨"A", "a", [0]⟩), (1, ⟨"B", "b", []⟩)],
   [(0, ⟨"T", "", "d", false, some 0, "A"⟩)], 2, 1⟩

/-- C4 witness: reassigning incomplete task 0 from user 0 to user 1 removes
it from user 0's pending set, adds it to user 1's, and reports
unassigned = reassigned = addedPending = 1. -/
theorem c4_general_path_sync_witness :
    ∃ r, (updateTask dbC4w 0 "T" "" "d" false (some 1)).2 = Except.ok r ∧
      lookupId (updateTask dbC4w 0 "T" "" "d" false (some 1)).1.users 0 =
        some (removePending ⟨"A", "a", [0]⟩ 0) ∧
      lookupId (updateTask dbC4w 0 "T" "" "d" false (some 1)).1.users 1 =
        some (addPending ⟨"B", "b", []⟩ 0) ∧
      r.2.unassigned = 1 ∧ r.2.reassigned = 1 ∧ r.2.addedPending = 1 := by
  obtain ⟨r, hok, h1, h2, h3, h4⟩ := c4_general_path_sync dbC4w 0
    ⟨"T", "", "d", false, some 0, "A"⟩ "T" "" "d" false (some 1)
    (some (1, ⟨"B", "b", []⟩)) rfl (by decide) (by decide) rfl (by decide)
    (by decide) (by decide)
  obtain ⟨ha, hb⟩ := h1 0 ⟨"A", "a", [0]⟩ rfl rfl
  obtain ⟨hc, hd, he⟩ := h3 1 ⟨"B", "b", []⟩ rfl rfl
  exact ⟨r, hok, ha, hc, hb, hd, he⟩

/-- C5 counterexample: with an unknown task id requested twice, createUser
counts two invalid ids, where a single occurrence counts one - so the
duplicated request does not have exactly the same effect on every counter as
a single occurrence, refuting the claim that the list is deduplicated before
the loop. -/
theorem c5_no_dedup_counterexample :
    (createUser initDB "A" "a" (some [5, 5])).2 =
      Except.ok (0, ⟨"A", "a", []⟩, ⟨0, 0, 0, 0, 2⟩) ∧
    (createUser initDB "A" "a" (some [5])).2 =
      Except.ok (0, ⟨"A", "a", []⟩, ⟨0, 0, 0, 0, 1⟩) := by
  decide

/-- C5 witness: the duplicate-effect theorem instantiated on the empty store
with the unknown id 5 requested twice. -/
theorem c5_no_dedup_duplicate_effect_witness :
    ∃ r2, (createUser initDB "A" "a" (some ([] ++ 5 :: [] ++ 5 :: []))).2 = Except.ok r2 ∧
      r2.1 = 0 ∧ r2.2.1 = ⟨"A", "a", []⟩ ∧
      UCounterDupRel ⟨0, 0, 0, 0, 1⟩ r2.2.2 :=
  (c5_no_dedup_duplicate_effect initDB "A" "a" [] [] [] 5).2.2.1
    (0, ⟨"A", "a", []⟩, ⟨0, 0, 0, 0, 1⟩) (by decide)


/-! ### Claim C8: pending mutations factor through the primitives -/

/-- Reachability between pendingTasks values through the two pending-set
primitives only: the target list arises from the source by a finite sequence
of addPending / removePending applications. -/
inductive PendingReach : List Nat → List Nat → Prop
  | refl (l : List Nat) : PendingReach l l
  | add (l l2 : List Nat) (u : UserRec) (t : Nat) (hu : u.pendingTasks = l) :
      PendingReach (addPending u t).pendingTasks l2 → PendingReach l l2
  | remove (l l2 : List Nat) (u : UserRec) (t : Nat) (hu : u.pendingTasks = l) :
      PendingReach (removePending u t).pendingTasks l2 → PendingReach l l2

theorem PendingReach.trans {a b c : List Nat} (h1 : PendingReach a b)
    (h2 : PendingReach b c) : PendingReach a c := by
  induction h1 with
  | refl => exact h2
  | add l l2 u t hu _ ih => exact PendingReach.add l c u t hu (ih h2)
  | remove l l2 u t hu _ ih => exact PendingReach.remove l c u t hu (ih h2)

theorem reach_add (u : UserRec) (t : Nat) :
    PendingReach u.pendingTasks (addPending u t).pendingTasks :=
  PendingReach.add _ _ u t rfl (PendingReach.refl _)

theorem reach_remove (u : UserRec) (t : Nat) :
    PendingReach u.pendingTasks (removePending u t).pendingTasks :=
  PendingReach.remove _ _ u t rfl (PendingReach.refl _)

theorem reach_nil_aux : ∀ (n : Nat) (l : List Nat), l.length ≤ n → PendingReach l []
  | _, [], _ => PendingReach.refl []
  | 0, a :: r, h => by simp at h
  | n + 1, a :: r, h => by
    refine PendingReach.remove (a :: r) [] ⟨"", "", a :: r⟩ a rfl ?_
    show PendingReach ((a :: r).filter (fun i => decide (i ≠ a))) []
    rw [List.filter_cons, if_neg (by simp)]
    refine reach_nil_aux n (r.filter (fun i => decide (i ≠ a))) ?_
    have := List.length_filter_le (fun i => decide (i ≠ a)) r
    simp at h
    omega

/-- Every pendingTasks value can be emptied through removePending steps. -/
theorem reach_nil (l : List Nat) : PendingReach l [] :=
  reach_nil_aux l.length l (Nat.le_refl _)

theorem reach_classify (uid : Nat) (s : ULoop) (t : Nat) :
    PendingReach s.user.pendingTasks (classifyPendingTask uid s t).user.pendingTasks := by
  rw [classify_split]
  rcases classifyCore_branches uid (s.tasks, s.user) t with h | h
  · show PendingReach s.user.pendingTasks (classifyCore uid (s.tasks, s.user) t).2.pendingTasks
    rw [h]
    exact PendingReach.refl _
  · show PendingReach s.user.pendingTasks (classifyCore uid (s.tasks, s.user) t).2.pendingTasks
    rw [h]
    exact reach_add _ _

theorem reach_classify_fold (uid : Nat) :
    ∀ (l : List Nat) (s : ULoop),
    PendingReach s.user.pendingTasks (l.foldl (classifyPendingTask uid) s).user.pendingTasks
  | [], _ => PendingReach.refl _
  | t :: r, s =>
    (reach_classify uid s t).trans (reach_classify_fold uid r (classifyPendingTask uid s t))

theorem lookup_setId_cases {α : Type} (l : List (Nat × α)) (k uid : Nat) (v : α) :
    lookupId (setId l k v) uid = lookupId l uid ∨
    (uid = k ∧ ∃ w, lookupId l uid = some w ∧ lookupId (setId l k v) uid = some v) := by
  by_cases h : uid = k
  · subst h
    rw [lookupId_setId, if_pos rfl]
    cases hw : lookupId l uid with
    | none =>
      left
      simp
    | some w =>
      right
      exact ⟨rfl, w, rfl, by simp⟩
  · left
    rw [lookupId_setId, if_neg h]

/-- Every way updateTask touches the user collection: each user record is
either unchanged, or replaced by removePending / addPending of its previous
value at this task id. -/
theorem updateTask_users_shape (db : DB) (tid : Nat) (n d dl : String) (c : Bool)
    (aid : Option Nat) (uid : Nat) :
    lookupId (updateTask db tid n d dl c aid).1.users uid = lookupId db.users uid ∨
    (∃ u1, lookupId db.users uid = some u1 ∧
      (lookupId (updateTask db tid n d dl c aid).1.users uid = some (removePending u1 tid) ∨
       lookupId (updateTask db tid n d dl c aid).1.users uid = some (addPending u1 tid))) := by
  unfold updateTask
  split
  · exact Or.inl rfl
  · rename_i task htask
    by_cases hv : (n = "" ∨ dl = "")
    · rw [if_pos hv]
      exact Or.inl rfl
    · rw [if_neg hv]
      split
      · exact Or.inl rfl
      · rename_i newUser hres
        by_cases hg1 : (c = true ∧ task.assignedUser ≠ none ∧
            newUser.map Prod.fst ≠ none ∧ newUser.map Prod.fst ≠ task.assignedUser)
        · rw [if_pos hg1]
          exact Or.inl rfl
        · rw [if_neg hg1]
          by_cases hg2 : (c = true ∧ task.assignedUser = none ∧ newUser.map Prod.fst ≠ none)
          · rw [if_pos hg2]
            exact Or.inl rfl
          · rw [if_neg hg2]
            by_cases hdiff : task.assignedUser ≠ newUser.map Prod.fst
            · rw [if_pos hdiff]
              simp only []
              by_cases hs2 : (newUser.map Prod.fst ≠ none ∧ c = false)
              · obtain ⟨hnn, hcf⟩ := hs2
                obtain ⟨nuid, nu, hnueq⟩ : ∃ nuid nu, newUser = some (nuid, nu) := by
                  cases newUser with
                  | none => simp at hnn
                  | some pr => exact ⟨pr.1, pr.2, by simp⟩
                subst hnueq
                have hnu : lookupId db.users nuid = some nu := loadUserOrNull_ok_some hres
                rw [if_pos ⟨hnn, hcf⟩]
                simp only []
                cases hON : task.assignedUser with
                | none =>
                  by_cases huid : uid = nuid
                  · subst huid
                    right
                    refine ⟨nu, hnu, Or.inr ?_⟩
                    show lookupId (setId db.users uid (addPending nu tid)) uid = _
                    rw [lookupId_setId, if_pos rfl, hnu]
                    rfl
                  · left
                    show lookupId (setId db.users nuid (addPending nu tid)) uid = _
                    rw [lookupId_setId, if_neg huid]
                | some ouid =>
                  have honeq : ouid ≠ nuid := by
                    rw [hON] at hdiff
                    simpa using hdiff
                  simp only []
                  cases holk : lookupId db.users ouid with
                  | none =>
                    by_cases huid : uid = nuid
                    · subst huid
                      right
                      refine ⟨nu, hnu, Or.inr ?_⟩
                      show lookupId (setId db.users uid (addPending nu tid)) uid = _
                      rw [lookupId_setId, if_pos rfl, hnu]
                      rfl
                    · left
                      show lookupId (setId db.users nuid (addPending nu tid)) uid = _
                      rw [lookupId_setId, if_neg huid]
                  | some oldUser =>
                    by_cases huid : uid = nuid
                    · subst huid
                      right
                      refine ⟨nu, hnu, Or.inr ?_⟩
                      show lookupId (setId (setId db.users ouid (removePending oldUser tid))
                        uid (addPending nu tid)) uid = _
                      rw [lookupId_setId, if_pos rfl, lookupId_setId,
                        if_neg (fun h2 => honeq h2.symm), hnu]
                      rfl
                    · by_cases huo : uid = ouid
                      · subst huo
                        right
                        refine ⟨oldUser, holk, Or.inl ?_⟩
                        show lookupId (setId (setId db.users uid (removePending oldUser tid))
                          nuid (addPending nu tid)) uid = _
                        rw [lookupId_setId, if_neg huid, lookupId_setId, if_pos rfl, holk]
                        rfl
                      · left
                        show lookupId (setId (setId db.users ouid (removePending oldUser tid))
                          nuid (addPending nu tid)) uid = _
                        rw [lookupId_setId, if_neg huid, lookupId_setId, if_neg huo]
              · rw [if_neg hs2]
                cases hON : task.assignedUser with
                | none => exact Or.inl rfl
                | some ouid =>
                  simp only []
                  cases holk : lookupId db.users ouid with
                  | none => exact Or.inl rfl
                  | some oldUser =>
                    by_cases huo : uid = ouid
                    · subst huo
                      right
                      refine ⟨oldUser, holk, Or.inl ?_⟩
                      show lookupId (setId db.users uid (removePending oldUser tid)) uid = _
                      rw [lookupId_setId, if_pos rfl, holk]
                      rfl
                    · left
                      show lookupId (setId db.users ouid (removePending oldUser tid)) uid = _
                      rw [lookupId_setId, if_neg huo]
            · rw [if_neg hdiff]
              simp only []
              cases hNU : newUser.map Prod.fst with
              | none => exact Or.inl rfl
              | some nuid =>
                simp only []
                cases hsame : lookupId db.users nuid with
                | none => exact Or.inl rfl
                | some sameUser =>
                  simp only []
                  by_cases hb1 : (task.completed = false ∧ c = true)
                  · rw [if_pos hb1]
                    by_cases huid : uid = nuid
                    · subst huid
                      right
                      refine ⟨sameUser, hsame, Or.inl ?_⟩
                      show lookupId (setId db.users uid (removePending sameUser tid)) uid = _
                      rw [lookupId_setId, if_pos rfl, hsame]
                      rfl
                    · left
                      show lookupId (setId db.users nuid (removePending sameUser tid)) uid = _
                      rw [lookupId_setId, if_neg huid]
                  · rw [if_neg hb1]
                    by_cases hb2 : (task.completed = true ∧ c = false)
                    · rw [if_pos hb2]
                      by_cases huid : uid = nuid
                      · subst huid
                        right
                        refine ⟨sameUser, hsame, Or.inr ?_⟩
                        show lookupId (setId db.users uid (addPending sameUser tid)) uid = _
                        rw [lookupId_setId, if_pos rfl, hsame]
                        rfl
                      · left
                        show lookupId (setId db.users nuid (addPending sameUser tid)) uid = _
                        rw [lookupId_setId, if_neg huid]
                    · rw [if_neg hb2]
                      exact Or.inl rfl

theorem deleteTask_users_shape (db : DB) (tid uid : Nat) :
    lookupId (deleteTask db tid).1.users uid = lookupId db.users uid ∨
    (∃ u1, lookupId db.users uid = some u1 ∧
      lookupId (deleteTask db tid).1.users uid = some (removePending u1 tid)) := by
  unfold deleteTask
  split
  · exact Or.inl rfl
  · rename_i task htask
    simp only []
    cases hass : task.assignedUser with
    | none => exact Or.inl rfl
    | some auid =>
      simp only []
      cases hu : lookupId db.users auid with
      | none => exact Or.inl rfl
      | some u =>
        simp only []
        by_cases huid : uid = auid
        · subst huid
          right
          refine ⟨u, hu, ?_⟩
          show lookupId (setId db.users uid (removePending u tid)) uid = _
          rw [lookupId_setId, if_pos rfl, hu]
          rfl
        · left
          show lookupId (setId db.users auid (removePending u tid)) uid = _
          rw [lookupId_setId, if_neg huid]

theorem createTask_users_shape (db : DB) (n d dl : String) (c : Bool)
    (a : Option Nat) (uid : Nat) :
    lookupId (createTask db n d dl c a).1.users uid = lookupId db.users uid ∨
    (∃ u1, lookupId db.users uid = some u1 ∧
      lookupId (createTask db n d dl c a).1.users uid =
        some (addPending u1 db.nextTaskId)) := by
  unfold createTask
  by_cases hv : (n = "" ∨ dl = "")
  · rw [if_pos hv]
    exact Or.inl rfl
  · rw [if_neg hv]
    split
    · exact Or.inl rfl
    · rename_i resolved hres
      simp only []
      cases resolved with
      | none => exact Or.inl rfl
      | some pr =>
        obtain ⟨auid, au⟩ := pr
        have hau : lookupId db.users auid = some au := loadUserOrNull_ok_some hres
        simp only []
        by_cases hc : c = true
        · rw [if_pos hc]
          exact Or.inl rfl
        · rw [if_neg hc]
          by_cases huid : uid = auid
          · subst huid
            right
            refine ⟨au, hau, ?_⟩
            show lookupId (setId (db.users) uid (addPending au db.nextTaskId)) uid = _
            rw [lookupId_setId, if_pos rfl, hau]
            rfl
          · left
            show lookupId (setId (db.users) auid (addPending au db.nextTaskId)) uid = _
            rw [lookupId_setId, if_neg huid]

theorem deleteUser_users_shape (db : DB) (duid uid : Nat) :
    lookupId (deleteUser db duid).1.users uid = lookupId db.users uid ∨
    lookupId (deleteUser db duid).1.users uid = none := by
  unfold deleteUser
  split
  · exact Or.inl rfl
  · rename_i user huser
    simp only []
    by_cases huid : uid = duid
    · right
      show lookupId (db.users.filter (fun p => decide (p.1 ≠ duid))) uid = none
      rw [lookupId_filterNe, if_pos huid]
    · left
      show lookupId (db.users.filter (fun p => decide (p.1 ≠ duid))) uid = lookupId db.users uid
      rw [lookupId_filterNe, if_neg huid]

theorem createUser_users_shape (db : DB) (n e : String) (p : Option (List Nat)) (uid : Nat)
    (hwf : Wf db) :
    lookupId (createUser db n e p).1.users uid = lookupId db.users uid ∨
    (lookupId db.users uid = none ∧
      ∃ u2, lookupId (createUser db n e p).1.users uid = some u2 ∧
        PendingReach [] u2.pendingTasks) := by
  have hfresh : lookupId db.users db.nextUserId = none := by
    rw [lookupId_eq_none_iff]
    intro q hq
    exact Nat.ne_of_lt (hwf.2.2.1 q hq)
  unfold createUser
  by_cases hv : (n = "" ∨ e = "")
  · rw [if_pos hv]
    exact Or.inl rfl
  · rw [if_neg hv]
    by_cases hc : ((db.users.find? (fun q => emailEqCI q.2.email e)).isSome = true)
    · rw [if_pos hc]
      exact Or.inl rfl
    · rw [if_neg hc]
      simp only []
      by_cases huid : uid = db.nextUserId
      · right
        refine ⟨by rw [huid]; exact hfresh,
          ((p.getD []).foldl (classifyPendingTask db.nextUserId)
            { tasks := db.tasks, user := ⟨n, e, []⟩, counters := UCounters.zero }).user,
          ?_, ?_⟩
        · show lookupId (setId (db.users ++ [(db.nextUserId, ⟨n, e, []⟩)]) db.nextUserId
            ((p.getD []).foldl (classifyPendingTask db.nextUserId)
              { tasks := db.tasks, user := ⟨n, e, []⟩, counters := UCounters.zero }).user) uid = _
          rw [lookupId_setId, if_pos huid, lookupId_append_of_none _ hfresh]
          show (if db.nextUserId = db.nextUserId then some ((⟨n, e, []⟩ : UserRec)) else none).map _ = _
          rw [if_pos rfl]
          rfl
        · exact reach_classify_fold db.nextUserId (p.getD [])
            { tasks := db.tasks, user := ⟨n, e, []⟩, counters := UCounters.zero }
      · left
        show lookupId (setId (db.users ++ [(db.nextUserId, ⟨n, e, []⟩)]) db.nextUserId
          ((p.getD []).foldl (classifyPendingTask db.nextUserId)
            { tasks := db.tasks, user := ⟨n, e, []⟩, counters := UCounters.zero }).user) uid = _
        rw [lookupId_setId, if_neg huid]
        cases hb : lookupId db.users uid with
        | some v => rw [lookupId_append_of_some _ hb]
        | none =>
          rw [lookupId_append_of_none _ hb]
          show (if db.nextUserId = uid then some ((⟨n, e, []⟩ : UserRec)) else none) = none
          rw [if_neg (fun h2 => huid h2.symm)]

theorem updateUser_users_shape (db : DB) (uuid : Nat) (n e : String)
    (p : Option (List Nat)) (uid : Nat) :
    lookupId (updateUser db uuid n e p).1.users uid = lookupId db.users uid ∨
    (∃ u1 u2, lookupId db.users uid = some u1 ∧
      lookupId (updateUser db uuid n e p).1.users uid = some u2 ∧
      PendingReach u1.pendingTasks u2.pendingTasks) := by
  unfold updateUser
  by_cases hv : (n = "" ∨ e = "")
  · rw [if_pos hv]
    exact Or.inl rfl
  · rw [if_neg hv]
    split
    · exact Or.inl rfl
    · rename_i user huser
      by_cases hc : ((db.users.find?
          (fun q => decide (q.1 ≠ uuid) && emailEqCI q.2.email e)).isSome = true)
      · rw [if_pos hc]
        exact Or.inl rfl
      · rw [if_neg hc]
        simp only []
        by_cases huid : uid = uuid
        · right
          refine ⟨user,
            ((p.getD []).foldl (classifyPendingTask uuid)
              { tasks := (user.pendingTasks.foldl (dropOldPending uuid (p.getD []))
                  (db.tasks, 0)).1,
                user := ⟨n, e, []⟩, counters :=
                  { UCounters.zero with
                    unassigned := (user.pendingTasks.foldl (dropOldPending uuid (p.getD []))
                      (db.tasks, 0)).2 } }).user,
            by rw [huid]; exact huser, ?_, ?_⟩
          · show lookupId (setId db.users uuid
              ((p.getD []).foldl (classifyPendingTask uuid)
                { tasks := (user.pendingTasks.foldl (dropOldPending uuid (p.getD []))
                    (db.tasks, 0)).1,
                  user := ⟨n, e, []⟩, counters :=
                    { UCounters.zero with
                      unassigned := (user.pendingTasks.foldl (dropOldPending uuid (p.getD []))
                        (db.tasks, 0)).2 } }).user) uid = _
            rw [lookupId_setId, if_pos huid, huser]
            rfl
          · refine (reach_nil user.pendingTasks).trans ?_
            exact reach_classify_fold uuid (p.getD [])
              { tasks := (user.pendingTasks.foldl (dropOldPending uuid (p.getD []))
                  (db.tasks, 0)).1,
                user := ⟨n, e, []⟩, counters :=
                  { UCounters.zero with
                    unassigned := (user.pendingTasks.foldl (dropOldPending uuid (p.getD []))
                      (db.tasks, 0)).2 } }
        · left
          show lookupId (setId db.users uuid
            ((p.getD []).foldl (classifyPendingTask uuid)
              { tasks := (user.pendingTasks.foldl (dropOldPending uuid (p.getD []))
                  (db.tasks, 0)).1,
                user := ⟨n, e, []⟩, counters :=
                  { UCounters.zero with
                    unassigned := (user.pendingTasks.foldl (dropOldPending uuid (p.getD []))
                      (db.tasks, 0)).2 } }).user) uid = _
          rw [lookupId_setId, if_neg huid]

/-- C8: every mutation any of the six operations makes to any user's
pendingTasks factors through the addPending / removePending primitives: the
resulting pending list is reachable from the previous one (from the empty
list for a freshly created user) through those two primitives alone. -/
theorem c8_pending_via_primitives (db : DB) (op : Op) (hwf : Wf db)
    (uid : Nat) (u2 : UserRec)
    (hafter : lookupId (applyOp db op).users uid = some u2) :
    (∀ u1, lookupId db.users uid = some u1 →
      PendingReach u1.pendingTasks u2.pendingTasks) ∧
    (lookupId db.users uid = none → PendingReach [] u2.pendingTasks) := by
  cases op with
  | createUser n e p =>
    simp only [applyOp] at hafter
    rcases createUser_users_shape db n e p uid hwf with h | ⟨hnone, u2b, hafter2, hreach⟩
    · rw [h] at hafter
      constructor
      · intro u1 h1
        rw [h1] at hafter
        cases hafter
        exact PendingReach.refl _
      · intro h1
        rw [h1] at hafter
        cases hafter
    · constructor
      · intro u1 h1
        rw [h1] at hnone
        cases hnone
      · intro _
        rw [hafter2] at hafter
        cases hafter
        exact hreach
  | updateUser uuid n e p =>
    simp only [applyOp] at hafter
    rcases updateUser_users_shape db uuid n e p uid with h | ⟨u1b, u2b, hb, hafter2, hreach⟩
    · rw [h] at hafter
      constructor
      · intro u1 h1
        rw [h1] at hafter
        cases hafter
        exact PendingReach.refl _
      · intro h1
        rw [h1] at hafter
        cases hafter
    · constructor
      · intro u1 h1
        rw [h1] at hb
        cases hb
        rw [hafter2] at hafter
        cases hafter
        exact hreach
      · intro h1
        rw [h1] at hb
        cases hb
  | deleteUser duid =>
    simp only [applyOp] at hafter
    rcases deleteUser_users_shape db duid uid with h | h
    · rw [h] at hafter
      constructor
      · intro u1 h1
        rw [h1] at hafter
        cases hafter
        exact PendingReach.refl _
      · intro h1
        rw [h1] at hafter
        cases hafter
    · rw [h] at hafter
      cases hafter
  | createTask n d dl c a =>
    simp only [applyOp] at hafter
    rcases createTask_users_shape db n d dl c a uid with h | ⟨u1b, hb, hafter2⟩
    · rw [h] at hafter
      constructor
      · intro u1 h1
        rw [h1] at hafter
        cases hafter
        exact PendingReach.refl _
      · intro h1
        rw [h1] at hafter
        cases hafter
    · constructor
      · intro u1 h1
        rw [h1] at hb
        cases hb
        rw [hafter2] at hafter
        cases hafter
        exact reach_add _ _
      · intro h1
        rw [h1] at hb
        cases hb
  | updateTask tid n d dl c a =>
    simp only [applyOp] at hafter
    rcases updateTask_users_shape db tid n d dl c a uid with h | ⟨u1b, hb, hmod⟩
    · rw [h] at hafter
      constructor
      · intro u1 h1
        rw [h1] at hafter
        cases hafter
        exact PendingReach.refl _
      · intro h1
        rw [h1] at hafter
        cases hafter
    · constructor
      · intro u1 h1
        rw [h1] at hb
        cases hb
        rcases hmod with h2 | h2
        · rw [h2] at hafter
          cases hafter
          exact reach_remove _ _
        · rw [h2] at hafter
          cases hafter
          exact reach_add _ _
      · intro h1
        rw [h1] at hb
        cases hb
  | deleteTask tid =>
    simp only [applyOp] at hafter
    rcases deleteTask_users_shape db tid uid with h | ⟨u1b, hb, hafter2⟩
    · rw [h] at hafter
      constructor
      · intro u1 h1
        rw [h1] at hafter
        cases hafter
        exact PendingReach.refl _
      · intro h1
        rw [h1] at hafter
        cases hafter
    · constructor
      · intro u1 h1
        rw [h1] at hb
        cases hb
        rw [hafter2] at hafter
        cases hafter
        exact reach_remove _ _
      · intro h1
        rw [h1] at hb
        cases hb

/-- C8 witness: reassignment of task 0 from user 0 to user 1 by updateTask;
user 0's new pending list is reachable from its old one via the primitives. -/
theorem c8_pending_via_primitives_witness :
    PendingReach [0] (removePending (⟨"A", "a", [0]⟩ : UserRec) 0).pendingTasks :=
  have h := c8_pending_via_primitives dbC4w (Op.updateTask 0 "T" "" "d" false (some 1))
    (by decide) 0 (removePending ⟨"A", "a", [0]⟩ 0) (by decide)
  h.1 ⟨"A", "a", [0]⟩ (by decide)



/-- Per-operation exclusion for the amended mirror-invariant theorem: the
user-side operations must not steal an incomplete task from another user
(reported reassigned counter must be 0), and updateTask's completed-guard
rejection may only fire on a task that was already completed. -/
def okOpB (db : DB) : Op → Bool
  | Op.createUser n e p =>
    match (createUser db n e p).2 with
    | Except.ok r => r.2.2.reassigned == 0
    | Except.error _ => true
  | Op.updateUser uid n e p =>
    match (updateUser db uid n e p).2 with
    | Except.ok r => r.2.reassigned == 0
    | Except.error _ => true
  | Op.updateTask tid n d dl c a =>
    match (updateTask db tid n d dl c a).2 with
    | Except.ok r => r.2.completedNotReassigned == 0 ||
        (match lookupId db.tasks tid with
         | some t => t.completed
         | none => true)
    | Except.error _ => true
  | _ => true

/-- A sequence of operations in which every step avoids the excluded paths. -/
def goodSeq : DB → List Op → Bool
  | _, [] => true
  | db, op :: rest => okOpB db op && goodSeq (applyOp db op) rest

/-- Lookup-based form of the mirror invariant, used inside the proofs. -/
def InvL (db : DB) : Prop :=
  ∀ uid u, lookupId db.users uid = some u →
    (∀ tid ∈ u.pendingTasks, taskPendingFor db.tasks uid tid = true) ∧
    (∀ tid t, lookupId db.tasks tid = some t → t.assignedUser = some uid →
      t.completed = false → tid ∈ u.pendingTasks)

theorem mem_iff_lookupId {α : Type} {l : List (Nat × α)}
    (hnd : (l.map Prod.fst).Nodup) (k : Nat) (v : α) :
    (k, v) ∈ l ↔ lookupId l k = some v :=
  ⟨lookupId_eq_some_of_mem hnd, mem_of_lookupId⟩

theorem mirrorInv_of_invL {db : DB} (hwf : Wf db) (h : InvL db) : MirrorInv db := by
  intro q hq
  obtain ⟨h1, h2⟩ := h q.1 q.2 (lookupId_eq_some_of_mem hwf.1 (by cases q; exact hq))
  refine ⟨h1, ?_⟩
  intro r hr hass hcomp
  exact h2 r.1 r.2 (lookupId_eq_some_of_mem hwf.2.1 (by cases r; exact hr)) hass hcomp

theorem invL_of_mirrorInv {db : DB} (h : MirrorInv db) : InvL db := by
  intro uid u hu
  obtain ⟨h1, h2⟩ := h (uid, u) (mem_of_lookupId hu)
  refine ⟨h1, ?_⟩
  intro tid t ht hass hcomp
  exact h2 (tid, t) (mem_of_lookupId ht) hass hcomp

theorem mem_setId {α : Type} {l : List (Nat × α)} {k : Nat} {v : α} {q : Nat × α}
    (h : q ∈ setId l k v) : q = (k, v) ∨ q ∈ l := by
  unfold setId at h
  rcases List.mem_map.mp h with ⟨p, hp, hpe⟩
  by_cases hpk : p.1 = k
  · rw [if_pos hpk] at hpe
    exact Or.inl hpe.symm
  · rw [if_neg hpk] at hpe
    exact Or.inr (hpe ▸ hp)

theorem assignedUnder_mono {t : TaskRec} {b b2 : Nat} (h : assignedUnder t b = true)
    (hb : b ≤ b2) : assignedUnder t b2 = true := by
  unfold assignedUnder at h ⊢
  cases ha : t.assignedUser with
  | none => rfl
  | some a =>
    rw [ha] at h
    simp only [decide_eq_true_eq] at h ⊢
    omega

theorem taskPendingFor_setId_self {ts : List (Nat × TaskRec)} {k : Nat} {tk : TaskRec}
    (h : lookupId ts k = some tk) (v : TaskRec) (w : Nat) :
    taskPendingFor (setId ts k v) w k = (v.assignedUser == some w && !v.completed) := by
  unfold taskPendingFor
  rw [lookupId_setId, if_pos rfl, h]
  rfl

theorem taskPendingFor_setId_ne (ts : List (Nat × TaskRec)) (k : Nat) (v : TaskRec)
    (w tid : Nat) (hne : tid ≠ k) :
    taskPendingFor (setId ts k v) w tid = taskPendingFor ts w tid := by
  unfold taskPendingFor
  rw [lookupId_setId, if_neg hne]

/-- Case analysis of one classification iteration whose counter increment has
reassigned = 0 (the steal branch is excluded). -/
theorem classify_step_cases (uid : Nat) (p : List (Nat × TaskRec) × UserRec) (t : Nat)
    (hns : (classifyDelta uid p t).reassigned = 0) :
    (lookupId p.1 t = none ∧ classifyCore uid p t = p) ∨
    (∃ task, lookupId p.1 t = some task ∧ task.completed = true ∧
      task.assignedUser = none ∧
      classifyCore uid p t =
        (setId p.1 t { task with assignedUser := some uid, assignedUserName := p.2.name },
         p.2)) ∨
    (∃ task, lookupId p.1 t = some task ∧ task.completed = true ∧
      task.assignedUser ≠ none ∧ classifyCore uid p t = p) ∨
    (∃ task, lookupId p.1 t = some task ∧ task.completed = false ∧
      task.assignedUser = none ∧
      classifyCore uid p t =
        (setId p.1 t { task with assignedUser := some uid, assignedUserName := p.2.name },
         addPending p.2 t)) ∨
    (∃ task, lookupId p.1 t = some task ∧ task.completed = false ∧
      task.assignedUser = some uid ∧
      classifyCore uid p t = (p.1, addPending p.2 t)) := by
  unfold classifyDelta at hns
  unfold classifyCore
  split
  · rename_i heq
    exact Or.inl ⟨heq, rfl⟩
  · rename_i task heq
    rw [heq] at hns
    simp only [] at hns
    split_ifs with hc hn hn hq
    · exact Or.inr (Or.inl ⟨task, heq, hc, hn, rfl⟩)
    · exact Or.inr (Or.inr (Or.inl ⟨task, heq, hc, hn, rfl⟩))
    · exact Or.inr (Or.inr (Or.inr (Or.inl ⟨task, heq, by simpa using hc, hn, rfl⟩)))
    · rw [if_neg hc, if_neg hn, if_pos hq] at hns
      simp at hns
    · refine Or.inr (Or.inr (Or.inr (Or.inr ⟨task, heq, by simpa using hc, by simpa using hq, rfl⟩)))


theorem taskPendingFor_lookup {ts : List (Nat × TaskRec)} {tid : Nat} {t0 : TaskRec}
    (h : lookupId ts tid = some t0) (w : Nat) :
    taskPendingFor ts w tid = (t0.assignedUser == some w && !t0.completed) := by
  unfold taskPendingFor
  rw [h]

theorem taskPendingFor_none {ts : List (Nat × TaskRec)} {tid : Nat}
    (h : lookupId ts tid = none) (w : Nat) : taskPendingFor ts w tid = false := by
  unfold taskPendingFor
  rw [h]

/-- Invariant preservation along the classification loop, on the store-user
core, provided no steal iteration occurs (summed reassigned increment 0):
the final pending set matches exactly the tasks assigned to this user and
incomplete, other users' pending views are untouched, keys are preserved,
and assigned ids stay below the given bound. -/
theorem classify_fold_inv (uid bound : Nat) :
    ∀ (l : List Nat) (ts : List (Nat × TaskRec)) (u : UserRec),
    (sumDeltas uid (ts, u) l).reassigned = 0 →
    (∀ tid ∈ u.pendingTasks, taskPendingFor ts uid tid = true) →
    (∀ tid, taskPendingFor ts uid tid = true → tid ∉ l → tid ∈ u.pendingTasks) →
    (∀ k tk, lookupId ts k = some tk → assignedUnder tk bound = true) →
    uid < bound →
    (∀ tid ∈ (foldCore uid (ts, u) l).2.pendingTasks,
      taskPendingFor (foldCore uid (ts, u) l).1 uid tid = true) ∧
    (∀ tid, taskPendingFor (foldCore uid (ts, u) l).1 uid tid = true →
      tid ∈ (foldCore uid (ts, u) l).2.pendingTasks) ∧
    (∀ vid tid, vid ≠ uid →
      taskPendingFor (foldCore uid (ts, u) l).1 vid tid = taskPendingFor ts vid tid) ∧
    ((foldCore uid (ts, u) l).1.map Prod.fst = ts.map Prod.fst) ∧
    (∀ k tk, lookupId (foldCore uid (ts, u) l).1 k = some tk →
      assignedUnder tk bound = true)
  | [], ts, u, _, hP1, hP2, hB, _ =>
    ⟨hP1, fun tid hpf => hP2 tid hpf (by simp), fun _ _ _ => rfl, rfl, hB⟩
  | t :: r, ts, u, hns, hP1, hP2, hB, hub => by
    have hns2 : (classifyDelta uid (ts, u) t).reassigned +
        (sumDeltas uid (classifyCore uid (ts, u) t) r).reassigned = 0 := hns
    have hδ : (classifyDelta uid (ts, u) t).reassigned = 0 := by omega
    have hrest : (sumDeltas uid (classifyCore uid (ts, u) t) r).reassigned = 0 := by omega
    have hfold : foldCore uid (ts, u) (t :: r) =
        foldCore uid (classifyCore uid (ts, u) t) r := rfl
    rcases classify_step_cases uid (ts, u) t hδ with
      ⟨hlk, hcore⟩ | ⟨task, hlk, hc, hn, hcore⟩ | ⟨task, hlk, hc, hn, hcore⟩ |
      ⟨task, hlk, hc, hn, hcore⟩ | ⟨task, hlk, hc, hn, hcore⟩
    · -- unknown id: no change
      rw [hfold, hcore]
      rw [hcore] at hrest
      refine classify_fold_inv uid bound r ts u hrest hP1 ?_ hB hub
      intro tid hpf htid
      by_cases he : tid = t
      · subst he
        rw [taskPendingFor_none hlk] at hpf
        cases hpf
      · exact hP2 tid hpf (by simp [he, htid])
    · -- completed and unassigned: assign, not pending
      rw [hfold, hcore]
      rw [hcore] at hrest
      set task1 : TaskRec :=
        { task with assignedUser := some uid, assignedUserName := u.name } with htask1
      have hself : ∀ w, taskPendingFor (setId ts t task1) w t = false := by
        intro w
        rw [taskPendingFor_setId_self hlk]
        simp [htask1, hc]
      obtain ⟨g1, g2, g3, g4, g5⟩ := classify_fold_inv uid bound r (setId ts t task1) u
        hrest
        (by
          intro tid htid
          have hne : tid ≠ t := by
            intro he
            subst he
            have := hP1 tid htid
            rw [taskPendingFor_lookup hlk] at this
            simp [hn, hc] at this
          rw [taskPendingFor_setId_ne ts t task1 uid tid hne]
          exact hP1 tid htid)
        (by
          intro tid hpf htid
          by_cases he : tid = t
          · subst he
            rw [hself uid] at hpf
            cases hpf
          · rw [taskPendingFor_setId_ne ts t task1 uid tid he] at hpf
            exact hP2 tid hpf (by simp [he, htid]))
        (by
          intro k tk hk
          rw [lookupId_setId] at hk
          by_cases he : k = t
          · rw [if_pos he, hlk] at hk
            cases hk
            unfold assignedUnder
            show decide (uid < bound) = true
            exact decide_eq_true hub
          · rw [if_neg he] at hk
            exact hB k tk hk)
        hub
      refine ⟨g1, g2, ?_, g4.trans (keys_setId ts t task1), g5⟩
      intro vid tid hvid
      rw [g3 vid tid hvid]
      by_cases he : tid = t
      · subst he
        rw [hself vid, taskPendingFor_lookup hlk]
        simp [hn]
      · exact taskPendingFor_setId_ne ts t task1 vid tid he
    · -- completed and assigned: untouched
      rw [hfold, hcore]
      rw [hcore] at hrest
      refine classify_fold_inv uid bound r ts u hrest hP1 ?_ hB hub
      intro tid hpf htid
      by_cases he : tid = t
      · subst he
        rw [taskPendingFor_lookup hlk] at hpf
        simp [hc] at hpf
      · exact hP2 tid hpf (by simp [he, htid])
    · -- incomplete and unassigned: assign and add to pending
      rw [hfold, hcore]
      rw [hcore] at hrest
      set task1 : TaskRec :=
        { task with assignedUser := some uid, assignedUserName := u.name } with htask1
      have hselfu : taskPendingFor (setId ts t task1) uid t = true := by
        rw [taskPendingFor_setId_self hlk]
        simp [htask1, hc]
      obtain ⟨g1, g2, g3, g4, g5⟩ := classify_fold_inv uid bound r (setId ts t task1)
        (addPending u t) hrest
        (by
          intro tid htid
          rcases (mem_addPending u t tid).mp htid with htid2 | he
          · have hne : tid ≠ t := by
              intro he
              subst he
              have := hP1 tid htid2
              rw [taskPendingFor_lookup hlk] at this
              simp [hn] at this
            rw [taskPendingFor_setId_ne ts t task1 uid tid hne]
            exact hP1 tid htid2
          · subst he
            exact hselfu)
        (by
          intro tid hpf htid
          by_cases he : tid = t
          · subst he
            exact mem_addPending_self u tid
          · rw [taskPendingFor_setId_ne ts t task1 uid tid he] at hpf
            exact subset_addPending u t (hP2 tid hpf (by simp [he, htid])))
        (by
          intro k tk hk
          rw [lookupId_setId] at hk
          by_cases he : k = t
          · rw [if_pos he, hlk] at hk
            cases hk
            unfold assignedUnder
            show decide (uid < bound) = true
            exact decide_eq_true hub
          · rw [if_neg he] at hk
            exact hB k tk hk)
        hub
      refine ⟨g1, g2, ?_, g4.trans (keys_setId ts t task1), g5⟩
      intro vid tid hvid
      rw [g3 vid tid hvid]
      by_cases he : tid = t
      · subst he
        rw [taskPendingFor_setId_self hlk, taskPendingFor_lookup hlk]
        simp [htask1, hn]
        exact fun h => absurd h.symm hvid
      · exact taskPendingFor_setId_ne ts t task1 vid tid he
    · -- incomplete and already this user: idempotent pending add
      rw [hfold, hcore]
      rw [hcore] at hrest
      obtain ⟨g1, g2, g3, g4, g5⟩ := classify_fold_inv uid bound r ts (addPending u t)
        hrest
        (by
          intro tid htid
          rcases (mem_addPending u t tid).mp htid with htid2 | he
          · exact hP1 tid htid2
          · subst he
            rw [taskPendingFor_lookup hlk]
            simp [hn, hc])
        (by
          intro tid hpf htid
          by_cases he : tid = t
          · subst he
            exact mem_addPending_self u tid
          · exact subset_addPending u t (hP2 tid hpf (by simp [he, htid])))
        hB hub
      exact ⟨g1, g2, g3, g4, g5⟩


theorem keys_mapSnd {α β : Type} (l : List (Nat × α)) (g : Nat → α → β) :
    (l.map (fun p => (p.1, g p.1 p.2))).map Prod.fst = l.map Prod.fst := by
  induction l with
  | nil => rfl
  | cons p rest ih => simp [ih]

theorem wf_fresh_user {db : DB} (hwf : Wf db) : lookupId db.users db.nextUserId = none := by
  rw [lookupId_eq_none_iff]
  intro q hq
  exact Nat.ne_of_lt (hwf.2.2.1 q hq)

theorem wf_fresh_task {db : DB} (hwf : Wf db) : lookupId db.tasks db.nextTaskId = none := by
  rw [lookupId_eq_none_iff]
  intro q hq
  exact Nat.ne_of_lt (hwf.2.2.2 q hq).1

theorem wf_user_lt {db : DB} (hwf : Wf db) {uid : Nat} {u : UserRec}
    (h : lookupId db.users uid = some u) : uid < db.nextUserId :=
  hwf.2.2.1 _ (mem_of_lookupId h)

theorem wf_taskB {db : DB} (hwf : Wf db) :
    ∀ k tk, lookupId db.tasks k = some tk → assignedUnder tk db.nextUserId = true :=
  fun _ _ h => (hwf.2.2.2 _ (mem_of_lookupId h)).2

theorem wf_task_lt {db : DB} (hwf : Wf db) {tid : Nat} {t : TaskRec}
    (h : lookupId db.tasks tid = some t) : tid < db.nextTaskId :=
  (hwf.2.2.2 _ (mem_of_lookupId h)).1

/-- Rebuild the membership-based task component of Wf from preserved keys and
lookup-based bounds. -/
theorem wf_tasks_rebuild {ts ts2 : List (Nat × TaskRec)} {nt nu : Nat}
    (hkeys : ts2.map Prod.fst = ts.map Prod.fst)
    (hnd : (ts.map Prod.fst).Nodup)
    (hlt : ∀ q ∈ ts, q.1 < nt)
    (hB : ∀ k tk, lookupId ts2 k = some tk → assignedUnder tk nu = true) :
    ∀ q ∈ ts2, q.1 < nt ∧ assignedUnder q.2 nu = true := by
  intro q hq
  have hnd2 : (ts2.map Prod.fst).Nodup := by rw [hkeys]; exact hnd
  have hlk : lookupId ts2 q.1 = some q.2 :=
    lookupId_eq_some_of_mem hnd2 (by cases q; exact hq)
  refine ⟨?_, hB q.1 q.2 hlk⟩
  have : q.1 ∈ ts.map Prod.fst := by
    rw [← hkeys]
    exact List.mem_map_of_mem Prod.fst hq
  rcases List.mem_map.mp this with ⟨q0, hq0, hq0e⟩
  exact hq0e ▸ hlt q0 hq0

/-- Option-level success normal form of createUser. -/
theorem createUser_okO (db : DB) (nm em : String) (p : Option (List Nat))
    (hv : ¬(nm = "" ∨ em = ""))
    (hc : ¬((db.users.find? (fun q => emailEqCI q.2.email em)).isSome = true)) :
    createUser db nm em p =
      ({ users := setId (db.users ++ [(db.nextUserId, ⟨nm, em, []⟩)]) db.nextUserId
           (foldCore db.nextUserId (db.tasks, ⟨nm, em, []⟩) (p.getD [])).2,
         tasks := (foldCore db.nextUserId (db.tasks, ⟨nm, em, []⟩) (p.getD [])).1,
         nextUserId := db.nextUserId + 1, nextTaskId := db.nextTaskId },
       Except.ok (db.nextUserId, (foldCore db.nextUserId (db.tasks, ⟨nm, em, []⟩) (p.getD [])).2,
         addU UCounters.zero (sumDeltas db.nextUserId (db.tasks, ⟨nm, em, []⟩) (p.getD [])))) := by
  unfold createUser
  rw [if_neg hv, if_neg hc]
  simp only []
  rw [fold_split]

theorem preserve_createUser (db : DB) (n e : String) (p : Option (List Nat))
    (hwf : Wf db) (hinv : InvL db)
    (hok : okOpB db (Op.createUser n e p) = true) :
    Wf (applyOp db (Op.createUser n e p)) ∧ InvL (applyOp db (Op.createUser n e p)) := by
  simp only [applyOp]
  by_cases hv : (n = "" ∨ e = "")
  · unfold createUser
    rw [if_pos hv]
    exact ⟨hwf, hinv⟩
  · by_cases hc : ((db.users.find? (fun q => emailEqCI q.2.email e)).isSome = true)
    · unfold createUser
      rw [if_neg hv, if_pos hc]
      exact ⟨hwf, hinv⟩
    · have hok2 : (sumDeltas db.nextUserId (db.tasks, ⟨n, e, []⟩) (p.getD [])).reassigned = 0 := by
        simp only [okOpB] at hok
        rw [createUser_okO db n e p hv hc] at hok
        simpa [addU, UCounters.zero] using hok
      rw [createUser_okO db n e p hv hc]
      set uidN := db.nextUserId with huidN
      set core := foldCore uidN (db.tasks, (⟨n, e, []⟩ : UserRec)) (p.getD []) with hcore
      obtain ⟨g1, g2, g3, g4, g5⟩ := classify_fold_inv uidN (uidN + 1) (p.getD [])
        db.tasks ⟨n, e, []⟩ hok2
        (by intro tid htid; cases htid)
        (by
          intro tid hpf _
          rcases (taskPendingFor_eq_true _ _ _).mp hpf with ⟨t0, hlk, hass, _⟩
          have := wf_taskB hwf tid t0 hlk
          rw [← huidN] at this
          unfold assignedUnder at this
          rw [hass] at this
          simp only [decide_eq_true_eq] at this
          omega)
        (fun k tk hk => assignedUnder_mono (by
          have := wf_taskB hwf k tk hk
          rw [← huidN] at this
          exact this) (Nat.le_succ _))
        (Nat.lt_succ_self _)
      constructor
      · -- Wf of the new store
        refine ⟨?_, ?_, ?_, ?_⟩
        · show ((setId (db.users ++ [(uidN, ⟨n, e, []⟩)]) uidN core.2).map Prod.fst).Nodup
          rw [keys_setId, List.map_append]
          rw [List.nodup_append]
          refine ⟨hwf.1, by simp, ?_⟩
          intro a ha hb
          simp only [List.map_cons, List.map_nil, List.mem_singleton] at hb
          rcases List.mem_map.mp ha with ⟨q, hq, hqe⟩
          exact Nat.ne_of_lt (huidN ▸ hwf.2.2.1 q hq) (hqe.trans hb)
        · show ((core.1).map Prod.fst).Nodup
          rw [g4]
          exact hwf.2.1
        · intro q hq
          rcases mem_setId hq with hqe | hq2
          · rw [hqe]
            exact Nat.lt_succ_self _
          · rcases List.mem_append.mp hq2 with hq3 | hq3
            · exact Nat.lt_succ_of_lt (huidN ▸ hwf.2.2.1 q hq3)
            · simp only [List.mem_singleton] at hq3
              rw [hq3]
              exact Nat.lt_succ_self _
        · exact wf_tasks_rebuild g4 hwf.2.1 (fun q hq => (hwf.2.2.2 q hq).1) g5
      · -- InvL of the new store
        intro uid2 u2 hu2
        have hu2a : lookupId (setId (db.users ++ [(uidN, (⟨n, e, []⟩ : UserRec))]) uidN core.2)
            uid2 = some u2 := hu2
        rw [lookupId_setId] at hu2a
        by_cases he : uid2 = uidN
        · subst he
          rw [if_pos rfl, lookupId_append_of_none _ (by
            rw [huidN]
            exact wf_fresh_user hwf)] at hu2a
          have hx : lookupId [(uidN, (⟨n, e, []⟩ : UserRec))] uidN = some ⟨n, e, []⟩ := by
            unfold lookupId
            rw [if_pos rfl]
          rw [hx] at hu2a
          have hu2b : u2 = core.2 := by
            simpa using hu2a.symm
          subst hu2b
          constructor
          · intro tid htid
            show taskPendingFor core.1 uidN tid = true
            exact g1 tid htid
          · intro tid t ht hass hcomp
            refine g2 tid ?_
            have ht2 : lookupId core.1 tid = some t := ht
            rw [taskPendingFor_lookup ht2]
            simp [hass, hcomp]
        · rw [if_neg he] at hu2a
          have hu2b : lookupId db.users uid2 = some u2 := by
            cases hb : lookupId db.users uid2 with
            | some v =>
              rw [lookupId_append_of_some _ hb] at hu2a
              exact hu2a
            | none =>
              rw [lookupId_append_of_none _ hb] at hu2a
              have hz : lookupId [(uidN, (⟨n, e, []⟩ : UserRec))] uid2 = none := by
                unfold lookupId
                rw [if_neg (fun h2 => he h2.symm)]
                rfl
              rw [hz] at hu2a
              cases hu2a
          obtain ⟨hA, hB2⟩ := hinv uid2 u2 hu2b
          constructor
          · intro tid htid
            show taskPendingFor core.1 uid2 tid = true
            rw [g3 uid2 tid he]
            exact hA tid htid
          · intro tid t ht hass hcomp
            have ht2 : lookupId core.1 tid = some t := ht
            have hpf : taskPendingFor core.1 uid2 tid = true := by
              rw [taskPendingFor_lookup ht2]
              simp [hass, hcomp]
            rw [g3 uid2 tid he] at hpf
            rcases (taskPendingFor_eq_true _ _ _).mp hpf with ⟨t0, hlk0, hass0, hcomp0⟩
            exact hB2 tid t0 hlk0 hass0 hcomp0


/-- The cleanup fold of updateUser preserves the task keys. -/
theorem dropOldPending_keys (uid : Nat) (inc : List Nat) :
    ∀ (l : List Nat) (ts : List (Nat × TaskRec)) (nn : Nat),
    ((l.foldl (dropOldPending uid inc) (ts, nn)).1).map Prod.fst = ts.map Prod.fst
  | [], _, _ => rfl
  | a :: l', ts, nn => by
    rw [List.foldl_cons]
    by_cases ha : a ∈ inc
    · rw [dropOldPending_skip uid inc _ _ ha]
      exact dropOldPending_keys uid inc l' ts nn
    · cases hl : lookupId ts a with
      | none =>
        rw [dropOldPending_miss uid inc _ _ ha hl]
        exact dropOldPending_keys uid inc l' ts nn
      | some ta =>
        by_cases hass : ta.assignedUser = some uid
        · rw [dropOldPending_clear uid inc _ _ ta ha hl hass]
          rw [dropOldPending_keys uid inc l' _ _]
          exact keys_setId ts a _
        · rw [dropOldPending_keep uid inc _ _ ta ha hl hass]
          exact dropOldPending_keys uid inc l' ts nn

/-- Option-level success normal form of updateUser. -/
theorem updateUser_okO (db : DB) (uid : Nat) (nm em : String) (p : Option (List Nat))
    (user : UserRec)
    (hv : ¬(nm = "" ∨ em = ""))
    (hu : lookupId db.users uid = some user)
    (hc : ¬((db.users.find? (fun q => decide (q.1 ≠ uid) && emailEqCI q.2.email em)).isSome = true)) :
    updateUser db uid nm em p =
      ({ users := setId db.users uid
           (foldCore uid ((user.pendingTasks.foldl (dropOldPending uid (p.getD []))
               (db.tasks, 0)).1, ⟨nm, em, []⟩) (p.getD [])).2,
         tasks := (foldCore uid ((user.pendingTasks.foldl (dropOldPending uid (p.getD []))
             (db.tasks, 0)).1, ⟨nm, em, []⟩) (p.getD [])).1,
         nextUserId := db.nextUserId, nextTaskId := db.nextTaskId },
       Except.ok ((foldCore uid ((user.pendingTasks.foldl (dropOldPending uid (p.getD []))
             (db.tasks, 0)).1, ⟨nm, em, []⟩) (p.getD [])).2,
         addU ⟨0, (user.pendingTasks.foldl (dropOldPending uid (p.getD [])) (db.tasks, 0)).2,
             0, 0, 0⟩
           (sumDeltas uid ((user.pendingTasks.foldl (dropOldPending uid (p.getD []))
               (db.tasks, 0)).1, ⟨nm, em, []⟩) (p.getD [])))) := by
  unfold updateUser
  rw [if_neg hv]
  simp only [hu]
  rw [if_neg hc, fold_split]
  rfl

theorem preserve_updateUser (db : DB) (uid : Nat) (n e : String) (p : Option (List Nat))
    (hwf : Wf db) (hinv : InvL db)
    (hok : okOpB db (Op.updateUser uid n e p) = true) :
    Wf (applyOp db (Op.updateUser uid n e p)) ∧ InvL (applyOp db (Op.updateUser uid n e p)) := by
  simp only [applyOp]
  by_cases hv : (n = "" ∨ e = "")
  · unfold updateUser
    rw [if_pos hv]
    exact ⟨hwf, hinv⟩
  · cases hu : lookupId db.users uid with
    | none =>
      unfold updateUser
      rw [if_neg hv]
      simp only [hu]
      exact ⟨hwf, hinv⟩
    | some user =>
      by_cases hc : ((db.users.find? (fun q => decide (q.1 ≠ uid) && emailEqCI q.2.email e)).isSome
          = true)
      · unfold updateUser
        rw [if_neg hv]
        simp only [hu]
        rw [if_pos hc]
        exact ⟨hwf, hinv⟩
      · have hok2 : (sumDeltas uid ((user.pendingTasks.foldl (dropOldPending uid (p.getD []))
            (db.tasks, 0)).1, ⟨n, e, []⟩) (p.getD [])).reassigned = 0 := by
          simp only [okOpB] at hok
          rw [updateUser_okO db uid n e p user hv hu hc] at hok
          simpa [addU] using hok
        rw [updateUser_okO db uid n e p user hv hu hc]
        set ts1 := (user.pendingTasks.foldl (dropOldPending uid (p.getD [])) (db.tasks, 0)).1
          with hts1
        set core := foldCore uid (ts1, (⟨n, e, []⟩ : UserRec)) (p.getD []) with hcore
        have hF2 : ∀ tid, lookupId ts1 tid = (lookupId db.tasks tid).map (fun t =>
            if tid ∈ user.pendingTasks ∧ tid ∉ (p.getD []) ∧ t.assignedUser = some uid then
              { t with assignedUser := none, assignedUserName := "unassigned" }
            else t) :=
          fun tid => dropOldPending_fold uid (p.getD []) user.pendingTasks db.tasks 0 tid
        have hF1 : ts1.map Prod.fst = db.tasks.map Prod.fst :=
          dropOldPending_keys uid (p.getD []) user.pendingTasks db.tasks 0
        have hF3 : ∀ vid tid, vid ≠ uid →
            taskPendingFor ts1 vid tid = taskPendingFor db.tasks vid tid := by
          intro vid tid hv2
          cases h0 : lookupId db.tasks tid with
          | none =>
            rw [taskPendingFor_none h0, taskPendingFor_none (by
              rw [hF2 tid, h0]
              rfl)]
          | some t0 =>
            by_cases hcond : tid ∈ user.pendingTasks ∧ tid ∉ (p.getD []) ∧
                t0.assignedUser = some uid
            · have hl1 : lookupId ts1 tid = some
                  { t0 with assignedUser := none, assignedUserName := "unassigned" } := by
                rw [hF2 tid, h0]
                simp [hcond]
              rw [taskPendingFor_lookup hl1, taskPendingFor_lookup h0]
              have : t0.assignedUser = some uid := hcond.2.2
              simp [this]
              intro hvv
              exact absurd hvv.symm hv2
            · have hl1 : lookupId ts1 tid = some t0 := by
                rw [hF2 tid, h0]
                simp [hcond]
              rw [taskPendingFor_lookup hl1, taskPendingFor_lookup h0]
        obtain ⟨g1, g2, g3, g4, g5⟩ := classify_fold_inv uid db.nextUserId (p.getD [])
          ts1 ⟨n, e, []⟩ hok2
          (by intro tid htid; cases htid)
          (by
            intro tid hpf hnl
            rcases (taskPendingFor_eq_true _ _ _).mp hpf with ⟨t1, hlk, hass, hcompf⟩
            rw [hF2 tid] at hlk
            cases h0 : lookupId db.tasks tid with
            | none =>
              rw [h0] at hlk
              cases hlk
            | some t0 =>
              rw [h0] at hlk
              by_cases hcond : tid ∈ user.pendingTasks ∧ tid ∉ (p.getD []) ∧
                  t0.assignedUser = some uid
              · simp only [Option.map_some', Option.some.injEq, if_pos hcond] at hlk
                rw [← hlk] at hass
                cases hass
              · simp only [Option.map_some', Option.some.injEq, if_neg hcond] at hlk
                subst hlk
                have hmem : tid ∈ user.pendingTasks :=
                  (hinv uid user hu).2 tid t0 h0 hass hcompf
                exact absurd ⟨hmem, hnl, hass⟩ hcond)
          (by
            intro k tk hk
            rw [hF2 k] at hk
            cases h0 : lookupId db.tasks k with
            | none =>
              rw [h0] at hk
              cases hk
            | some t0 =>
              rw [h0] at hk
              by_cases hcond : k ∈ user.pendingTasks ∧ k ∉ (p.getD []) ∧
                  t0.assignedUser = some uid
              · simp only [Option.map_some', Option.some.injEq, if_pos hcond] at hk
                rw [← hk]
                rfl
              · simp only [Option.map_some', Option.some.injEq, if_neg hcond] at hk
                rw [← hk]
                exact wf_taskB hwf k t0 h0)
          (wf_user_lt hwf hu)
        constructor
        · refine ⟨?_, ?_, ?_, ?_⟩
          · show ((setId db.users uid core.2).map Prod.fst).Nodup
            rw [keys_setId]
            exact hwf.1
          · show ((core.1).map Prod.fst).Nodup
            rw [g4, hF1]
            exact hwf.2.1
          · intro q hq
            rcases mem_setId hq with hqe | hq2
            · rw [hqe]
              exact wf_user_lt hwf hu
            · exact hwf.2.2.1 q hq2
          · exact wf_tasks_rebuild (g4.trans hF1) hwf.2.1 (fun q hq => (hwf.2.2.2 q hq).1) g5
        · intro uid2 u2 hu2
          have hu2a : lookupId (setId db.users uid core.2) uid2 = some u2 := hu2
          rw [lookupId_setId] at hu2a
          by_cases he : uid2 = uid
          · subst he
            rw [if_pos rfl, hu] at hu2a
            have hu2b : u2 = core.2 := by
              simpa using hu2a.symm
            subst hu2b
            constructor
            · intro tid htid
              show taskPendingFor core.1 uid2 tid = true
              exact g1 tid htid
            · intro tid t ht hass hcomp
              refine g2 tid ?_
              have ht2 : lookupId core.1 tid = some t := ht
              rw [taskPendingFor_lookup ht2]
              simp [hass, hcomp]
          · rw [if_neg he] at hu2a
            obtain ⟨hA, hB2⟩ := hinv uid2 u2 hu2a
            constructor
            · intro tid htid
              show taskPendingFor core.1 uid2 tid = true
              rw [g3 uid2 tid he, hF3 uid2 tid he]
              exact hA tid htid
            · intro tid t ht hass hcomp
              have ht2 : lookupId core.1 tid = some t := ht
              have hpf : taskPendingFor core.1 uid2 tid = true := by
                rw [taskPendingFor_lookup ht2]
                simp [hass, hcomp]
              rw [g3 uid2 tid he, hF3 uid2 tid he] at hpf
              rcases (taskPendingFor_eq_true _ _ _).mp hpf with ⟨t0, hlk0, hass0, hcomp0⟩
              exact hB2 tid t0 hlk0 hass0 hcomp0


/-- Lookup through the task-clearing map of deleteUser. -/
theorem deleteUser_task_lookup (uid : Nat) (ts : List (Nat × TaskRec)) (k : Nat) :
    lookupId (ts.map (fun p => (p.1, if assignedIncomplete uid p.2 then
        { p.2 with assignedUser := none, assignedUserName := "unassigned" }
      else p.2))) k =
      (lookupId ts k).map (fun t => if assignedIncomplete uid t then
        { t with assignedUser := none, assignedUserName := "unassigned" }
      else t) := by
  induction ts with
  | nil => simp [lookupId]
  | cons p rest ih =>
    by_cases hp : p.1 = k
    · subst hp
      simp [lookupId]
    · simp [lookupId, hp, ih]

/-- The task-clearing map of deleteUser preserves the keys. -/
theorem deleteUser_task_keys (uid : Nat) (ts : List (Nat × TaskRec)) :
    ((ts.map (fun p => (p.1, if assignedIncomplete uid p.2 then
        { p.2 with assignedUser := none, assignedUserName := "unassigned" }
      else p.2))).map Prod.fst) = ts.map Prod.fst := by
  induction ts with
  | nil => rfl
  | cons p rest ih => simp [ih]

theorem preserve_deleteUser (db : DB) (uid : Nat)
    (hwf : Wf db) (hinv : InvL db) :
    Wf (applyOp db (Op.deleteUser uid)) ∧ InvL (applyOp db (Op.deleteUser uid)) := by
  simp only [applyOp]
  unfold deleteUser
  cases hu : lookupId db.users uid with
  | none =>
    simp only []
    exact ⟨hwf, hinv⟩
  | some user =>
    simp only []
    have hLt : ∀ k, lookupId (db.tasks.map (fun p => (p.1, if assignedIncomplete uid p.2 then
        { p.2 with assignedUser := none, assignedUserName := "unassigned" }
      else p.2))) k =
        (lookupId db.tasks k).map (fun t => if assignedIncomplete uid t then
          { t with assignedUser := none, assignedUserName := "unassigned" }
        else t) := deleteUser_task_lookup uid db.tasks
    constructor
    · refine ⟨?_, ?_, ?_, ?_⟩
      · show ((db.users.filter (fun p => decide (p.1 ≠ uid))).map Prod.fst).Nodup
        exact List.Nodup.sublist (List.Sublist.map Prod.fst (List.filter_sublist _)) hwf.1
      · show ((db.tasks.map (fun p => (p.1, if assignedIncomplete uid p.2 then
            { p.2 with assignedUser := none, assignedUserName := "unassigned" }
          else p.2))).map Prod.fst).Nodup
        rw [deleteUser_task_keys]
        exact hwf.2.1
      · intro q hq
        exact hwf.2.2.1 q (List.mem_of_mem_filter hq)
      · intro q hq
        rcases List.mem_map.mp hq with ⟨p0, hp0, he⟩
        rw [← he]
        refine ⟨(hwf.2.2.2 p0 hp0).1, ?_⟩
        by_cases hhit : assignedIncomplete uid p0.2 = true
        · simp only [hhit, if_true]
          rfl
        · simp only [Bool.not_eq_true] at hhit
          simp only [hhit, Bool.false_eq_true, if_false]
          exact (hwf.2.2.2 p0 hp0).2
    · intro uid2 u2 hu2
      have hu2a : lookupId (db.users.filter (fun p => decide (p.1 ≠ uid))) uid2 = some u2 := hu2
      rw [lookupId_filterNe] at hu2a
      by_cases he : uid2 = uid
      · rw [if_pos he] at hu2a
        cases hu2a
      · rw [if_neg he] at hu2a
        obtain ⟨hA, hB2⟩ := hinv uid2 u2 hu2a
        constructor
        · intro tid htid
          rcases (taskPendingFor_eq_true _ _ _).mp (hA tid htid) with ⟨t0, hlk, hass, hcomp⟩
          have hmiss : assignedIncomplete uid t0 = false := by
            unfold assignedIncomplete
            rw [hass]
            simp only [Bool.and_eq_false_iff]
            left
            simp only [beq_eq_false_iff_ne, ne_eq, Option.some.injEq]
            exact fun h2 => he h2
          have hlk1 : lookupId (db.tasks.map (fun p => (p.1, if assignedIncomplete uid p.2 then
              { p.2 with assignedUser := none, assignedUserName := "unassigned" }
            else p.2))) tid = some t0 := by
            rw [hLt tid, hlk]
            simp [hmiss]
          show taskPendingFor _ uid2 tid = true
          rw [taskPendingFor_lookup hlk1]
          simp [hass, hcomp]
        · intro tid t ht hass hcomp
          have ht2 : lookupId (db.tasks.map (fun p => (p.1, if assignedIncomplete uid p.2 then
              { p.2 with assignedUser := none, assignedUserName := "unassigned" }
            else p.2))) tid = some t := ht
          rw [hLt tid] at ht2
          cases h0 : lookupId db.tasks tid with
          | none =>
            rw [h0] at ht2
            cases ht2
          | some t0 =>
            rw [h0] at ht2
            by_cases hhit : assignedIncomplete uid t0 = true
            · simp only [Option.map_some', Option.some.injEq, hhit, if_true] at ht2
              rw [← ht2] at hass
              cases hass
            · simp only [Bool.not_eq_true] at hhit
              simp only [Option.map_some', Option.some.injEq, hhit, Bool.false_eq_true,
                if_false] at ht2
              subst ht2
              exact hB2 tid t0 h0 hass hcomp


/-- Appending a fresh task that is unassigned or completed preserves Wf and
the lookup mirror invariant. -/
theorem preserve_append_task (db : DB) (task : TaskRec)
    (hwf : Wf db) (hinv : InvL db)
    (hguard : task.assignedUser = none ∨ task.completed = true)
    (hbound : assignedUnder task db.nextUserId = true) :
    Wf { db with
      tasks := db.tasks ++ [(db.nextTaskId, task)],
      nextTaskId := db.nextTaskId + 1 } ∧
    InvL { db with
      tasks := db.tasks ++ [(db.nextTaskId, task)],
      nextTaskId := db.nextTaskId + 1 } := by
  constructor
  · refine ⟨hwf.1, ?_, hwf.2.2.1, ?_⟩
    · show ((db.tasks ++ [(db.nextTaskId, task)]).map Prod.fst).Nodup
      rw [List.map_append, List.nodup_append]
      refine ⟨hwf.2.1, by simp, ?_⟩
      intro a ha hb
      simp only [List.map_cons, List.map_nil, List.mem_singleton] at hb
      rcases List.mem_map.mp ha with ⟨q, hq, hqe⟩
      exact Nat.ne_of_lt ((hwf.2.2.2 q hq).1) (hqe.trans hb)
    · intro q hq
      rcases List.mem_append.mp hq with hq2 | hq2
      · exact ⟨Nat.lt_succ_of_lt (hwf.2.2.2 q hq2).1, (hwf.2.2.2 q hq2).2⟩
      · simp only [List.mem_singleton] at hq2
        rw [hq2]
        exact ⟨Nat.lt_succ_self _, hbound⟩
  · intro uid2 u2 hu2
    obtain ⟨hA, hB2⟩ := hinv uid2 u2 hu2
    constructor
    · intro tid htid
      rcases (taskPendingFor_eq_true _ _ _).mp (hA tid htid) with ⟨t0, hlk, hass, hcomp⟩
      show taskPendingFor (db.tasks ++ [(db.nextTaskId, task)]) uid2 tid = true
      rw [taskPendingFor_lookup (lookupId_append_of_some _ hlk)]
      simp [hass, hcomp]
    · intro tid t ht hass hcomp
      have ht2 : lookupId (db.tasks ++ [(db.nextTaskId, task)]) tid = some t := ht
      cases h0 : lookupId db.tasks tid with
      | some t0 =>
        rw [lookupId_append_of_some _ h0] at ht2
        cases ht2
        exact hB2 tid _ h0 hass hcomp
      | none =>
        rw [lookupId_append_of_none _ h0] at ht2
        by_cases he : db.nextTaskId = tid
        · subst he
          have : some task = some t := by
            unfold lookupId at ht2
            rw [if_pos rfl] at ht2
            exact ht2
          cases this
          rcases hguard with hg | hg
          · rw [hg] at hass
            cases hass
          · rw [hg] at hcomp
            cases hcomp
        · have : lookupId [(db.nextTaskId, task)] tid = none := by
            unfold lookupId
            rw [if_neg he]
            rfl
          rw [this] at ht2
          cases ht2

/-- Appending a fresh incomplete task assigned to an existing user and
recording it in that user's pendingTasks preserves Wf and the invariant. -/
theorem preserve_append_task_assigned (db : DB) (uidv : Nat) (u : UserRec) (task : TaskRec)
    (hwf : Wf db) (hinv : InvL db)
    (hlu : lookupId db.users uidv = some u)
    (hass : task.assignedUser = some uidv)
    (hcomp : task.completed = false) :
    Wf { users := setId db.users uidv (addPending u db.nextTaskId),
         tasks := db.tasks ++ [(db.nextTaskId, task)],
         nextUserId := db.nextUserId, nextTaskId := db.nextTaskId + 1 } ∧
    InvL { users := setId db.users uidv (addPending u db.nextTaskId),
           tasks := db.tasks ++ [(db.nextTaskId, task)],
           nextUserId := db.nextUserId, nextTaskId := db.nextTaskId + 1 } := by
  have hfreshT : lookupId db.tasks db.nextTaskId = none := wf_fresh_task hwf
  constructor
  · refine ⟨?_, ?_, ?_, ?_⟩
    · show ((setId db.users uidv (addPending u db.nextTaskId)).map Prod.fst).Nodup
      rw [keys_setId]
      exact hwf.1
    · show ((db.tasks ++ [(db.nextTaskId, task)]).map Prod.fst).Nodup
      rw [List.map_append, List.nodup_append]
      refine ⟨hwf.2.1, by simp, ?_⟩
      intro a ha hb
      simp only [List.map_cons, List.map_nil, List.mem_singleton] at hb
      rcases List.mem_map.mp ha with ⟨q, hq, hqe⟩
      exact Nat.ne_of_lt ((hwf.2.2.2 q hq).1) (hqe.trans hb)
    · intro q hq
      rcases mem_setId hq with hqe | hq2
      · rw [hqe]
        exact wf_user_lt hwf hlu
      · exact hwf.2.2.1 q hq2
    · intro q hq
      rcases List.mem_append.mp hq with hq2 | hq2
      · exact ⟨Nat.lt_succ_of_lt (hwf.2.2.2 q hq2).1, (hwf.2.2.2 q hq2).2⟩
      · simp only [List.mem_singleton] at hq2
        rw [hq2]
        refine ⟨Nat.lt_succ_self _, ?_⟩
        unfold assignedUnder
        rw [hass]
        simp only [decide_eq_true_eq]
        exact wf_user_lt hwf hlu
  · intro uid2 u2 hu2
    have hu2a : lookupId (setId db.users uidv (addPending u db.nextTaskId)) uid2
        = some u2 := hu2
    rw [lookupId_setId] at hu2a
    by_cases he : uid2 = uidv
    · subst he
      rw [if_pos rfl, hlu] at hu2a
      have hu2b : u2 = addPending u db.nextTaskId := by
        simpa using hu2a.symm
      subst hu2b
      obtain ⟨hA, hB2⟩ := hinv uid2 u hlu
      constructor
      · intro tid htid
        show taskPendingFor (db.tasks ++ [(db.nextTaskId, task)]) uid2 tid = true
        rcases (mem_addPending u db.nextTaskId tid).mp htid with hold | hnew
        · rcases (taskPendingFor_eq_true _ _ _).mp (hA tid hold) with ⟨t0, hlk, hass0, hcomp0⟩
          rw [taskPendingFor_lookup (lookupId_append_of_some _ hlk)]
          simp [hass0, hcomp0]
        · subst hnew
          have hlk : lookupId (db.tasks ++ [(db.nextTaskId, task)]) db.nextTaskId
              = some task := by
            rw [lookupId_append_of_none _ hfreshT]
            unfold lookupId
            rw [if_pos rfl]
          rw [taskPendingFor_lookup hlk]
          simp [hass, hcomp]
      · intro tid t ht hass2 hcomp2
        have ht2 : lookupId (db.tasks ++ [(db.nextTaskId, task)]) tid = some t := ht
        cases h0 : lookupId db.tasks tid with
        | some t0 =>
          rw [lookupId_append_of_some _ h0] at ht2
          cases ht2
          exact subset_addPending u db.nextTaskId (hB2 tid _ h0 hass2 hcomp2)
        | none =>
          rw [lookupId_append_of_none _ h0] at ht2
          by_cases hid : db.nextTaskId = tid
          · rw [← hid]
            exact mem_addPending_self u db.nextTaskId
          · have : lookupId [(db.nextTaskId, task)] tid = none := by
              unfold lookupId
              rw [if_neg hid]
              rfl
            rw [this] at ht2
            cases ht2
    · rw [if_neg he] at hu2a
      obtain ⟨hA, hB2⟩ := hinv uid2 u2 hu2a
      constructor
      · intro tid htid
        rcases (taskPendingFor_eq_true _ _ _).mp (hA tid htid) with ⟨t0, hlk, hass0, hcomp0⟩
        show taskPendingFor (db.tasks ++ [(db.nextTaskId, task)]) uid2 tid = true
        rw [taskPendingFor_lookup (lookupId_append_of_some _ hlk)]
        simp [hass0, hcomp0]
      · intro tid t ht hass2 hcomp2
        have ht2 : lookupId (db.tasks ++ [(db.nextTaskId, task)]) tid = some t := ht
        cases h0 : lookupId db.tasks tid with
        | some t0 =>
          rw [lookupId_append_of_some _ h0] at ht2
          cases ht2
          exact hB2 tid _ h0 hass2 hcomp2
        | none =>
          rw [lookupId_append_of_none _ h0] at ht2
          by_cases hid : db.nextTaskId = tid
          · subst hid
            have hte : some task = some t := by
              unfold lookupId at ht2
              rw [if_pos rfl] at ht2
              exact ht2
            cases hte
            rw [hass] at hass2
            cases hass2
            exact absurd rfl he
          · have : lookupId [(db.nextTaskId, task)] tid = none := by
              unfold lookupId
              rw [if_neg hid]
              rfl
            rw [this] at ht2
            cases ht2

theorem preserve_createTask (db : DB) (n d dl : String) (c : Bool) (a : Option Nat)
    (hwf : Wf db) (hinv : InvL db) :
    Wf (applyOp db (Op.createTask n d dl c a)) ∧
    InvL (applyOp db (Op.createTask n d dl c a)) := by
  simp only [applyOp]
  unfold createTask
  by_cases hv : (n = "" ∨ dl = "")
  · rw [if_pos hv]
    exact ⟨hwf, hinv⟩
  · rw [if_neg hv]
    cases a with
    | none =>
      simp only [loadUserOrNull]
      exact preserve_append_task db
        { name := n, description := d, deadline := dl, completed := c,
          assignedUser := none, assignedUserName := "unassigned" } hwf hinv (Or.inl rfl) rfl
    | some uidv =>
      cases hlu : lookupId db.users uidv with
      | none =>
        simp only [loadUserOrNull, hlu]
        exact ⟨hwf, hinv⟩
      | some u =>
        simp only [loadUserOrNull, hlu]
        cases c with
        | true =>
          simp only [if_true]
          refine preserve_append_task db
            { name := n, description := d, deadline := dl, completed := true,
              assignedUser := some uidv, assignedUserName := u.name } hwf hinv
            (Or.inr rfl) ?_
          unfold assignedUnder
          simp only [decide_eq_true_eq]
          exact wf_user_lt hwf hlu
        | false =>
          simp only [Bool.false_eq_true, if_false]
          exact preserve_append_task_assigned db uidv u
            { name := n, description := d, deadline := dl, completed := false,
              assignedUser := some uidv, assignedUserName := u.name } hwf hinv hlu rfl rfl


/-- Wf is preserved by filtering out one task id. -/
theorem wf_filter_task (db : DB) (tid : Nat) (hwf : Wf db) :
    ((db.tasks.filter (fun p => decide (p.1 ≠ tid))).map Prod.fst).Nodup ∧
    (∀ q ∈ db.tasks.filter (fun p => decide (p.1 ≠ tid)),
      q.1 < db.nextTaskId ∧ assignedUnder q.2 db.nextUserId = true) :=
  ⟨List.Nodup.sublist (List.Sublist.map Prod.fst (List.filter_sublist _)) hwf.2.1,
   fun q hq => hwf.2.2.2 q (List.mem_of_mem_filter hq)⟩

theorem preserve_deleteTask (db : DB) (tid : Nat)
    (hwf : Wf db) (hinv : InvL db) :
    Wf (applyOp db (Op.deleteTask tid)) ∧ InvL (applyOp db (Op.deleteTask tid)) := by
  simp only [applyOp]
  unfold deleteTask
  cases ht : lookupId db.tasks tid with
  | none =>
    simp only []
    exact ⟨hwf, hinv⟩
  | some task =>
    simp only []
    have hF : ∀ k, lookupId (db.tasks.filter (fun p => decide (p.1 ≠ tid))) k =
        if k = tid then none else lookupId db.tasks k :=
      fun k => lookupId_filterNe db.tasks tid k
    cases hta : task.assignedUser with
    | none =>
      simp only []
      constructor
      · exact ⟨hwf.1, (wf_filter_task db tid hwf).1, hwf.2.2.1, (wf_filter_task db tid hwf).2⟩
      · intro uid2 u2 hu2
        obtain ⟨hA, hB2⟩ := hinv uid2 u2 hu2
        constructor
        · intro tid2 htid2
          rcases (taskPendingFor_eq_true _ _ _).mp (hA tid2 htid2) with ⟨t0, hlk, hass, hcomp⟩
          have hne : tid2 ≠ tid := by
            intro hc
            subst hc
            rw [ht] at hlk
            cases hlk
            rw [hta] at hass
            cases hass
          have hlk2 : lookupId (db.tasks.filter (fun p => decide (p.1 ≠ tid))) tid2
              = some t0 := by
            rw [hF tid2, if_neg hne]
            exact hlk
          show taskPendingFor _ uid2 tid2 = true
          rw [taskPendingFor_lookup hlk2]
          simp [hass, hcomp]
        · intro tid2 t h2 hass hcomp
          have h3 : lookupId (db.tasks.filter (fun p => decide (p.1 ≠ tid))) tid2
              = some t := h2
          rw [hF tid2] at h3
          by_cases hne : tid2 = tid
          · rw [if_pos hne] at h3
            cases h3
          · rw [if_neg hne] at h3
            exact hB2 tid2 t h3 hass hcomp
    | some auid =>
      simp only []
      cases hlau : lookupId db.users auid with
      | none =>
        simp only []
        constructor
        · exact ⟨hwf.1, (wf_filter_task db tid hwf).1, hwf.2.2.1, (wf_filter_task db tid hwf).2⟩
        · intro uid2 u2 hu2
          obtain ⟨hA, hB2⟩ := hinv uid2 u2 hu2
          constructor
          · intro tid2 htid2
            rcases (taskPendingFor_eq_true _ _ _).mp (hA tid2 htid2) with ⟨t0, hlk, hass, hcomp⟩
            have hne : tid2 ≠ tid := by
              intro hc
              subst hc
              rw [ht] at hlk
              cases hlk
              rw [hta] at hass
              cases hass
              rw [hlau] at hu2
              cases hu2
            have hlk2 : lookupId (db.tasks.filter (fun p => decide (p.1 ≠ tid))) tid2
                = some t0 := by
              rw [hF tid2, if_neg hne]
              exact hlk
            show taskPendingFor _ uid2 tid2 = true
            rw [taskPendingFor_lookup hlk2]
            simp [hass, hcomp]
          · intro tid2 t h2 hass hcomp
            have h3 : lookupId (db.tasks.filter (fun p => decide (p.1 ≠ tid))) tid2
                = some t := h2
            rw [hF tid2] at h3
            by_cases hne : tid2 = tid
            · rw [if_pos hne] at h3
              cases h3
            · rw [if_neg hne] at h3
              exact hB2 tid2 t h3 hass hcomp
      | some u =>
        simp only []
        constructor
        · refine ⟨?_, (wf_filter_task db tid hwf).1, ?_, (wf_filter_task db tid hwf).2⟩
          · show ((setId db.users auid (removePending u tid)).map Prod.fst).Nodup
            rw [keys_setId]
            exact hwf.1
          · intro q hq
            rcases mem_setId hq with hqe | hq2
            · rw [hqe]
              exact wf_user_lt hwf hlau
            · exact hwf.2.2.1 q hq2
        · intro uid2 u2 hu2
          have hu2a : lookupId (setId db.users auid (removePending u tid)) uid2
              = some u2 := hu2
          rw [lookupId_setId] at hu2a
          by_cases he : uid2 = auid
          · subst he
            rw [if_pos rfl, hlau] at hu2a
            have hu2b : u2 = removePending u tid := by
              simpa using hu2a.symm
            subst hu2b
            obtain ⟨hA, hB2⟩ := hinv uid2 u hlau
            constructor
            · intro tid2 htid2
              rcases (mem_removePending u tid tid2).mp htid2 with ⟨hold, hne⟩
              rcases (taskPendingFor_eq_true _ _ _).mp (hA tid2 hold) with ⟨t0, hlk, hass, hcomp⟩
              have hlk2 : lookupId (db.tasks.filter (fun p => decide (p.1 ≠ tid))) tid2
                  = some t0 := by
                rw [hF tid2, if_neg hne]
                exact hlk
              show taskPendingFor _ uid2 tid2 = true
              rw [taskPendingFor_lookup hlk2]
              simp [hass, hcomp]
            · intro tid2 t h2 hass hcomp
              have h3 : lookupId (db.tasks.filter (fun p => decide (p.1 ≠ tid))) tid2
                  = some t := h2
              rw [hF tid2] at h3
              by_cases hne : tid2 = tid
              · rw [if_pos hne] at h3
                cases h3
              · rw [if_neg hne] at h3
                rw [mem_removePending]
                exact ⟨hB2 tid2 t h3 hass hcomp, hne⟩
          · rw [if_neg he] at hu2a
            obtain ⟨hA, hB2⟩ := hinv uid2 u2 hu2a
            constructor
            · intro tid2 htid2
              rcases (taskPendingFor_eq_true _ _ _).mp (hA tid2 htid2) with ⟨t0, hlk, hass, hcomp⟩
              have hne : tid2 ≠ tid := by
                intro hc
                subst hc
                rw [ht] at hlk
                cases hlk
                rw [hta] at hass
                cases hass
                exact he rfl
              have hlk2 : lookupId (db.tasks.filter (fun p => decide (p.1 ≠ tid))) tid2
                  = some t0 := by
                rw [hF tid2, if_neg hne]
                exact hlk
              show taskPendingFor _ uid2 tid2 = true
              rw [taskPendingFor_lookup hlk2]
              simp [hass, hcomp]
            · intro tid2 t h2 hass hcomp
              have h3 : lookupId (db.tasks.filter (fun p => decide (p.1 ≠ tid))) tid2
                  = some t := h2
              rw [hF tid2] at h3
              by_cases hne : tid2 = tid
              · rw [if_pos hne] at h3
                cases h3
              · rw [if_neg hne] at h3
                exact hB2 tid2 t h3 hass hcomp


theorem lookupId_setId_found {α : Type} {ts : List (Nat × α)} {k : Nat} {t0 : α} (t1 : α)
    (h : lookupId ts k = some t0) (j : Nat) :
    lookupId (setId ts k t1) j = if j = k then some t1 else lookupId ts j := by
  rw [lookupId_setId]
  by_cases hj : j = k
  · rw [if_pos hj, if_pos hj, h]
    rfl
  · rw [if_neg hj, if_neg hj]

/-- Replacing a task whose old and new versions offer the same pending view to
every user preserves Wf and the invariant (no user-store change needed). -/
theorem preserve_setTask_pendEq (db : DB) (tid : Nat) (task task1 : TaskRec)
    (hwf : Wf db) (hinv : InvL db)
    (htask : lookupId db.tasks tid = some task)
    (hbound : assignedUnder task1 db.nextUserId = true)
    (heq : ∀ w, (task1.assignedUser == some w && !task1.completed)
      = (task.assignedUser == some w && !task.completed)) :
    Wf { db with tasks := setId db.tasks tid task1 } ∧
    InvL { db with tasks := setId db.tasks tid task1 } := by
  constructor
  · refine ⟨hwf.1, ?_, hwf.2.2.1, ?_⟩
    · show ((setId db.tasks tid task1).map Prod.fst).Nodup
      rw [keys_setId]
      exact hwf.2.1
    · intro q hq
      rcases mem_setId hq with hqe | hq2
      · rw [hqe]
        exact ⟨wf_task_lt hwf htask, hbound⟩
      · exact hwf.2.2.2 q hq2
  · intro uid2 u2 hu2
    obtain ⟨hA, hB2⟩ := hinv uid2 u2 hu2
    constructor
    · intro tid2 htid2
      show taskPendingFor (setId db.tasks tid task1) uid2 tid2 = true
      by_cases hne : tid2 = tid
      · subst hne
        rw [taskPendingFor_setId_self htask task1 uid2, heq uid2]
        have hx := hA tid2 htid2
        rw [taskPendingFor_lookup htask] at hx
        exact hx
      · rw [taskPendingFor_setId_ne db.tasks tid task1 uid2 tid2 hne]
        exact hA tid2 htid2
    · intro tid2 t h2 hass hcomp
      have h3 : lookupId (setId db.tasks tid task1) tid2 = some t := h2
      rw [lookupId_setId_found task1 htask tid2] at h3
      by_cases hne : tid2 = tid
      · rw [if_pos hne] at h3
        cases h3
        have hval : (task1.assignedUser == some uid2 && !task1.completed) = true := by
          simp [hass, hcomp]
        rw [heq uid2] at hval
        simp only [Bool.and_eq_true, beq_iff_eq, Bool.not_eq_true'] at hval
        rw [hne]
        exact hB2 tid task htask hval.1 hval.2
      · rw [if_neg hne] at h3
        exact hB2 tid2 t h3 hass hcomp

/-- Assigning a task to a user when no user currently lists it as pending:
replace the task and add it to the new user's pendingTasks. -/
theorem preserve_reassign_add (db : DB) (tid : Nat) (task : TaskRec) (nuid : Nat)
    (nu : UserRec) (task1 : TaskRec)
    (hwf : Wf db) (hinv : InvL db)
    (htask : lookupId db.tasks tid = some task)
    (hnu : lookupId db.users nuid = some nu)
    (hass1 : task1.assignedUser = some nuid)
    (hcomp1 : task1.completed = false)
    (hnopend : ∀ uid2 u2, lookupId db.users uid2 = some u2 → tid ∉ u2.pendingTasks) :
    Wf { users := setId db.users nuid (addPending nu tid),
         tasks := setId db.tasks tid task1,
         nextUserId := db.nextUserId, nextTaskId := db.nextTaskId } ∧
    InvL { users := setId db.users nuid (addPending nu tid),
           tasks := setId db.tasks tid task1,
           nextUserId := db.nextUserId, nextTaskId := db.nextTaskId } := by
  constructor
  · refine ⟨?_, ?_, ?_, ?_⟩
    · show ((setId db.users nuid (addPending nu tid)).map Prod.fst).Nodup
      rw [keys_setId]
      exact hwf.1
    · show ((setId db.tasks tid task1).map Prod.fst).Nodup
      rw [keys_setId]
      exact hwf.2.1
    · intro q hq
      rcases mem_setId hq with hqe | hq2
      · rw [hqe]
        exact wf_user_lt hwf hnu
      · exact hwf.2.2.1 q hq2
    · intro q hq
      rcases mem_setId hq with hqe | hq2
      · rw [hqe]
        refine ⟨wf_task_lt hwf htask, ?_⟩
        unfold assignedUnder
        rw [hass1]
        simp only [decide_eq_true_eq]
        exact wf_user_lt hwf hnu
      · exact hwf.2.2.2 q hq2
  · intro uid2 u2 hu2
    have hu2a : lookupId (setId db.users nuid (addPending nu tid)) uid2 = some u2 := hu2
    rw [lookupId_setId] at hu2a
    by_cases he : uid2 = nuid
    · subst he
      rw [if_pos rfl, hnu] at hu2a
      have hu2b : u2 = addPending nu tid := by
        simpa using hu2a.symm
      subst hu2b
      obtain ⟨hA, hB2⟩ := hinv uid2 nu hnu
      constructor
      · intro tid2 htid2
        show taskPendingFor (setId db.tasks tid task1) uid2 tid2 = true
        rcases (mem_addPending nu tid tid2).mp htid2 with hold | hnew
        · have hne : tid2 ≠ tid := by
            intro hc
            exact hnopend uid2 nu hnu (hc ▸ hold)
          rw [taskPendingFor_setId_ne db.tasks tid task1 uid2 tid2 hne]
          exact hA tid2 hold
        · subst hnew
          rw [taskPendingFor_setId_self htask task1 uid2]
          simp [hass1, hcomp1]
      · intro tid2 t h2 hass hcomp
        have h3 : lookupId (setId db.tasks tid task1) tid2 = some t := h2
        rw [lookupId_setId_found task1 htask tid2] at h3
        by_cases hne : tid2 = tid
        · rw [hne]
          exact mem_addPending_self nu tid
        · rw [if_neg hne] at h3
          exact subset_addPending nu tid (hB2 tid2 t h3 hass hcomp)
    · rw [if_neg he] at hu2a
      obtain ⟨hA, hB2⟩ := hinv uid2 u2 hu2a
      constructor
      · intro tid2 htid2
        show taskPendingFor (setId db.tasks tid task1) uid2 tid2 = true
        have hne : tid2 ≠ tid := by
          intro hc
          exact hnopend uid2 u2 hu2a (hc ▸ htid2)
        rw [taskPendingFor_setId_ne db.tasks tid task1 uid2 tid2 hne]
        exact hA tid2 htid2
      · intro tid2 t h2 hass hcomp
        have h3 : lookupId (setId db.tasks tid task1) tid2 = some t := h2
        rw [lookupId_setId_found task1 htask tid2] at h3
        by_cases hne : tid2 = tid
        · rw [if_pos hne] at h3
          cases h3
          rw [hass1] at hass
          cases hass
          exact absurd rfl he
        · rw [if_neg hne] at h3
          exact hB2 tid2 t h3 hass hcomp

/-- Moving an incomplete task from one existing user to another: remove from
the old owner's pendingTasks, add to the new owner's. -/
theorem preserve_reassign_move (db : DB) (tid : Nat) (task : TaskRec)
    (ouid : Nat) (oldUser : UserRec) (nuid : Nat) (nu : UserRec) (task1 : TaskRec)
    (hwf : Wf db) (hinv : InvL db)
    (htask : lookupId db.tasks tid = some task)
    (holk : lookupId db.users ouid = some oldUser)
    (hnu : lookupId db.users nuid = some nu)
    (hne : ouid ≠ nuid)
    (hassT : task.assignedUser = some ouid)
    (hass1 : task1.assignedUser = some nuid)
    (hcomp1 : task1.completed = false) :
    Wf { users := setId (setId db.users ouid (removePending oldUser tid)) nuid
           (addPending nu tid),
         tasks := setId db.tasks tid task1,
         nextUserId := db.nextUserId, nextTaskId := db.nextTaskId } ∧
    InvL { users := setId (setId db.users ouid (removePending oldUser tid)) nuid
             (addPending nu tid),
           tasks := setId db.tasks tid task1,
           nextUserId := db.nextUserId, nextTaskId := db.nextTaskId } := by
  have hinner : ∀ j, lookupId (setId db.users ouid (removePending oldUser tid)) j =
      if j = ouid then some (removePending oldUser tid) else lookupId db.users j :=
    fun j => lookupId_setId_found (removePending oldUser tid) holk j
  constructor
  · refine ⟨?_, ?_, ?_, ?_⟩
    · show ((setId (setId db.users ouid (removePending oldUser tid)) nuid
          (addPending nu tid)).map Prod.fst).Nodup
      rw [keys_setId, keys_setId]
      exact hwf.1
    · show ((setId db.tasks tid task1).map Prod.fst).Nodup
      rw [keys_setId]
      exact hwf.2.1
    · intro q hq
      rcases mem_setId hq with hqe | hq2
      · rw [hqe]
        exact wf_user_lt hwf hnu
      · rcases mem_setId hq2 with hqe2 | hq3
        · rw [hqe2]
          exact wf_user_lt hwf holk
        · exact hwf.2.2.1 q hq3
    · intro q hq
      rcases mem_setId hq with hqe | hq2
      · rw [hqe]
        refine ⟨wf_task_lt hwf htask, ?_⟩
        unfold assignedUnder
        rw [hass1]
        simp only [decide_eq_true_eq]
        exact wf_user_lt hwf hnu
      · exact hwf.2.2.2 q hq2
  · intro uid2 u2 hu2
    have hu2a : lookupId (setId (setId db.users ouid (removePending oldUser tid)) nuid
        (addPending nu tid)) uid2 = some u2 := hu2
    rw [lookupId_setId] at hu2a
    by_cases hen : uid2 = nuid
    · subst hen
      rw [if_pos rfl, hinner uid2, if_neg (fun h2 => hne h2.symm), hnu] at hu2a
      have hu2b : u2 = addPending nu tid := by
        simpa using hu2a.symm
      subst hu2b
      obtain ⟨hA, hB2⟩ := hinv uid2 nu hnu
      constructor
      · intro tid2 htid2
        show taskPendingFor (setId db.tasks tid task1) uid2 tid2 = true
        rcases (mem_addPending nu tid tid2).mp htid2 with hold | hnew
        · have hne2 : tid2 ≠ tid := by
            intro hc
            have hx := hA tid2 hold
            rw [hc, taskPendingFor_lookup htask, hassT] at hx
            simp only [Bool.and_eq_true, beq_iff_eq, Option.some.injEq] at hx
            exact hne hx.1
          rw [taskPendingFor_setId_ne db.tasks tid task1 uid2 tid2 hne2]
          exact hA tid2 hold
        · subst hnew
          rw [taskPendingFor_setId_self htask task1 uid2]
          simp [hass1, hcomp1]
      · intro tid2 t h2 hass hcomp
        have h3 : lookupId (setId db.tasks tid task1) tid2 = some t := h2
        rw [lookupId_setId_found task1 htask tid2] at h3
        by_cases hne2 : tid2 = tid
        · rw [hne2]
          exact mem_addPending_self nu tid
        · rw [if_neg hne2] at h3
          exact subset_addPending nu tid (hB2 tid2 t h3 hass hcomp)
    · rw [if_neg hen, hinner uid2] at hu2a
      by_cases heo : uid2 = ouid
      · rw [if_pos heo] at hu2a
        cases hu2a
        obtain ⟨hA, hB2⟩ := hinv ouid oldUser holk
        constructor
        · intro tid2 htid2
          show taskPendingFor (setId db.tasks tid task1) uid2 tid2 = true
          rcases (mem_removePending oldUser tid tid2).mp htid2 with ⟨hold, hne2⟩
          rw [taskPendingFor_setId_ne db.tasks tid task1 uid2 tid2 hne2, heo]
          exact hA tid2 hold
        · intro tid2 t h2 hass hcomp
          have h3 : lookupId (setId db.tasks tid task1) tid2 = some t := h2
          rw [lookupId_setId_found task1 htask tid2] at h3
          by_cases hne2 : tid2 = tid
          · rw [if_pos hne2] at h3
            cases h3
            rw [hass1] at hass
            cases hass
            exact absurd rfl hen
          · rw [if_neg hne2] at h3
            rw [mem_removePending]
            rw [heo] at hass
            exact ⟨hB2 tid2 t h3 hass hcomp, hne2⟩
      · rw [if_neg heo] at hu2a
        obtain ⟨hA, hB2⟩ := hinv uid2 u2 hu2a
        constructor
        · intro tid2 htid2
          show taskPendingFor (setId db.tasks tid task1) uid2 tid2 = true
          have hne2 : tid2 ≠ tid := by
            intro hc
            have hx := hA tid2 htid2
            rw [hc, taskPendingFor_lookup htask, hassT] at hx
            simp only [Bool.and_eq_true, beq_iff_eq, Option.some.injEq] at hx
            exact heo hx.1.symm
          rw [taskPendingFor_setId_ne db.tasks tid task1 uid2 tid2 hne2]
          exact hA tid2 htid2
        · intro tid2 t h2 hass hcomp
          have h3 : lookupId (setId db.tasks tid task1) tid2 = some t := h2
          rw [lookupId_setId_found task1 htask tid2] at h3
          by_cases hne2 : tid2 = tid
          · rw [if_pos hne2] at h3
            cases h3
            rw [hass1] at hass
            cases hass
            exact absurd rfl hen
          · rw [if_neg hne2] at h3
            exact hB2 tid2 t h3 hass hcomp

/-- Unassigning a task whose recorded owner no longer exists: only the task
record changes. -/
theorem preserve_unassign_dangling (db : DB) (tid : Nat) (task : TaskRec)
    (ouid : Nat) (task1 : TaskRec)
    (hwf : Wf db) (hinv : InvL db)
    (htask : lookupId db.tasks tid = some task)
    (hassT : task.assignedUser = some ouid)
    (hdang : lookupId db.users ouid = none)
    (hass1 : task1.assignedUser = none) :
    Wf { db with tasks := setId db.tasks tid task1 } ∧
    InvL { db with tasks := setId db.tasks tid task1 } := by
  constructor
  · refine ⟨hwf.1, ?_, hwf.2.2.1, ?_⟩
    · show ((setId db.tasks tid task1).map Prod.fst).Nodup
      rw [keys_setId]
      exact hwf.2.1
    · intro q hq
      rcases mem_setId hq with hqe | hq2
      · rw [hqe]
        refine ⟨wf_task_lt hwf htask, ?_⟩
        unfold assignedUnder
        rw [hass1]
      · exact hwf.2.2.2 q hq2
  · intro uid2 u2 hu2
    obtain ⟨hA, hB2⟩ := hinv uid2 u2 hu2
    constructor
    · intro tid2 htid2
      show taskPendingFor (setId db.tasks tid task1) uid2 tid2 = true
      have hne : tid2 ≠ tid := by
        intro hc
        have hx := hA tid2 htid2
        rw [hc, taskPendingFor_lookup htask, hassT] at hx
        simp only [Bool.and_eq_true, beq_iff_eq, Option.some.injEq] at hx
        rw [← hx.1] at hu2
        rw [hu2] at hdang
        cases hdang
      rw [taskPendingFor_setId_ne db.tasks tid task1 uid2 tid2 hne]
      exact hA tid2 htid2
    · intro tid2 t h2 hass hcomp
      have h3 : lookupId (setId db.tasks tid task1) tid2 = some t := h2
      rw [lookupId_setId_found task1 htask tid2] at h3
      by_cases hne : tid2 = tid
      · rw [if_pos hne] at h3
        cases h3
        rw [hass1] at hass
        cases hass
      · rw [if_neg hne] at h3
        exact hB2 tid2 t h3 hass hcomp

/-- Unassigning a task from an existing owner: clear the assignment and remove
the id from that owner's pendingTasks. -/
theorem preserve_unassign_remove (db : DB) (tid : Nat) (task : TaskRec)
    (ouid : Nat) (oldUser : UserRec) (task1 : TaskRec)
    (hwf : Wf db) (hinv : InvL db)
    (htask : lookupId db.tasks tid = some task)
    (holk : lookupId db.users ouid = some oldUser)
    (hassT : task.assignedUser = some ouid)
    (hass1 : task1.assignedUser = none) :
    Wf { users := setId db.users ouid (removePending oldUser tid),
         tasks := setId db.tasks tid task1,
         nextUserId := db.nextUserId, nextTaskId := db.nextTaskId } ∧
    InvL { users := setId db.users ouid (removePending oldUser tid),
           tasks := setId db.tasks tid task1,
           nextUserId := db.nextUserId, nextTaskId := db.nextTaskId } := by
  constructor
  · refine ⟨?_, ?_, ?_, ?_⟩
    · show ((setId db.users ouid (removePending oldUser tid)).map Prod.fst).Nodup
      rw [keys_setId]
      exact hwf.1
    · show ((setId db.tasks tid task1).map Prod.fst).Nodup
      rw [keys_setId]
      exact hwf.2.1
    · intro q hq
      rcases mem_setId hq with hqe | hq2
      · rw [hqe]
        exact wf_user_lt hwf holk
      · exact hwf.2.2.1 q hq2
    · intro q hq
      rcases mem_setId hq with hqe | hq2
      · rw [hqe]
        refine ⟨wf_task_lt hwf htask, ?_⟩
        unfold assignedUnder
        rw [hass1]
      · exact hwf.2.2.2 q hq2
  · intro uid2 u2 hu2
    have hu2a : lookupId (setId db.users ouid (removePending oldUser tid)) uid2
        = some u2 := hu2
    rw [lookupId_setId_found (removePending oldUser tid) holk uid2] at hu2a
    by_cases heo : uid2 = ouid
    · rw [if_pos heo] at hu2a
      cases hu2a
      obtain ⟨hA, hB2⟩ := hinv ouid oldUser holk
      constructor
      · intro tid2 htid2
        show taskPendingFor (setId db.tasks tid task1) uid2 tid2 = true
        rcases (mem_removePending oldUser tid tid2).mp htid2 with ⟨hold, hne2⟩
        rw [taskPendingFor_setId_ne db.tasks tid task1 uid2 tid2 hne2, heo]
        exact hA tid2 hold
      · intro tid2 t h2 hass hcomp
        have h3 : lookupId (setId db.tasks tid task1) tid2 = some t := h2
        rw [lookupId_setId_found task1 htask tid2] at h3
        by_cases hne2 : tid2 = tid
        · rw [if_pos hne2] at h3
          cases h3
          rw [hass1] at hass
          cases hass
        · rw [if_neg hne2] at h3
          rw [mem_removePending]
          rw [heo] at hass
          exact ⟨hB2 tid2 t h3 hass hcomp, hne2⟩
    · rw [if_neg heo] at hu2a
      obtain ⟨hA, hB2⟩ := hinv uid2 u2 hu2a
      constructor
      · intro tid2 htid2
        show taskPendingFor (setId db.tasks tid task1) uid2 tid2 = true
        have hne2 : tid2 ≠ tid := by
          intro hc
          have hx := hA tid2 htid2
          rw [hc, taskPendingFor_lookup htask, hassT] at hx
          simp only [Bool.and_eq_true, beq_iff_eq, Option.some.injEq] at hx
          exact heo hx.1.symm
        rw [taskPendingFor_setId_ne db.tasks tid task1 uid2 tid2 hne2]
        exact hA tid2 htid2
      · intro tid2 t h2 hass hcomp
        have h3 : lookupId (setId db.tasks tid task1) tid2 = some t := h2
        rw [lookupId_setId_found task1 htask tid2] at h3
        by_cases hne2 : tid2 = tid
        · rw [if_pos hne2] at h3
          cases h3
          rw [hass1] at hass
          cases hass
        · rw [if_neg hne2] at h3
          exact hB2 tid2 t h3 hass hcomp

/-- Completing a task in place for its current owner: mark it completed and
remove it from that owner's pendingTasks. -/
theorem preserve_same_complete (db : DB) (tid : Nat) (task : TaskRec)
    (nuid : Nat) (nu : UserRec) (task1 : TaskRec)
    (hwf : Wf db) (hinv : InvL db)
    (htask : lookupId db.tasks tid = some task)
    (hnu : lookupId db.users nuid = some nu)
    (hassT : task.assignedUser = some nuid)
    (hass1 : task1.assignedUser = some nuid)
    (hcomp1 : task1.completed = true) :
    Wf { users := setId db.users nuid (removePending nu tid),
         tasks := setId db.tasks tid task1,
         nextUserId := db.nextUserId, nextTaskId := db.nextTaskId } ∧
    InvL { users := setId db.users nuid (removePending nu tid),
           tasks := setId db.tasks tid task1,
           nextUserId := db.nextUserId, nextTaskId := db.nextTaskId } := by
  constructor
  · refine ⟨?_, ?_, ?_, ?_⟩
    · show ((setId db.users nuid (removePending nu tid)).map Prod.fst).Nodup
      rw [keys_setId]
      exact hwf.1
    · show ((setId db.tasks tid task1).map Prod.fst).Nodup
      rw [keys_setId]
      exact hwf.2.1
    · intro q hq
      rcases mem_setId hq with hqe | hq2
      · rw [hqe]
        exact wf_user_lt hwf hnu
      · exact hwf.2.2.1 q hq2
    · intro q hq
      rcases mem_setId hq with hqe | hq2
      · rw [hqe]
        refine ⟨wf_task_lt hwf htask, ?_⟩
        unfold assignedUnder
        rw [hass1]
        simp only [decide_eq_true_eq]
        exact wf_user_lt hwf hnu
      · exact hwf.2.2.2 q hq2
  · intro uid2 u2 hu2
    have hu2a : lookupId (setId db.users nuid (removePending nu tid)) uid2 = some u2 := hu2
    rw [lookupId_setId_found (removePending nu tid) hnu uid2] at hu2a
    by_cases hen : uid2 = nuid
    · rw [if_pos hen] at hu2a
      cases hu2a
      obtain ⟨hA, hB2⟩ := hinv nuid nu hnu
      constructor
      · intro tid2 htid2
        show taskPendingFor (setId db.tasks tid task1) uid2 tid2 = true
        rcases (mem_removePending nu tid tid2).mp htid2 with ⟨hold, hne2⟩
        rw [taskPendingFor_setId_ne db.tasks tid task1 uid2 tid2 hne2, hen]
        exact hA tid2 hold
      · intro tid2 t h2 hass hcomp
        have h3 : lookupId (setId db.tasks tid task1) tid2 = some t := h2
        rw [lookupId_setId_found task1 htask tid2] at h3
        by_cases hne2 : tid2 = tid
        · rw [if_pos hne2] at h3
          cases h3
          rw [hcomp1] at hcomp
          cases hcomp
        · rw [if_neg hne2] at h3
          rw [mem_removePending]
          rw [hen] at hass
          exact ⟨hB2 tid2 t h3 hass hcomp, hne2⟩
    · rw [if_neg hen] at hu2a
      obtain ⟨hA, hB2⟩ := hinv uid2 u2 hu2a
      constructor
      · intro tid2 htid2
        show taskPendingFor (setId db.tasks tid task1) uid2 tid2 = true
        have hne2 : tid2 ≠ tid := by
          intro hc
          have hx := hA tid2 htid2
          rw [hc, taskPendingFor_lookup htask, hassT] at hx
          simp only [Bool.and_eq_true, beq_iff_eq, Option.some.injEq] at hx
          exact hen hx.1.symm
        rw [taskPendingFor_setId_ne db.tasks tid task1 uid2 tid2 hne2]
        exact hA tid2 htid2
      · intro tid2 t h2 hass hcomp
        have h3 : lookupId (setId db.tasks tid task1) tid2 = some t := h2
        rw [lookupId_setId_found task1 htask tid2] at h3
        by_cases hne2 : tid2 = tid
        · rw [if_pos hne2] at h3
          cases h3
          rw [hass1] at hass
          cases hass
          exact absurd rfl hen
        · rw [if_neg hne2] at h3
          exact hB2 tid2 t h3 hass hcomp


/-- Branch normal form of updateTask when the completed-reassignment guard
fires. -/
theorem updateTask_guard1_eq (db : DB) (tid : Nat) (n d dl : String) (c : Bool)
    (a : Option Nat) (task : TaskRec) (newUser : Option (Nat × UserRec))
    (htask : lookupId db.tasks tid = some task)
    (hv : ¬(n = "" ∨ dl = ""))
    (hres : loadUserOrNull db a = Except.ok newUser)
    (hg1 : c = true ∧ task.assignedUser ≠ none ∧ newUser.map Prod.fst ≠ none ∧
      newUser.map Prod.fst ≠ task.assignedUser) :
    updateTask db tid n d dl c a =
      ({ db with
         tasks := setId db.tasks tid
           { task with name := n, description := d, deadline := dl, completed := c } },
       Except.ok
         ({ task with name := n, description := d, deadline := dl, completed := c },
          { TCounters.zero with completedNotReassigned := 1 })) := by
  unfold updateTask
  rw [htask]
  simp only []
  rw [if_neg hv, hres]
  simp only []
  rw [if_pos hg1]

theorem preserve_updateTask (db : DB) (tid : Nat) (n d dl : String) (c : Bool)
    (a : Option Nat) (hwf : Wf db) (hinv : InvL db)
    (hok : okOpB db (Op.updateTask tid n d dl c a) = true) :
    Wf (applyOp db (Op.updateTask tid n d dl c a)) ∧
    InvL (applyOp db (Op.updateTask tid n d dl c a)) := by
  simp only [applyOp]
  unfold updateTask
  split
  · exact ⟨hwf, hinv⟩
  · rename_i task htask
    by_cases hv : (n = "" ∨ dl = "")
    · rw [if_pos hv]
      exact ⟨hwf, hinv⟩
    · rw [if_neg hv]
      split
      · exact ⟨hwf, hinv⟩
      · rename_i newUser hres
        by_cases hg1 : (c = true ∧ task.assignedUser ≠ none ∧
            newUser.map Prod.fst ≠ none ∧ newUser.map Prod.fst ≠ task.assignedUser)
        · rw [if_pos hg1]
          have hoc : task.completed = true := by
            simp only [okOpB] at hok
            rw [updateTask_guard1_eq db tid n d dl c a task newUser htask hv hres hg1] at hok
            rw [htask] at hok
            simpa using hok
          refine preserve_setTask_pendEq db tid task _ hwf hinv htask ?_ ?_
          · exact wf_taskB hwf tid task htask
          · intro w
            simp [hg1.1, hoc]
        · rw [if_neg hg1]
          by_cases hg2 : (c = true ∧ task.assignedUser = none ∧ newUser.map Prod.fst ≠ none)
          · rw [if_pos hg2]
            obtain ⟨nuid, nu, hnueq⟩ : ∃ nuid nu, newUser = some (nuid, nu) := by
              cases newUser with
              | none => exact absurd rfl hg2.2.2
              | some pr => exact ⟨pr.1, pr.2, by simp⟩
            subst hnueq
            have hnu : lookupId db.users nuid = some nu := loadUserOrNull_ok_some hres
            refine preserve_setTask_pendEq db tid task _ hwf hinv htask ?_ ?_
            · show decide (nuid < db.nextUserId) = true
              simp only [decide_eq_true_eq]
              exact wf_user_lt hwf hnu
            · intro w
              simp [hg2.1, hg2.2.1]
          · rw [if_neg hg2]
            simp only []
            by_cases hdiff : task.assignedUser ≠ newUser.map Prod.fst
            · rw [if_pos hdiff]
              simp only []
              by_cases hs2 : (newUser.map Prod.fst ≠ none ∧ c = false)
              · obtain ⟨hnn, hcf⟩ := hs2
                obtain ⟨nuid, nu, hnueq⟩ : ∃ nuid nu, newUser = some (nuid, nu) := by
                  cases newUser with
                  | none => simp at hnn
                  | some pr => exact ⟨pr.1, pr.2, by simp⟩
                subst hnueq
                have hnu : lookupId db.users nuid = some nu := loadUserOrNull_ok_some hres
                rw [if_pos ⟨hnn, hcf⟩]
                simp only []
                cases hON : task.assignedUser with
                | none =>
                  refine preserve_reassign_add db tid task nuid nu _ hwf hinv htask hnu
                    ?_ ?_ ?_
                  · rfl
                  · exact hcf
                  · intro uid2 u2 hu2x hmem
                    have hx := (hinv uid2 u2 hu2x).1 tid hmem
                    rw [taskPendingFor_lookup htask, hON] at hx
                    simp at hx
                | some ouid =>
                  simp only []
                  cases holk : lookupId db.users ouid with
                  | none =>
                    simp only []
                    refine preserve_reassign_add db tid task nuid nu _ hwf hinv htask hnu
                      ?_ ?_ ?_
                    · rfl
                    · exact hcf
                    · intro uid2 u2 hu2x hmem
                      have hx := (hinv uid2 u2 hu2x).1 tid hmem
                      rw [taskPendingFor_lookup htask, hON] at hx
                      simp only [Bool.and_eq_true, beq_iff_eq, Option.some.injEq] at hx
                      rw [← hx.1] at hu2x
                      rw [holk] at hu2x
                      cases hu2x
                  | some oldUser =>
                    simp only []
                    have honeq : ouid ≠ nuid := by
                      intro hc
                      apply hdiff
                      rw [hON, hc]
                      rfl
                    refine preserve_reassign_move db tid task ouid oldUser nuid nu _
                      hwf hinv htask holk hnu honeq hON ?_ ?_
                    · rfl
                    · exact hcf
              · rw [if_neg hs2]
                have hnueqN : newUser = none := by
                  cases newUser with
                  | none => rfl
                  | some pr =>
                    exfalso
                    have hnn : Option.map Prod.fst (some pr) ≠ (none : Option Nat) := by
                      simp
                    have hct : c = true := by
                      cases c with
                      | true => rfl
                      | false => exact absurd ⟨hnn, rfl⟩ hs2
                    cases hO : task.assignedUser with
                    | none => exact hg2 ⟨hct, hO, hnn⟩
                    | some o =>
                      refine hg1 ⟨hct, ?_, hnn, fun hh => hdiff hh.symm⟩
                      rw [hO]
                      simp
                subst hnueqN
                cases hON : task.assignedUser with
                | none => exact absurd hON hdiff
                | some ouid =>
                  simp only []
                  cases holk : lookupId db.users ouid with
                  | none =>
                    simp only []
                    refine preserve_unassign_dangling db tid task ouid _ hwf hinv htask
                      hON holk ?_
                    rfl
                  | some oldUser =>
                    simp only []
                    refine preserve_unassign_remove db tid task ouid oldUser _ hwf hinv
                      htask holk hON ?_
                    rfl
            · rw [if_neg hdiff]
              simp only []
              cases hnueq2 : newUser with
              | none =>
                rw [hnueq2] at hdiff
                have hsameN : task.assignedUser = none := by
                  have hx := not_not.mp hdiff
                  simpa using hx
                refine preserve_setTask_pendEq db tid task _ hwf hinv htask ?_ ?_
                · rfl
                · intro w
                  simp [hsameN]
              | some pr =>
                obtain ⟨nuid, nu⟩ := pr
                rw [hnueq2] at hres hdiff
                have hnu : lookupId db.users nuid = some nu := loadUserOrNull_ok_some hres
                have hassT : task.assignedUser = some nuid := by
                  have hx := not_not.mp hdiff
                  simpa using hx
                simp only [Option.map_some']
                rw [hnu]
                simp only []
                by_cases hsc : (task.completed = false ∧ c = true)
                · rw [if_pos hsc]
                  refine preserve_same_complete db tid task nuid nu _ hwf hinv htask hnu
                    hassT ?_ ?_
                  · rfl
                  · exact hsc.2
                · rw [if_neg hsc]
                  by_cases hsr : (task.completed = true ∧ c = false)
                  · rw [if_pos hsr]
                    refine preserve_reassign_add db tid task nuid nu _ hwf hinv htask hnu
                      ?_ ?_ ?_
                    · rfl
                    · exact hsr.2
                    · intro uid2 u2 hu2x hmem
                      have hx := (hinv uid2 u2 hu2x).1 tid hmem
                      rw [taskPendingFor_lookup htask, hsr.1] at hx
                      simp at hx
                  · rw [if_neg hsr]
                    have hcc : task.completed = c := by
                      cases hc1 : task.completed <;> cases hc2 : c <;> simp_all
                    refine preserve_setTask_pendEq db tid task _ hwf hinv htask ?_ ?_
                    · show decide (nuid < db.nextUserId) = true
                      simp only [decide_eq_true_eq]
                      exact wf_user_lt hwf hnu
                    · intro w
                      simp [hassT, hcc]


theorem wf_initDB : Wf initDB := by
  refine ⟨List.nodup_nil, List.nodup_nil, ?_, ?_⟩ <;> intro q hq <;> cases hq

theorem invL_initDB : InvL initDB := by
  intro uid u h
  simp [initDB, lookupId] at h

/-- One non-excluded operation preserves well-formedness and the lookup mirror
invariant. -/
theorem preserve_applyOp (db : DB) (op : Op) (hwf : Wf db) (hinv : InvL db)
    (hok : okOpB db op = true) :
    Wf (applyOp db op) ∧ InvL (applyOp db op) := by
  cases op with
  | createUser n e p => exact preserve_createUser db n e p hwf hinv hok
  | updateUser uid n e p => exact preserve_updateUser db uid n e p hwf hinv hok
  | deleteUser uid => exact preserve_deleteUser db uid hwf hinv
  | createTask n d dl c a => exact preserve_createTask db n d dl c a hwf hinv
  | updateTask tid n d dl c a => exact preserve_updateTask db tid n d dl c a hwf hinv hok
  | deleteTask tid => exact preserve_deleteTask db tid hwf hinv

theorem goodSeq_inv (ops : List Op) :
    ∀ db : DB, Wf db → InvL db → goodSeq db ops = true →
    Wf (applyOps db ops) ∧ InvL (applyOps db ops) := by
  induction ops with
  | nil =>
    intro db hwf hinv _
    exact ⟨hwf, hinv⟩
  | cons op rest ih =>
    intro db hwf hinv hg
    have hg2 : okOpB db op = true ∧ goodSeq (applyOp db op) rest = true := by
      simpa [goodSeq, Bool.and_eq_true] using hg
    obtain ⟨hwf2, hinv2⟩ := preserve_applyOp db op hwf hinv hg2.1
    have hx := ih (applyOp db op) hwf2 hinv2 hg2.2
    simpa [applyOps, List.foldl_cons] using hx


/-- C1 (amended): for every operation sequence from the empty store in which no
createUser/updateUser response reports a stolen task (reassigned counter
nonzero) and every completed-guard rejection of updateTask happens on a task
that was already completed, the mirror invariant holds after each operation:
every user's pendingTasks lists exactly the ids of the existing tasks assigned
to that user and not completed (every prefix of such a sequence again
satisfies goodSeq, so the final-state statement covers each intermediate
state). -/
theorem c1_mirror_invariant_amended (ops : List Op)
    (hg : goodSeq initDB ops = true) :
    MirrorInv (applyOps initDB ops) := by
  obtain ⟨hwf, hinv⟩ := goodSeq_inv ops initDB wf_initDB invL_initDB hg
  exact mirrorInv_of_invL hwf hinv

/-- C1 counterexample: a second createUser whose requested pendingTasks list
names another user's incomplete task steals the task without cleaning the
first user's pendingTasks, so the mirror invariant fails after the operation
completes. -/
theorem c1_mirror_invariant_counterexample :
    ¬ MirrorInv (applyOps initDB
      [Op.createUser "A" "a@x" none,
       Op.createTask "T" "" "d" false (some 0),
       Op.createUser "B" "b@x" (some [0])]) := by
  decide

/-- C1 witness: the amended theorem at a concrete benign sequence. -/
theorem c1_mirror_invariant_amended_witness :
    goodSeq initDB [Op.createUser "A" "a@x" none,
      Op.createTask "T" "" "d" false (some 0)] = true ∧
    MirrorInv (applyOps initDB [Op.createUser "A" "a@x" none,
      Op.createTask "T" "" "d" false (some 0)]) :=
  ⟨by decide, c1_mirror_invariant_amended _ (by decide)⟩

end TaskSync
